import Mathlib

/-!
# UNIX socket checkpoint/restore engine (`sockets.c`)

A shallow embedding of the socket table, the listening-icon index, the per-fd
UNIX dumper, the image loader and the peer resolver of `sockets.c`, followed by
theorems about them.

Conventions of the embedding

* A C pointer to a heap object is the index of that object in a list (an
  arena).  `NULL` is `none`.
* `int` values are `Int`, unsigned values are `Nat`; the conversions between
  the two that the C code performs implicitly are the explicit functions
  `to_u32` and `to_int`.
* A function in which the C code can index outside an array or follow an
  invalid pointer returns an `Option`: `none` is undefined behaviour, and
  `some (ret, state)` is a normal return with return value `ret`.
* The results of the calls that leave the program (allocation, `stat`, image
  writes) are inputs of the functions.
-/

namespace Criu

/-! ## Constants -/

/-- Socket type `SOCK_STREAM` of `<sys/socket.h>`. -/
def SOCK_STREAM : Nat := 1

/-- Socket type `SOCK_DGRAM` of `<sys/socket.h>`. -/
def SOCK_DGRAM : Nat := 2

/-- State `TCP_ESTABLISHED` of `<netinet/tcp.h>`. -/
def TCP_ESTABLISHED : Nat := 1

/-- State `TCP_CLOSE` of `<netinet/tcp.h>`. -/
def TCP_CLOSE : Nat := 7

/-- State `TCP_LISTEN` of `<netinet/tcp.h>`. -/
def TCP_LISTEN : Nat := 10

/-- Address family `AF_UNIX`. -/
def AF_UNIX : Int := 1

/-- Size of `sun_path` in `struct sockaddr_un`. -/
def UNIX_PATH_MAX : Nat := 108

/-- Number of buckets of the socket table and of the icon index
(`#define SK_HASH_SIZE 32`). -/
def SK_HASH_SIZE : Nat := 32

/-- Modelled from the spec: `image.h` is not part of the sources; the spec
gives the one defined bit of `uflags` as `EXTERN = 1`. -/
def USK_EXTERN : Nat := 1

/-- Role flag `#define USK_PAIR_MASTER 0x1`. -/
def USK_PAIR_MASTER : Nat := 1

/-- Role flag `#define USK_PAIR_SLAVE 0x2`. -/
def USK_PAIR_SLAVE : Nat := 2

/-! ## Image records -/

/-- Modelled from the spec: `struct unix_sk_entry` of `image.h` (not part of
the sources), with the fields of the record table of the spec.  All fields are
`u32`; `fown` is kept as an uninterpreted block of words. -/
structure unix_sk_entry where
  id : Nat
  type : Nat
  state : Nat
  namelen : Nat
  flags : Nat
  backlog : Nat
  peer : Nat
  fown : List Nat
  uflags : Nat
deriving DecidableEq, Repr

/-- One item of the UNIX socket image: a whole `unix_sk_entry` written by
`write_img`, or one raw byte written by `write_img_buf`.  The byte layout of a
record belongs to the image layer and is not modelled. -/
inductive img_item where
  | entry (e : unix_sk_entry)
  | byte (b : Nat)
deriving DecidableEq, Repr

/-! ## Restore side -/

/-- Modelled from the spec: the `(pid, fd)` of a descriptor-list entry
(`struct fdinfo_list_entry` of `files.h`, not part of the sources). -/
structure fdinfo_list_entry where
  pid : Int
  fd : Nat
deriving DecidableEq, Repr

/-- The restore-side `struct unix_sk_info`.  `peer` is the index of the peer
in the list of all loaded sockets.  The embedded `file_desc` belongs to the
descriptor registry; what `file_master` returns for it is an input of
`resolve_unix_peers`. -/
structure unix_sk_info where
  ue : unix_sk_entry
  name : Option (List Nat)
  flags : Nat
  peer : Option Nat
deriving DecidableEq, Repr

/-- State of the restore phase: the list `unix_sockets` in `list_add_tail`
order (the registry holds the same objects under their ids) and the paths
handed to `unlink`. -/
structure restore_state where
  unix_sockets : List unix_sk_info
  unlinked : List (List Nat)
deriving DecidableEq, Repr

/-- What `open_image_ro(CR_FD_UNIXSK)` gives: no image (`ENOENT`), another
error, or the items of the image. -/
inductive open_result where
  | enoent
  | error
  | ok (img : List img_item)
deriving DecidableEq, Repr

/-- The call `read_img_buf(fd, buf, n)`: the next `n` items of the image, all
of which must be raw bytes; `none` is a negative return value. -/
def read_img_buf : Nat → List img_item → Option (List Nat × List img_item)
  | 0, img => some ([], img)
  | n + 1, img_item.byte b :: rest =>
    match read_img_buf n rest with
    | some (bs, rest') => some (b :: bs, rest')
    | none => none
  | _ + 1, _ => none

/-- The tail of one iteration of the loop of `collect_unix_sockets`:
`ui->peer = NULL; ui->flags = 0; file_desc_add(...); list_add_tail(...)`. -/
def register_unix_sk (st : restore_state) (e : unix_sk_entry) (name : Option (List Nat)) :
    restore_state :=
  { st with unix_sockets := st.unix_sockets ++ [{ ue := e, name := name, flags := 0, peer := none }] }

/-- The `while (1)` loop of `collect_unix_sockets`.  `budget` is the number of
`xmalloc` calls that still succeed.  The result is the local variable `ret` at
the `break` and the state.  Every iteration that continues consumes an item, so
a first argument larger than the length of the image is never used up. -/
def collect_loop : Nat → Nat → List img_item → restore_state → Int × restore_state
  | 0, _, _, st => (-1, st)
  | fuel + 1, budget, img, st =>
    -- ui = xmalloc(sizeof(*ui)); ret = -1; if (ui == NULL) break;
    if budget = 0 then (-1, st)
    else
      -- ret = read_img_eof(fd, &ui->ue); if (ret <= 0) break;
      match img with
      | [] => (0, st)
      | img_item.byte _ :: _ => (-1, st)
      | img_item.entry e :: rest =>
        if e.namelen ≠ 0 then
          if e.namelen = 0 ∨ e.namelen ≥ UNIX_PATH_MAX then (-1, st)
          else if budget - 1 = 0 then (-1, st)
          else
            match read_img_buf e.namelen rest with
            | none => (-1, st)
            | some (bytes, rest') =>
              let st1 : restore_state :=
                if bytes.head? ≠ some 0 ∧ e.uflags &&& USK_EXTERN = 0 then
                  { st with unlinked := st.unlinked ++ [bytes] }
                else st
              collect_loop fuel (budget - 2) rest' (register_unix_sk st1 e (some bytes))
        else
          collect_loop fuel (budget - 1) rest (register_unix_sk st e none)

/-- The function `collect_unix_sockets`.  `read_sk_queues` is the value the
queue-image loader returns. -/
def collect_unix_sockets (opn : open_result) (budget : Nat) (read_sk_queues : Int)
    (st : restore_state) : Int × restore_state :=
  match opn with
  | open_result.enoent => (0, st)
  | open_result.error => (-1, st)
  | open_result.ok img =>
    let r := collect_loop (img.length + 1) budget img st
    -- close(fd); return read_sk_queues();
    (read_sk_queues, r.2)

/-- Position of the first occurrence of `id` in a list of ids. -/
def idx_of : List Nat → Nat → Option Nat
  | [], _ => none
  | x :: xs, id =>
    if x = id then some 0
    else
      match idx_of xs id with
      | some j => some (j + 1)
      | none => none

/-- Modelled from the spec: `find_unix_sk` asks the descriptor registry
(`find_file_desc_raw`, not part of the sources) for the UNIX socket registered
under `id`; the registry answers with the first one registered. -/
def find_unix_sk (l : List unix_sk_info) (id : Nat) : Option Nat :=
  idx_of (l.map fun x => x.ue.id) id

/-- Apply `f` to the object at index `i`. -/
def upd (l : List unix_sk_info) (i : Nat) (f : unix_sk_info → unix_sk_info) :
    List unix_sk_info :=
  match l[i]? with
  | some x => l.set i (f x)
  | none => l

/-- The comparison of `resolve_unix_peers` that selects who restores a pair. -/
def master_lt (x y : fdinfo_list_entry) : Bool :=
  decide (x.pid < y.pid) || (decide (x.pid = y.pid) && decide (x.fd < y.fd))

/-- One iteration of the first loop of `resolve_unix_peers`, for the socket at
index `i`.  `ext` is `opts.ext_unix_sk`, `fm i` is `file_master(&ui->d)`.  The
boolean is `false` when the iteration executes `return -1`. -/
def resolve_one (ext : Bool) (fm : Nat → fdinfo_list_entry) (l : List unix_sk_info)
    (i : Nat) : Bool × List unix_sk_info :=
  match l[i]? with
  | none => (true, l)
  | some ui =>
    if ui.peer.isSome then (true, l)
    else if ui.ue.peer = 0 then (true, l)
    else
      match find_unix_sk l ui.ue.peer with
      | none => (false, l)
      | some j =>
        match l[j]? with
        | none => (false, l)
        | some pr =>
          if pr.ue.uflags &&& USK_EXTERN ≠ 0 ∧ ext = false then (false, l)
          else
            -- ui->peer = peer;
            let l1 := upd l i fun x => { x with peer := some j }
            if i = j then (true, l1)
            else if pr.ue.peer ≠ ui.ue.id then (true, l1)
            else
              -- peer->peer = ui;
              let l2 := upd l1 j fun x => { x with peer := some i }
              if master_lt (fm i) (fm j) then
                let l3 := upd l2 i fun x => { x with flags := x.flags ||| USK_PAIR_MASTER }
                (true, upd l3 j fun x => { x with flags := x.flags ||| USK_PAIR_SLAVE })
              else
                let l3 := upd l2 j fun x => { x with flags := x.flags ||| USK_PAIR_MASTER }
                (true, upd l3 i fun x => { x with flags := x.flags ||| USK_PAIR_SLAVE })

/-- The first loop of `resolve_unix_peers` over the given indices. -/
def resolve_from (ext : Bool) (fm : Nat → fdinfo_list_entry) :
    List Nat → List unix_sk_info → Int × List unix_sk_info
  | [], l => (0, l)
  | i :: rest, l =>
    match resolve_one ext fm l i with
    | (false, l') => (-1, l')
    | (true, l') => resolve_from ext fm rest l'

/-- The function `resolve_unix_peers` (its second loop only prints). -/
def resolve_unix_peers (ext : Bool) (fm : Nat → fdinfo_list_entry) (l : List unix_sk_info) :
    Int × List unix_sk_info :=
  resolve_from ext fm (List.range l.length) l

/-- The links and role flags of the two sockets at indices `ia` and `ib`. -/
def pair_state (l : List unix_sk_info) (ia ib : Nat) (pa pb : Option Nat) (fa fb : Nat) :
    Prop :=
  ∃ x y, l[ia]? = some x ∧ l[ib]? = some y ∧ x.peer = pa ∧ y.peer = pb ∧
    x.flags = fa ∧ y.flags = fb

/-! ### Concrete restore-side inputs used in the examples -/

/-- A record with the given id, peer id and `uflags`; a datagram socket. -/
def sample_entry (id peer uflags : Nat) : unix_sk_entry :=
  { id := id, type := SOCK_DGRAM, state := TCP_ESTABLISHED, namelen := 0, flags := 0,
    backlog := 0, peer := peer, fown := [], uflags := uflags }

/-- A freshly loaded socket: no peer link, no role flags. -/
def sample_info (id peer uflags : Nat) : unix_sk_info :=
  { ue := sample_entry id peer uflags, name := none, flags := 0, peer := none }

/-- The socket at index 0 is owned by fd 4 of pid 7, every other one by fd 3 of pid 7. -/
def sample_master (i : Nat) : fdinfo_list_entry :=
  if i = 0 then { pid := 7, fd := 4 } else { pid := 7, fd := 3 }

/-- Two sockets connected to each other, ids 10 and 11. -/
def sample_pair : List unix_sk_info :=
  [sample_info 10 11 0, sample_info 11 10 0]

/-- Two sockets naming each other as peer; the first one is marked external. -/
def extern_first : List unix_sk_info :=
  [sample_info 1 2 USK_EXTERN, sample_info 2 1 0]

/-- The sockets of `extern_first` in the other order. -/
def extern_last : List unix_sk_info :=
  [sample_info 2 1 0, sample_info 1 2 USK_EXTERN]

/-! ## Checkpoint side: data model -/

/-- C conversion of an `int` to `u32` / `unsigned int`. -/
def to_u32 (i : Int) : Nat :=
  (i % 4294967296).toNat

/-- C conversion of a `u32` / `unsigned int` to `int`. -/
def to_int (n : Nat) : Int :=
  if n % 4294967296 < 2147483648 then ((n % 4294967296 : Nat) : Int)
  else ((n % 4294967296 : Nat) : Int) - 4294967296

/-- The C expression `ino % SK_HASH_SIZE` for an `int ino`: the remainder of
the division that truncates towards zero. -/
def sk_bucket (ino : Int) : Int :=
  Int.tmod ino (SK_HASH_SIZE : Int)

/-- The array access `tbl[k]` of one of the two bucket arrays; `none` when `k`
is outside the array. -/
def bucket_at {α : Type} (tbl : List (List α)) (k : Int) : Option (List α) :=
  if k < 0 then none else tbl[k.toNat]?

/-- The assignment `tbl[k] = chain`; `none` when `k` is outside the array. -/
def bucket_set {α : Type} (tbl : List (List α)) (k : Int) (chain : List α) :
    Option (List (List α)) :=
  if k < 0 then none
  else if k.toNat < tbl.length then some (tbl.set k.toNat chain)
  else none

/-- A pointer to a `struct list_head`: the head `unix_sockets`, or the member
`list` of the descriptor at an index of the heap. -/
inductive list_ref where
  | head
  | node (d : Nat)
deriving DecidableEq, Repr

/-- Modelled from the spec: `struct list_head` of `list.h` (not part of the
sources), the node of the intrusive doubly linked list that holds the
external-defer list. -/
structure list_head where
  next : list_ref
  prev : list_ref
deriving DecidableEq, Repr

/-- Modelled from the spec: `struct socket_desc` of `sockets.h` (not part of
the sources): identity `ino`, `family` and the dumped flag.  The member `next`
is the order of the chain the descriptor is on. -/
structure socket_desc where
  family : Int
  ino : Int
  already_dumped : Int
deriving DecidableEq, Repr

/-- The `struct unix_sk_desc`.  `name` is the buffer `name` points to, with
its terminating zero byte. -/
structure unix_sk_desc where
  sd : socket_desc
  type : Nat
  state : Nat
  peer_ino : Nat
  rqlen : Nat
  wqlen : Nat
  namelen : Nat
  name : Option (List Nat)
  nr_icons : Nat
  icons : Option (List Nat)
  list : list_head
deriving DecidableEq, Repr

/-- The `struct unix_sk_listen_icon`; `sk_desc` is a pointer into the heap of
descriptors, `next` is the order of the chain. -/
structure unix_sk_listen_icon where
  peer_ino : Nat
  sk_desc : Nat
deriving DecidableEq, Repr

/-- Modelled from the spec: the type tag of a per-fd record (`image.h` is not
part of the sources). -/
inductive fd_type where
  | FDINFO_UNIXSK
  | other
deriving DecidableEq, Repr

/-- Modelled from the spec: the per-fd record `{fd, type, id, flags}` of
`image.h`. -/
structure fdinfo_entry where
  fd : Nat
  type : fd_type
  id : Nat
  flags : Nat
deriving DecidableEq, Repr

/-- Modelled from the spec: the members of `struct fd_parms` (`files.h`, not
part of the sources) that `dump_one_unix` reads, at the width of the image
fields they are copied to. -/
structure fd_parms where
  fd : Nat
  fd_flags : Nat
  flags : Nat
  fown : List Nat
deriving DecidableEq, Repr

/-- State of the checkpoint phase: the heap of descriptors, the two bucket
arrays `sockets` and `unix_listen_icons`, the head `unix_sockets` of the
external-defer list, the per-fd records written (each with the image set it
went to), the UNIX socket image, and the ids handed to `dump_sk_queue`. -/
structure dump_state where
  descs : List unix_sk_desc
  sockets : List (List Nat)
  unix_listen_icons : List (List unix_sk_listen_icon)
  unix_sockets : list_head
  fdinfo_img : List (Nat × fdinfo_entry)
  unixsk_img : List img_item
  sk_queues : List Nat
deriving DecidableEq, Repr

/-- The state at program start: empty heap, 32 empty buckets in each array,
empty external-defer list (`LIST_HEAD(unix_sockets)`), empty images. -/
def init_state : dump_state :=
  { descs := [],
    sockets := List.replicate SK_HASH_SIZE [],
    unix_listen_icons := List.replicate SK_HASH_SIZE [],
    unix_sockets := { next := list_ref.head, prev := list_ref.head },
    fdinfo_img := [], unixsk_img := [], sk_queues := [] }

/-- What `xzalloc(sizeof(struct unix_sk_desc))` followed by
`INIT_LIST_HEAD(&d->list)` gives for the descriptor at address `d`. -/
def zero_desc (d : Nat) : unix_sk_desc :=
  { sd := { family := 0, ino := 0, already_dumped := 0 },
    type := 0, state := 0, peer_ino := 0, rqlen := 0, wqlen := 0, namelen := 0,
    name := none, nr_icons := 0, icons := none,
    list := { next := list_ref.node d, prev := list_ref.node d } }

/-! ## Checkpoint side: the socket table and the icon index -/

/-- The loop of `lookup_socket` along one chain; `none` when a link of the
chain is not a valid pointer. -/
def walk_sockets (descs : List unix_sk_desc) (ino : Int) : List Nat → Option (Option Nat)
  | [] => some none
  | d :: rest =>
    match descs[d]? with
    | none => none
    | some x => if x.sd.ino = ino then some (some d) else walk_sockets descs ino rest

/-- The function `lookup_socket`. -/
def lookup_socket (st : dump_state) (ino : Int) : Option (Option Nat) :=
  match bucket_at st.sockets (sk_bucket ino) with
  | none => none
  | some chain => walk_sockets st.descs ino chain

/-- The function `lookup_unix_listen_icons`; the comparison
`ic->peer_ino == peer_ino` is done in `unsigned int`. -/
def lookup_unix_listen_icons (st : dump_state) (peer_ino : Int) :
    Option (Option unix_sk_listen_icon) :=
  match bucket_at st.unix_listen_icons (sk_bucket peer_ino) with
  | none => none
  | some chain => some (chain.find? fun ic => decide (ic.peer_ino = to_u32 peer_ino))

/-- The function `sk_collect_one` for a descriptor `d` that is on no chain yet. -/
def sk_collect_one (st : dump_state) (ino family : Int) (d : Nat) :
    Option (Int × dump_state) :=
  match st.descs[d]? with
  | none => none
  | some x =>
    let descs := st.descs.set d { x with sd := { x.sd with ino := ino, family := family } }
    match bucket_at st.sockets (sk_bucket ino) with
    | none => none
    | some chain =>
      match bucket_set st.sockets (sk_bucket ino) (d :: chain) with
      | none => none
      | some tbl => some (0, { st with descs := descs, sockets := tbl })

/-- A caller of `sk_collect_one` as in `unix_collect_one`: allocate a zeroed
descriptor, then collect it. -/
def sk_collect_fresh (st : dump_state) (ino family : Int) : Option (Int × dump_state) :=
  sk_collect_one { st with descs := st.descs ++ [zero_desc st.descs.length] } ino family
    st.descs.length

/-- A sequence of `sk_collect_one` calls, each for a fresh descriptor, with the
given `(ino, family)` arguments. -/
def sk_collect_seq : List (Int × Int) → dump_state → Option dump_state
  | [], st => some st
  | (ino, family) :: rest, st =>
    match sk_collect_fresh st ino family with
    | none => none
    | some (_, st') => sk_collect_seq rest st'

/-- The chain link `d` is the address of a descriptor with inode `ino`. -/
def has_ino (descs : List unix_sk_desc) (ino : Int) (d : Nat) : Bool :=
  match descs[d]? with
  | some x => decide (x.sd.ino = ino)
  | none => false

/-- Number of entries with inode `ino` on all chains of the socket table. -/
def count_ino (st : dump_state) (ino : Int) : Nat :=
  (st.sockets.map fun chain => (chain.filter (has_ino st.descs ino)).length).sum

/-! ## Checkpoint side: the UNIX decoder -/

/-- The `struct unix_diag_msg` header. -/
structure unix_diag_msg where
  udiag_type : Nat
  udiag_state : Nat
  udiag_ino : Nat
deriving DecidableEq, Repr

/-- Payload of the attribute `UNIX_DIAG_VFS`. -/
structure unix_diag_vfs where
  udiag_vfs_ino : Nat
  udiag_vfs_dev : Nat
deriving DecidableEq, Repr

/-- Payload of the attribute `UNIX_DIAG_RQLEN`. -/
structure unix_diag_rqlen where
  udiag_rqueue : Nat
  udiag_wqueue : Nat
deriving DecidableEq, Repr

/-- The parsed attribute table `tb`: for each attribute its payload, if
present.  `NAME` is a byte string, `ICONS` an array of `u32`. -/
structure unix_diag_attrs where
  peer : Option Nat
  name : Option (List Nat)
  vfs : Option unix_diag_vfs
  icons : Option (List Nat)
  rqlen : Option unix_diag_rqlen
deriving DecidableEq, Repr

/-- What the environment answers during one call of `unix_collect_one`:
whether the three allocations of the descriptor, the name and the icons array
succeed, how many allocations of icon entries succeed, what `stat(name)`
returns (`none` for a failure, else `(st_ino, st_dev)`), and the function
`kdev_to_odev`, which is not part of the sources. -/
structure collect_env where
  alloc_desc : Bool
  alloc_name : Bool
  alloc_icons : Bool
  icon_allocs : Nat
  stat : Option (Nat × Nat)
  kdev_to_odev : Nat → Nat

/-- Outcome of the `NAME` block of `unix_collect_one`: `goto err`, the
relative-path drop (`return 0`), or `d->namelen` and `d->name`. -/
inductive name_result where
  | err
  | dropped
  | named (namelen : Nat) (name : Option (List Nat))
deriving DecidableEq, Repr

/-- The block `if (tb[UNIX_DIAG_NAME]) { ... }` of `unix_collect_one`. -/
def decode_name (env : collect_env) (tb : unix_diag_attrs) : name_result :=
  match tb.name with
  | none => name_result.named 0 none
  | some payload =>
    if env.alloc_name = false then name_result.err
    else
      -- memcpy(name, RTA_DATA(...), len); name[len] = 0
      let name := payload ++ [0]
      if name.head? ≠ some 0 then
        if name.head? ≠ some 47 then name_result.dropped
        else
          match tb.vfs with
          | none => name_result.err
          | some uv =>
            match env.stat with
            | none => name_result.err
            | some (st_ino, st_dev) =>
              if st_ino ≠ uv.udiag_vfs_ino ∨ st_dev ≠ env.kdev_to_odev uv.udiag_vfs_dev then
                name_result.named 0 none
              else name_result.named payload.length (some name)
      else name_result.named payload.length (some name)

/-- The `for` loop over the icons in `unix_collect_one`, for the descriptor at
address `d`; `allocs` is the number of `xzalloc` calls that still succeed.
The boolean is `false` when the loop leaves through `goto err`. -/
def collect_icons (d : Nat) :
    List Nat → Nat → List (List unix_sk_listen_icon) →
      Option (Bool × List (List unix_sk_listen_icon))
  | [], _, tbl => some (true, tbl)
  | _ :: _, 0, tbl => some (false, tbl)
  | icon :: rest, allocs + 1, tbl =>
    -- n = d->icons[i];
    let n : Int := to_int icon
    match bucket_at tbl (sk_bucket n) with
    | none => none
    | some chain =>
      match bucket_set tbl (sk_bucket n) ({ peer_ino := to_u32 n, sk_desc := d } :: chain) with
      | none => none
      | some tbl' => collect_icons d rest allocs tbl'

/-- The end of `unix_collect_one`, from the `RQLEN` block on, for the
descriptor `dx` built so far at address `d`. -/
def collect_finish (st : dump_state) (m : unix_diag_msg) (tb : unix_diag_attrs) (d : Nat)
    (dx : unix_sk_desc) : Option (Int × dump_state) :=
  let dy : unix_sk_desc :=
    match tb.rqlen with
    | some rq => { dx with rqlen := rq.udiag_rqueue, wqlen := rq.udiag_wqueue }
    | none => dx
  -- sk_collect_one(m->udiag_ino, AF_UNIX, &d->sd);
  sk_collect_one { st with descs := st.descs ++ [dy] } (to_int m.udiag_ino) AF_UNIX d

/-- The blocks `NAME` and `ICONS` of `unix_collect_one` and what follows
them, for the descriptor `d1` built so far at address `d`. -/
def collect_attrs (st : dump_state) (env : collect_env) (m : unix_diag_msg)
    (tb : unix_diag_attrs) (d : Nat) (d1 : unix_sk_desc) : Option (Int × dump_state) :=
  match decode_name env tb with
  | name_result.err => some (-1, st)
  | name_result.dropped => some (0, st)
  | name_result.named namelen name =>
    let d2 : unix_sk_desc := { d1 with namelen := namelen, name := name }
    match tb.icons with
    | none => collect_finish st m tb d d2
    | some payload =>
      if env.alloc_icons = false then some (-1, st)
      else
        match collect_icons d payload env.icon_allocs st.unix_listen_icons with
        | none => none
        | some (false, tbl) =>
          -- goto err: the entries linked so far stay on their chains
          some (-1, { st with unix_listen_icons := tbl })
        | some (true, tbl) =>
          collect_finish { st with unix_listen_icons := tbl } m tb d
            { d2 with icons := some payload, nr_icons := payload.length }

/-- The function `unix_collect_one`.  The descriptor under construction lives
at address `st.descs.length`; it enters the heap when the function gets to
`sk_collect_one` and is released on the other paths. -/
def unix_collect_one (st : dump_state) (env : collect_env) (m : unix_diag_msg)
    (tb : unix_diag_attrs) : Option (Int × dump_state) :=
  if env.alloc_desc = false then some (-1, st)
  else
    let d : Nat := st.descs.length
    let d0 : unix_sk_desc := { zero_desc d with type := m.udiag_type, state := m.udiag_state }
    let d1 : unix_sk_desc :=
      match tb.peer with
      | some p => { d0 with peer_ino := to_u32 (to_int p) }
      | none => d0
    collect_attrs st env m tb d d1

/-! ## Checkpoint side: the external-defer list -/

/-- The `struct list_head` a pointer refers to; `none` for an invalid pointer. -/
def get_list (st : dump_state) : list_ref → Option list_head
  | list_ref.head => some st.unix_sockets
  | list_ref.node d =>
    match st.descs[d]? with
    | some x => some x.list
    | none => none

/-- Store into the `struct list_head` a pointer refers to. -/
def set_list (st : dump_state) (r : list_ref) (f : list_head → list_head) :
    Option dump_state :=
  match r with
  | list_ref.head => some { st with unix_sockets := f st.unix_sockets }
  | list_ref.node d =>
    match st.descs[d]? with
    | some x => some { st with descs := st.descs.set d { x with list := f x.list } }
    | none => none

/-- Modelled from the spec: `__list_add(new, prev, next)` of `list.h`:
`next->prev = new; new->next = next; new->prev = prev; prev->next = new`. -/
def list_add_between (st : dump_state) (new prev next : list_ref) : Option dump_state :=
  match set_list st next fun h => { h with prev := new } with
  | none => none
  | some s1 =>
    match set_list s1 new fun h => { h with next := next } with
    | none => none
    | some s2 =>
      match set_list s2 new fun h => { h with prev := prev } with
      | none => none
      | some s3 => set_list s3 prev fun h => { h with next := new }

/-- Modelled from the spec: `list_add_tail(new, head)` of `list.h`, which is
`__list_add(new, head->prev, head)`. -/
def list_add_tail (st : dump_state) (new hd : list_ref) : Option dump_state :=
  match get_list st hd with
  | none => none
  | some h => list_add_between st new h.prev hd

/-- Modelled from the spec: `list_del_init(entry)` of `list.h`:
`entry->next->prev = entry->prev; entry->prev->next = entry->next;
INIT_LIST_HEAD(entry)`. -/
def list_del_init (st : dump_state) (entry : list_ref) : Option dump_state :=
  match get_list st entry with
  | none => none
  | some e =>
    match set_list st e.next fun h => { h with prev := e.prev } with
    | none => none
    | some s1 =>
      match set_list s1 e.prev fun h => { h with next := e.next } with
      | none => none
      | some s2 => set_list s2 entry fun _ => { next := entry, prev := entry }

/-! ## Checkpoint side: the per-fd dumper -/

/-- The function `can_dump_unix_sk`. -/
def can_dump_unix_sk (sk : unix_sk_desc) : Int :=
  if sk.type ≠ SOCK_STREAM ∧ sk.type ≠ SOCK_DGRAM then 0
  else if sk.state = TCP_LISTEN then 1
  else if sk.state = TCP_ESTABLISHED then 1
  else if sk.state = TCP_CLOSE then
    if sk.type ≠ SOCK_DGRAM then 0 else 1
  else 0

/-- What the environment answers during one call of `dump_one_unix`: whether
the write of the per-fd record, of the `unix_sk_entry`, of the name bytes and
the call of `dump_sk_queue` succeed.  A write that fails leaves its image as
it was. -/
structure dump_env where
  write_fdinfo : Bool
  write_ue : Bool
  write_name : Bool
  dump_sk_queue : Bool
deriving DecidableEq, Repr

/-- The bytes `write_img_buf(fd, name, n)` reads from the buffer; `none` when
it reads outside the buffer. -/
def buf_bytes (name : Option (List Nat)) (n : Nat) : Option (List Nat) :=
  if n = 0 then some []
  else
    match name with
    | none => none
    | some b => if n ≤ b.length then some (b.take n) else none

/-- The peer block of `dump_one_unix`, `if (ue.peer) { ... } else if
(ue.state == TCP_ESTABLISHED) { ... }`.  The outer `none` is undefined
behaviour, the inner `none` is `goto err`. -/
def peer_fixup (st : dump_state) (ue : unix_sk_entry) :
    Option (Option (unix_sk_entry × dump_state)) :=
  if ue.peer ≠ 0 then
    match lookup_socket st (to_int ue.peer) with
    | none => none
    | some none => some none
    | some (some pp) =>
      match st.descs[pp]? with
      | none => none
      | some peer =>
        if peer.peer_ino ≠ ue.id then
          if peer.name = none then some none
          else if peer.sd.already_dumped = 0 then
            match list_add_tail st (list_ref.node pp) list_ref.head with
            | none => none
            | some st' => some (some (ue, st'))
          else some (some (ue, st))
        else some (some (ue, st))
  else if ue.state = TCP_ESTABLISHED then
    match lookup_unix_listen_icons st (to_int ue.id) with
    | none => none
    | some none => some none
    | some (some e) =>
      match st.descs[e.sk_desc]? with
      | none => none
      | some listener =>
        if listener.state ≠ TCP_LISTEN then some none
        else some (some ({ ue with peer := to_u32 listener.sd.ino }, st))
  else some (some (ue, st))

/-- The call of `dump_sk_queue(lfd, ue.id)` under its guard; `none` when the
call fails. -/
def queue_step (st : dump_state) (env : dump_env) (d : unix_sk_desc) (id : Nat) :
    Option dump_state :=
  if d.rqlen ≠ 0 ∧ ¬ (d.type = SOCK_STREAM ∧ d.state = TCP_LISTEN) then
    if env.dump_sk_queue = false then none
    else some { st with sk_queues := st.sk_queues ++ [id] }
  else some st

/-- The descriptor with `sd.already_dumped = 1`. -/
def set_dumped (d : unix_sk_desc) : unix_sk_desc :=
  { d with sd := { d.sd with already_dumped := 1 } }

/-- The two statements `list_del_init(&sk->list); sk->sd.already_dumped = 1;`
that end a successful dump. -/
def mark_dumped (st : dump_state) (sk : Nat) : Option dump_state :=
  match list_del_init st (list_ref.node sk) with
  | none => none
  | some st' =>
    match st'.descs[sk]? with
    | none => none
    | some d' => some { st' with descs := st'.descs.set sk (set_dumped d') }

/-- The end of `dump_one_unix`, from the write of the canonical entry on. -/
def dump_tail (st : dump_state) (env : dump_env) (sk : Nat) (d : unix_sk_desc)
    (ue : unix_sk_entry) : Option (Int × dump_state) :=
  if env.write_ue = false then some (-1, st)
  else
    let st1 : dump_state := { st with unixsk_img := st.unixsk_img ++ [img_item.entry ue] }
    match buf_bytes d.name ue.namelen with
    | none => none
    | some bytes =>
      if env.write_name = false then some (-1, st1)
      else
        let st2 : dump_state :=
          { st1 with unixsk_img := st1.unixsk_img ++ bytes.map img_item.byte }
        match queue_step st2 env d ue.id with
        | none => some (-1, st2)
        | some st3 =>
          match mark_dumped st3 sk with
          | none => none
          | some st4 => some (0, st4)

/-- The function `dump_one_unix` for the descriptor at address `sk`;
`cr_fdset` names the image set the per-fd record goes to. -/
def dump_one_unix (st : dump_state) (env : dump_env) (sk : Nat) (p : fd_parms)
    (cr_fdset : Nat) : Option (Int × dump_state) :=
  match st.descs[sk]? with
  | none => none
  | some d =>
    if can_dump_unix_sk d = 0 then some (-1, st)
    else
      let fe : fdinfo_entry :=
        { fd := p.fd, type := fd_type.FDINFO_UNIXSK, id := to_u32 d.sd.ino,
          flags := p.fd_flags }
      if env.write_fdinfo = false then some (-1, st)
      else
        let st1 : dump_state := { st with fdinfo_img := st.fdinfo_img ++ [(cr_fdset, fe)] }
        if d.sd.already_dumped ≠ 0 then some (0, st1)
        else
          let ue : unix_sk_entry :=
            { id := to_u32 d.sd.ino, type := d.type, state := d.state,
              namelen := d.namelen, flags := p.flags, backlog := d.wqlen,
              peer := d.peer_ino, fown := p.fown, uflags := 0 }
          match peer_fixup st1 ue with
          | none => none
          | some none => some (-1, st1)
          | some (some (ue', st2)) => dump_tail st2 env sk d ue'

/-- The canonical `unix_sk_entry` records of a UNIX socket image, in order. -/
def canonical_entries : List img_item → List unix_sk_entry
  | [] => []
  | img_item.entry e :: rest => e :: canonical_entries rest
  | img_item.byte _ :: rest => canonical_entries rest

/-- A descriptor without its list links. -/
def erase_list (x : unix_sk_desc) : unix_sk_desc :=
  { x with list := { next := list_ref.head, prev := list_ref.head } }

/-- The state `st'` differs from `st` in list links at most. -/
def links_only (st st' : dump_state) : Prop :=
  st'.descs.map erase_list = st.descs.map erase_list ∧
  st'.sockets = st.sockets ∧ st'.unix_listen_icons = st.unix_listen_icons ∧
  st'.fdinfo_img = st.fdinfo_img ∧ st'.unixsk_img = st.unixsk_img ∧
  st'.sk_queues = st.sk_queues

/-! ### Concrete checkpoint-side inputs used in the examples -/

/-- An environment in which every allocation succeeds and `stat` reports
inode 5 on device 6. -/
def sample_collect_env : collect_env :=
  { alloc_desc := true, alloc_name := true, alloc_icons := true, icon_allocs := 8,
    stat := some (5, 6), kdev_to_odev := fun x => x }

/-- An attribute table with no attribute present. -/
def no_attrs : unix_diag_attrs :=
  { peer := none, name := none, vfs := none, icons := none, rqlen := none }

/-- An environment in which every write succeeds. -/
def sample_dump_env : dump_env :=
  { write_fdinfo := true, write_ue := true, write_name := true, dump_sk_queue := true }

/-- The state of an `Option` result, `init_state` for undefined behaviour. -/
def state_of (r : Option (Int × dump_state)) : dump_state :=
  match r with
  | some (_, st) => st
  | none => init_state

/-- The state after collecting a listening stream socket with inode 100, bound
to the abstract name `\0a` and with the socket 200 on its accept queue, and
then the established socket with inode 200 that has no peer. -/
def sample_inflight : dump_state :=
  state_of (unix_collect_one
    (state_of (unix_collect_one init_state sample_collect_env
      { udiag_type := SOCK_STREAM, udiag_state := TCP_LISTEN, udiag_ino := 100 }
      { no_attrs with name := some [0, 97], icons := some [200] }))
    sample_collect_env
    { udiag_type := SOCK_STREAM, udiag_state := TCP_ESTABLISHED, udiag_ino := 200 }
    no_attrs)

/-- Parameters of the descriptor `fd` with `O_*` flags 2. -/
def sample_parms (fd : Nat) : fd_parms :=
  { fd := fd, fd_flags := 0, flags := 2, fown := [] }

/-- The state after collecting a datagram socket with inode 300 bound to an
abstract name of `UNIX_PATH_MAX` bytes. -/
def sample_long_name : dump_state :=
  state_of (unix_collect_one init_state sample_collect_env
    { udiag_type := SOCK_DGRAM, udiag_state := TCP_CLOSE, udiag_ino := 300 }
    { no_attrs with name := some (0 :: List.replicate 107 97) })

/-- A record with id 1 that announces a name of `namelen` bytes. -/
def named_entry (namelen : Nat) : unix_sk_entry :=
  { sample_entry 1 0 0 with namelen := namelen }

/-- The restore state before the loader runs. -/
def empty_restore : restore_state :=
  { unix_sockets := [], unlinked := [] }

/-- A list pointer is valid for a heap of `n` descriptors. -/
def valid_ref (n : Nat) : list_ref → Bool
  | list_ref.head => true
  | list_ref.node k => decide (k < n)

/-- Well-formedness of a checkpoint state: both bucket arrays have
`SK_HASH_SIZE` slots, every pointer on a chain, in an icon entry or in a list
link is the address of a descriptor on the heap, every name buffer holds at
least `namelen` bytes, and every inode is a 32-bit `int` whose bucket index is
inside the arrays. -/
structure wf_state (st : dump_state) : Prop where
  sockets_len : st.sockets.length = SK_HASH_SIZE
  icons_len : st.unix_listen_icons.length = SK_HASH_SIZE
  chain_ptr : ∀ chain ∈ st.sockets, ∀ p ∈ chain, p < st.descs.length
  icon_ptr : ∀ chain ∈ st.unix_listen_icons, ∀ e ∈ chain, e.sk_desc < st.descs.length
  links : ∀ d ∈ st.descs,
    valid_ref st.descs.length d.list.next = true ∧ valid_ref st.descs.length d.list.prev = true
  head_links : valid_ref st.descs.length st.unix_sockets.next = true ∧
    valid_ref st.descs.length st.unix_sockets.prev = true
  names : ∀ d ∈ st.descs, d.namelen ≤ (d.name.getD []).length
  inos : ∀ d ∈ st.descs, d.sd.ino = to_int (to_u32 d.sd.ino) ∧ 0 ≤ sk_bucket d.sd.ino

/-- The state after collecting a listening stream socket whose inode is
reported as 0, with the socket 200 on its accept queue, and then the
established socket with inode 200 that has no peer. -/
def sample_inode_zero : dump_state :=
  state_of (unix_collect_one
    (state_of (unix_collect_one init_state sample_collect_env
      { udiag_type := SOCK_STREAM, udiag_state := TCP_LISTEN, udiag_ino := 0 }
      { no_attrs with name := some [0, 97], icons := some [200] }))
    sample_collect_env
    { udiag_type := SOCK_STREAM, udiag_state := TCP_ESTABLISHED, udiag_ino := 200 }
    no_attrs)

/-- The socket table has its 32 chains and every chain link is the address of
a descriptor on the heap. -/
def table_ok (st : dump_state) : Prop :=
  st.sockets.length = SK_HASH_SIZE ∧ ∀ chain ∈ st.sockets, ∀ p ∈ chain, p < st.descs.length

/-- The state with the descriptor `x` added to the heap and put at the head of
chain `b`, whose links were `chain`. -/
def link_desc (st : dump_state) (x : unix_sk_desc) (b : Nat) (chain : List Nat) : dump_state :=
  { st with descs := st.descs ++ [x], sockets := st.sockets.set b (st.descs.length :: chain) }

/-- The lookup of `lookup_unix_listen_icons` on a given icon index. -/
def icon_lookup (tbl : List (List unix_sk_listen_icon)) (peer_ino : Int) :
    Option (Option unix_sk_listen_icon) :=
  match bucket_at tbl (sk_bucket peer_ino) with
  | none => none
  | some chain => some (chain.find? fun ic => decide (ic.peer_ino = to_u32 peer_ino))

/-- The icon inodes of the `ICONS` attribute of a message, none when the
attribute is absent. -/
def icons_of (c : collect_env × unix_diag_msg × unix_diag_attrs) : List Nat :=
  c.2.2.icons.getD []

/-- A sequence of calls of `unix_collect_one`, each of which returns 0; `none`
when a call does not return 0. -/
def unix_collect_seq :
    List (collect_env × unix_diag_msg × unix_diag_attrs) → dump_state → Option dump_state
  | [], st => some st
  | (env, m, tb) :: rest, st =>
    match unix_collect_one st env m tb with
    | none => none
    | some (ret, st') => if ret = 0 then unix_collect_seq rest st' else none

/-- Two messages: a listening socket with inode 100 and the icons 200 and 232
(which share a bucket), then a listening socket with inode 101 and the icon 7. -/
def sample_calls : List (collect_env × unix_diag_msg × unix_diag_attrs) :=
  [(sample_collect_env,
    { udiag_type := SOCK_STREAM, udiag_state := TCP_LISTEN, udiag_ino := 100 },
    { no_attrs with icons := some [200, 232] }),
   (sample_collect_env,
    { udiag_type := SOCK_STREAM, udiag_state := TCP_LISTEN, udiag_ino := 101 },
    { no_attrs with icons := some [7] })]

/-! ## Checkpoint side: the external finalizer -/

/-- How a run of `fix_external_unix_sockets` ends: a return with its value,
the assertion `BUG_ON` firing, undefined behaviour (an invalid pointer, a read
outside a name buffer), or the loop still running after the given number of
iterations. -/
inductive fix_outcome where
  | returned (ret : Int) (st : dump_state)
  | bug (st : dump_state)
  | undefined
  | unfinished (st : dump_state)
deriving DecidableEq, Repr

/-- Modelled from the spec: the `fown` block of a record initialised with
`{ }`; its words are not interpreted, the zero block is the empty one. -/
def zero_fown : List Nat := []

/-- The record `e` that `fix_external_unix_sockets` fills in for the deferred
socket `sk`: `struct unix_sk_entry e = { }` and the six assignments. -/
def extern_entry (sk : unix_sk_desc) : unix_sk_entry :=
  { id := to_u32 sk.sd.ino, type := SOCK_DGRAM, state := TCP_LISTEN, namelen := sk.namelen,
    flags := 0, backlog := 0, peer := 0, fown := zero_fown, uflags := USK_EXTERN }

/-- The loop `list_for_each_entry(sk, &unix_sockets, list)` of
`fix_external_unix_sockets`, at the list node `cur`.  `ext` is
`opts.ext_unix_sk`, `writes` is the number of image writes that still
succeed, the first argument bounds the number of iterations. -/
def fix_loop (ext : Bool) : Nat → Nat → list_ref → dump_state → fix_outcome
  | 0, _, _, st => fix_outcome.unfinished st
  | fuel + 1, writes, cur, st =>
    match cur with
    | list_ref.head => fix_outcome.returned 0 st
    | list_ref.node d =>
      match st.descs[d]? with
      | none => fix_outcome.undefined
      | some sk =>
        -- BUG_ON(sk->sd.already_dumped);
        if sk.sd.already_dumped ≠ 0 then fix_outcome.bug st
        else if ext = false then fix_outcome.returned (-1) st
        else if sk.type ≠ SOCK_DGRAM then fix_outcome.returned (-1) st
        else if writes = 0 then fix_outcome.returned (-1) st
        else
          let st1 : dump_state :=
            { st with unixsk_img := st.unixsk_img ++ [img_item.entry (extern_entry sk)] }
          match buf_bytes sk.name sk.namelen with
          | none => fix_outcome.undefined
          | some bytes =>
            if writes - 1 = 0 then fix_outcome.returned (-1) st1
            else
              let st2 : dump_state :=
                { st1 with unixsk_img := st1.unixsk_img ++ bytes.map img_item.byte }
              fix_loop ext fuel (writes - 2) sk.list.next st2

/-- The function `fix_external_unix_sockets`. -/
def fix_external_unix_sockets (ext : Bool) (fuel writes : Nat) (st : dump_state) :
    fix_outcome :=
  fix_loop ext fuel writes st.unix_sockets.next st

/-- Following `next` from the node `cur` visits the descriptors `l` in this
order and then arrives at the head `unix_sockets`: the external-defer list
from `cur` on is the list `l`. -/
def defer_path (descs : List unix_sk_desc) : list_ref → List Nat → Bool
  | cur, [] => decide (cur = list_ref.head)
  | cur, d :: rest =>
    decide (cur = list_ref.node d) &&
      (match descs[d]? with
       | some x => defer_path descs x.list.next rest
       | none => false)

/-- What the finalizer is to append for the deferred sockets `l`, in the words
of the policy: for each one, in order, one record with `id` the inode, type
`SOCK_DGRAM`, state `TCP_LISTEN`, `peer = 0`, `uflags = USK_EXTERN` and
`namelen` the length of the name, followed by `namelen` name bytes. -/
def expected_extern_items (descs : List unix_sk_desc) : List Nat → List img_item
  | [] => []
  | d :: rest =>
    match descs[d]? with
    | none => expected_extern_items descs rest
    | some x =>
      img_item.entry
          { id := to_u32 x.sd.ino, type := SOCK_DGRAM, state := TCP_LISTEN,
            namelen := x.namelen, flags := 0, backlog := 0, peer := 0, fown := zero_fown,
            uflags := USK_EXTERN } ::
        (((x.name.getD []).take x.namelen).map img_item.byte ++
          expected_extern_items descs rest)

/-! ### Concrete states with deferred sockets -/

/-- A datagram socket in state close with the given inode, bound to the
abstract name `\0a`. -/
def named_dgram (ino : Nat) : unix_diag_msg × unix_diag_attrs :=
  ({ udiag_type := SOCK_DGRAM, udiag_state := TCP_CLOSE, udiag_ino := ino },
   { no_attrs with name := some [0, 97] })

/-- An established datagram socket with the given inode, connected to the
socket with inode `peer`. -/
def dgram_client (ino peer : Nat) : unix_diag_msg × unix_diag_attrs :=
  ({ udiag_type := SOCK_DGRAM, udiag_state := TCP_ESTABLISHED, udiag_ino := ino },
   { no_attrs with peer := some peer })

/-- The state after collecting, in this order, the named socket 100, its two
clients 200 and 201, the named socket 300 and its client 301. -/
def sample_clients : dump_state :=
  (unix_collect_seq
    [(sample_collect_env, named_dgram 100), (sample_collect_env, dgram_client 200 100),
     (sample_collect_env, dgram_client 201 100), (sample_collect_env, named_dgram 300),
     (sample_collect_env, dgram_client 301 300)] init_state).getD init_state

/-- The state of `sample_clients` after the successful dumps of the two
clients of the socket 100 (descriptors 1 and 2). -/
def sample_deferred_twice : dump_state :=
  state_of (dump_one_unix
    (state_of (dump_one_unix sample_clients sample_dump_env 1 (sample_parms 3) 0))
    sample_dump_env 2 (sample_parms 4) 0)

/-- The state of `sample_deferred_twice` after the successful dump of the
socket 100 itself (descriptor 0). -/
def sample_dumped_on_list : dump_state :=
  state_of (dump_one_unix sample_deferred_twice sample_dump_env 0 (sample_parms 5) 0)

/-- The state of `sample_dumped_on_list` after the successful dump of the
client of the socket 300 (descriptor 4). -/
def sample_dumped_in_list : dump_state :=
  state_of (dump_one_unix sample_dumped_on_list sample_dump_env 4 (sample_parms 6) 0)

/-- The state of `sample_clients` after the successful dump of one client of
the socket 100 and of the client of the socket 300: two sockets deferred, each
once. -/
def sample_two_deferred : dump_state :=
  state_of (dump_one_unix
    (state_of (dump_one_unix sample_clients sample_dump_env 1 (sample_parms 3) 0))
    sample_dump_env 4 (sample_parms 6) 0)

/-! ## Theorems -/

/-! ### Helper lemmas on lists and indices -/

theorem idx_of_get (xs : List Nat) (id j : Nat) (h : idx_of xs id = some j) :
    xs[j]? = some id := by
  induction xs generalizing j with
  | nil => simp [idx_of] at h
  | cons x xs ih =>
    unfold idx_of at h
    by_cases hx : x = id
    · simp [hx] at h
      subst h
      simp [hx]
    · simp only [hx, if_false] at h
      cases hr : idx_of xs id with
      | none => simp [hr] at h
      | some j' =>
        simp [hr] at h
        subst h
        simpa using ih j' hr

theorem idx_of_nodup (xs : List Nat) (id j : Nat) (hnd : xs.Nodup) (h : xs[j]? = some id) :
    idx_of xs id = some j := by
  induction xs generalizing j with
  | nil => simp at h
  | cons x xs ih =>
    rw [List.nodup_cons] at hnd
    cases j with
    | zero =>
      simp at h
      simp [idx_of, h]
    | succ j' =>
      simp at h
      have hmem : id ∈ xs := List.getElem?_mem h
      have hx : x ≠ id := fun e => hnd.1 (e ▸ hmem)
      simp [idx_of, hx, ih j' hnd.2 h]

theorem nodup_index_eq (xs : List Nat) (v i j : Nat) (hnd : xs.Nodup)
    (hi : xs[i]? = some v) (hj : xs[j]? = some v) : i = j := by
  have h1 := idx_of_nodup xs v i hnd hi
  have h2 := idx_of_nodup xs v j hnd hj
  rw [h1] at h2
  exact Option.some.inj h2

theorem getElem?_upd (l : List unix_sk_info) (i k : Nat) (f : unix_sk_info → unix_sk_info) :
    (upd l i f)[k]? = if i = k then (l[k]?).map f else l[k]? := by
  unfold upd
  by_cases h : i = k
  · subst h
    cases hx : l[i]? with
    | none => simp [hx]
    | some x =>
      have hlt : i < l.length := by
        by_contra hge
        rw [List.getElem?_eq_none (Nat.le_of_not_lt hge)] at hx
        exact Option.noConfusion hx
      simp [List.getElem?_set_self hlt]
  · cases hx : l[i]? with
    | none => simp [h]
    | some x => simp [h, List.getElem?_set_ne h]

theorem upd_map_ue (l : List unix_sk_info) (i : Nat) (f : unix_sk_info → unix_sk_info)
    (hf : ∀ x, (f x).ue = x.ue) :
    (upd l i f).map (fun x => x.ue) = l.map (fun x => x.ue) := by
  apply List.ext_getElem?
  intro k
  rw [List.getElem?_map, List.getElem?_map, getElem?_upd]
  by_cases h : i = k
  · cases hx : l[k]? <;> simp [h, hx, hf]
  · simp [h]

theorem find_unix_sk_ue (l l' : List unix_sk_info) (id : Nat)
    (h : l'.map (fun x => x.ue) = l.map (fun x => x.ue)) :
    find_unix_sk l' id = find_unix_sk l id := by
  have h2 : l'.map (fun x => x.ue.id) = l.map (fun x => x.ue.id) := by
    have := congrArg (List.map fun (e : unix_sk_entry) => e.id) h
    simpa [List.map_map] using this
  unfold find_unix_sk
  rw [h2]

/-! ### The peer resolver, one iteration -/

theorem resolve_one_ue (ext : Bool) (fm : Nat → fdinfo_list_entry) (l : List unix_sk_info)
    (i : Nat) :
    (resolve_one ext fm l i).2.map (fun x => x.ue) = l.map (fun x => x.ue) := by
  unfold resolve_one
  repeat' split
  all_goals simp [upd_map_ue]

theorem resolve_one_frame (ext : Bool) (fm : Nat → fdinfo_list_entry) (l : List unix_sk_info)
    (i k : Nat) (hik : i ≠ k)
    (hne : ∀ y z, l[i]? = some y → l[k]? = some z →
      ¬ (find_unix_sk l y.ue.peer = some k ∧ z.ue.peer = y.ue.id)) :
    (resolve_one ext fm l i).2[k]? = l[k]? := by
  unfold resolve_one
  cases hi : l[i]? with
  | none => simp
  | some ui =>
    simp only []
    by_cases h1 : ui.peer.isSome = true
    · simp [h1]
    · by_cases h2 : ui.ue.peer = 0
      · simp [h1, h2]
      · rw [if_neg h1, if_neg h2]
        cases hf : find_unix_sk l ui.ue.peer with
        | none => simp
        | some j =>
          cases hj : l[j]? with
          | none => simp [hj]
          | some pr =>
            simp only [hj]
            by_cases h3 : pr.ue.uflags &&& USK_EXTERN ≠ 0 ∧ ext = false
            · rw [if_pos h3]
            · rw [if_neg h3]
              by_cases h4 : i = j
              · rw [if_pos h4]
                simp [getElem?_upd, hik]
              · rw [if_neg h4]
                by_cases h5 : pr.ue.peer ≠ ui.ue.id
                · rw [if_pos h5]
                  simp [getElem?_upd, hik]
                · rw [if_neg h5]
                  have hjk : j ≠ k := by
                    intro hjk
                    subst hjk
                    exact hne ui pr hi hj ⟨hf, not_not.mp h5⟩
                  by_cases h6 : master_lt (fm i) (fm j) = true
                  · simp [h6, getElem?_upd, hik, hjk]
                  · simp [h6, getElem?_upd, hik, hjk]

theorem resolve_one_skip (ext : Bool) (fm : Nat → fdinfo_list_entry) (l : List unix_sk_info)
    (i : Nat) (x : unix_sk_info) (hi : l[i]? = some x)
    (h : x.peer.isSome = true ∨ x.ue.peer = 0) :
    resolve_one ext fm l i = (true, l) := by
  unfold resolve_one
  rcases h with h | h
  · simp [hi, h]
  · simp [hi, h]

theorem resolve_one_pair (ext : Bool) (fm : Nat → fdinfo_list_entry) (l : List unix_sk_info)
    (i j : Nat) (x y : unix_sk_info) (hi : l[i]? = some x) (hj : l[j]? = some y)
    (hij : i ≠ j) (hxp : x.peer = none) (hx0 : x.ue.peer ≠ 0)
    (hf : find_unix_sk l x.ue.peer = some j) (hrec : y.ue.peer = x.ue.id)
    (hok : (resolve_one ext fm l i).1 = true) :
    (resolve_one ext fm l i).2[i]? = some { x with
        peer := some j,
        flags := x.flags ||| (if master_lt (fm i) (fm j) then USK_PAIR_MASTER
                              else USK_PAIR_SLAVE) } ∧
    (resolve_one ext fm l i).2[j]? = some { y with
        peer := some i,
        flags := y.flags ||| (if master_lt (fm i) (fm j) then USK_PAIR_SLAVE
                              else USK_PAIR_MASTER) } := by
  have hji : j ≠ i := fun e => hij e.symm
  unfold resolve_one at hok ⊢
  simp only [hi, hxp, hx0, hf, hj, hij, hrec] at hok ⊢
  by_cases hext : y.ue.uflags &&& USK_EXTERN ≠ 0 ∧ ext = false
  · simp [hext] at hok
  · by_cases hm : master_lt (fm i) (fm j) = true
    · simp [hext, hm, getElem?_upd, hi, hj, hij, hji]
    · simp [hext, hm, getElem?_upd, hi, hj, hij, hji]

/-! ### The peer resolver on a reciprocal pair -/

theorem pair_state_swap (l : List unix_sk_info) (ia ib : Nat) (pa pb : Option Nat)
    (fa fb : Nat) (h : pair_state l ia ib pa pb fa fb) : pair_state l ib ia pb pa fb fa := by
  obtain ⟨x, y, h1, h2, h3, h4, h5, h6⟩ := h
  exact ⟨y, x, h2, h1, h4, h3, h6, h5⟩

theorem map_ue_get (l : List unix_sk_info) (U : List unix_sk_entry)
    (hU : l.map (fun x => x.ue) = U) (k : Nat) (x : unix_sk_info) (h : l[k]? = some x) :
    U[k]? = some x.ue := by
  rw [← hU, List.getElem?_map, h]
  rfl

theorem map_id_get (U : List unix_sk_entry) (k : Nat) (e : unix_sk_entry)
    (h : U[k]? = some e) : (U.map fun e => e.id)[k]? = some e.id := by
  rw [List.getElem?_map, h]
  rfl

theorem find_unix_sk_nodup (l : List unix_sk_info) (U : List unix_sk_entry)
    (hU : l.map (fun x => x.ue) = U) (hnd : (U.map fun e => e.id).Nodup)
    (k : Nat) (e : unix_sk_entry) (h : U[k]? = some e) :
    find_unix_sk l e.id = some k := by
  unfold find_unix_sk
  have hl : (l.map fun x => x.ue.id) = U.map fun e => e.id := by
    rw [← hU, List.map_map]
    rfl
  rw [hl]
  exact idx_of_nodup _ _ _ hnd (map_id_get U k e h)

/-- An iteration for a socket other than the two of the pair leaves both alone. -/
theorem resolve_one_other (ext : Bool) (fm : Nat → fdinfo_list_entry)
    (U : List unix_sk_entry) (ia ib : Nat) (ua ub : unix_sk_entry)
    (hUa : U[ia]? = some ua) (hUb : U[ib]? = some ub)
    (hnd : (U.map fun e => e.id).Nodup) (hpa : ua.peer = ub.id)
    (l : List unix_sk_info) (hU : l.map (fun x => x.ue) = U)
    (i : Nat) (hia : i ≠ ia) (hib : i ≠ ib) :
    (resolve_one ext fm l i).2[ia]? = l[ia]? := by
  apply resolve_one_frame ext fm l i ia hia
  intro y z hy hz ⟨_, hrec⟩
  have h1 := map_ue_get l U hU i y hy
  have h2 := map_ue_get l U hU ia z hz
  rw [hUa] at h2
  have hz' : z.ue = ua := (Option.some.inj h2).symm
  rw [hz', hpa] at hrec
  have h3 := map_id_get U i y.ue h1
  have h4 := map_id_get U ib ub hUb
  rw [hrec] at h4
  exact hib (nodup_index_eq _ _ _ _ hnd h3 h4)

/-- The iteration for the first socket of a pair that is still unresolved. -/
theorem resolve_one_first (ext : Bool) (fm : Nat → fdinfo_list_entry)
    (U : List unix_sk_entry) (ia ib : Nat) (ua ub : unix_sk_entry)
    (hUa : U[ia]? = some ua) (hUb : U[ib]? = some ub) (hab : ia ≠ ib)
    (hnd : (U.map fun e => e.id).Nodup) (hpa : ua.peer = ub.id) (hpb : ub.peer = ua.id)
    (l l1 : List unix_sk_info) (hU : l.map (fun x => x.ue) = U)
    (hp : pair_state l ia ib none none 0 0)
    (hstep : resolve_one ext fm l ia = (true, l1)) :
    (ua.peer = 0 → l1 = l) ∧
    (ua.peer ≠ 0 → pair_state l1 ia ib (some ib) (some ia)
      (if master_lt (fm ia) (fm ib) then USK_PAIR_MASTER else USK_PAIR_SLAVE)
      (if master_lt (fm ia) (fm ib) then USK_PAIR_SLAVE else USK_PAIR_MASTER)) := by
  obtain ⟨x, y, hx, hy, hxp, hyp, hxf, hyf⟩ := hp
  have hxu : x.ue = ua := by
    have := map_ue_get l U hU ia x hx
    rw [hUa] at this
    exact (Option.some.inj this).symm
  have hyu : y.ue = ub := by
    have := map_ue_get l U hU ib y hy
    rw [hUb] at this
    exact (Option.some.inj this).symm
  constructor
  · intro h0
    have := resolve_one_skip ext fm l ia x hx (Or.inr (by rw [hxu]; exact h0))
    rw [this] at hstep
    exact (Prod.mk.inj hstep).2.symm
  · intro h0
    have hf : find_unix_sk l x.ue.peer = some ib := by
      rw [hxu, hpa]
      exact find_unix_sk_nodup l U hU hnd ib ub hUb
    have hok : (resolve_one ext fm l ia).1 = true := by rw [hstep]
    have hpair := resolve_one_pair ext fm l ia ib x y hx hy hab hxp
      (by rw [hxu]; exact h0) hf (by rw [hxu, hyu]; exact hpb) hok
    rw [hstep] at hpair
    refine ⟨_, _, hpair.1, hpair.2, rfl, rfl, ?_, ?_⟩
    · simp [hxf]
    · simp [hyf]

theorem master_lt_swap (x y : fdinfo_list_entry) (h : x.pid ≠ y.pid ∨ x.fd ≠ y.fd) :
    master_lt y x = !master_lt x y := by
  unfold master_lt
  rcases lt_trichotomy x.pid y.pid with hp | hp | hp
  · have h1 : ¬ y.pid < x.pid := not_lt.mpr (le_of_lt hp)
    have h2 : ¬ y.pid = x.pid := fun e => (ne_of_lt hp) e.symm
    simp [hp, h1, h2]
  · have hfd : x.fd ≠ y.fd := by
      rcases h with h | h
      · exact absurd hp h
      · exact h
    rcases lt_trichotomy x.fd y.fd with hf | hf | hf
    · have h3 : ¬ y.fd < x.fd := not_lt.mpr (le_of_lt hf)
      simp [hp, hf, h3]
    · exact absurd hf hfd
    · have h3 : ¬ x.fd < y.fd := not_lt.mpr (le_of_lt hf)
      simp [hp, hf, h3]
  · have h1 : ¬ x.pid < y.pid := not_lt.mpr (le_of_lt hp)
    have h2 : ¬ x.pid = y.pid := fun e => (ne_of_lt hp) e.symm
    simp [hp, h1, h2]

/-- The loop invariant of `resolve_unix_peers` for one reciprocal pair: the
pair is resolved, or it is untouched and the iteration of one of its sockets
with a non-zero peer id is still to come. -/
theorem resolve_from_pair (ext : Bool) (fm : Nat → fdinfo_list_entry)
    (U : List unix_sk_entry) (ia ib : Nat) (ua ub : unix_sk_entry)
    (hUa : U[ia]? = some ua) (hUb : U[ib]? = some ub) (hab : ia ≠ ib)
    (hnd : (U.map fun e => e.id).Nodup) (hpa : ua.peer = ub.id) (hpb : ub.peer = ua.id)
    (hm : master_lt (fm ib) (fm ia) = !master_lt (fm ia) (fm ib))
    (rest : List Nat) (hrest : rest.Nodup) (l l' : List unix_sk_info)
    (hU : l.map (fun x => x.ue) = U)
    (hinv : pair_state l ia ib (some ib) (some ia)
        (if master_lt (fm ia) (fm ib) then USK_PAIR_MASTER else USK_PAIR_SLAVE)
        (if master_lt (fm ia) (fm ib) then USK_PAIR_SLAVE else USK_PAIR_MASTER) ∨
      (pair_state l ia ib none none 0 0 ∧ (ia ∈ rest ∨ ua.peer = 0) ∧
        (ib ∈ rest ∨ ub.peer = 0)))
    (h : resolve_from ext fm rest l = (0, l')) :
    pair_state l' ia ib (some ib) (some ia)
      (if master_lt (fm ia) (fm ib) then USK_PAIR_MASTER else USK_PAIR_SLAVE)
      (if master_lt (fm ia) (fm ib) then USK_PAIR_SLAVE else USK_PAIR_MASTER) := by
  induction rest generalizing l with
  | nil =>
    simp only [resolve_from] at h
    have hl : l = l' := (Prod.mk.inj h).2
    subst hl
    rcases hinv with hd | ⟨_, ha, hb⟩
    · exact hd
    · exfalso
      have ha0 : ua.peer = 0 := by simpa using ha
      have hb0 : ub.peer = 0 := by simpa using hb
      have h1 := map_id_get U ia ua hUa
      have h2 := map_id_get U ib ub hUb
      rw [← hpb, hb0] at h1
      rw [← hpa, ha0] at h2
      exact hab (nodup_index_eq _ _ _ _ hnd h1 h2)
  | cons i rest ih =>
    rw [List.nodup_cons] at hrest
    unfold resolve_from at h
    cases hstep : resolve_one ext fm l i with
    | mk ok l1 =>
      rw [hstep] at h
      cases ok with
      | false => simp at h
      | true =>
        simp only at h
        have hU1 : l1.map (fun x => x.ue) = U := by
          have := resolve_one_ue ext fm l i
          rw [hstep] at this
          rw [← hU]
          exact this
        have hl1 : l1 = (resolve_one ext fm l i).2 := by rw [hstep]
        apply ih hrest.2 l1 hU1 _ h
        by_cases hia : i = ia
        · subst hia
          rcases hinv with hd | ⟨hp0, ha, hb⟩
          · left
            obtain ⟨x, y, hx, hy, hxp, hyp, hxf, hyf⟩ := hd
            have := resolve_one_skip ext fm l i x hx (Or.inl (by rw [hxp]; rfl))
            rw [this] at hstep
            have hl : l = l1 := (Prod.mk.inj hstep).2
            subst hl
            exact ⟨x, y, hx, hy, hxp, hyp, hxf, hyf⟩
          · have hf := resolve_one_first ext fm U i ib ua ub hUa hUb hab hnd hpa hpb l l1 hU
              hp0 hstep
            by_cases h0 : ua.peer = 0
            · right
              rw [hf.1 h0]
              refine ⟨hp0, Or.inr h0, ?_⟩
              rcases hb with hb | hb
              · rcases List.mem_cons.mp hb with e | e
                · exact absurd e.symm hab
                · exact Or.inl e
              · exact Or.inr hb
            · left
              exact hf.2 h0
        · by_cases hib : i = ib
          · subst hib
            rcases hinv with hd | ⟨hp0, ha, hb⟩
            · left
              obtain ⟨x, y, hx, hy, hxp, hyp, hxf, hyf⟩ := hd
              have := resolve_one_skip ext fm l i y hy (Or.inl (by rw [hyp]; rfl))
              rw [this] at hstep
              have hl : l = l1 := (Prod.mk.inj hstep).2
              subst hl
              exact ⟨x, y, hx, hy, hxp, hyp, hxf, hyf⟩
            · have hf := resolve_one_first ext fm U i ia ub ua hUb hUa hia hnd hpb hpa l l1 hU
                (pair_state_swap _ _ _ _ _ _ _ hp0) hstep
              by_cases h0 : ub.peer = 0
              · right
                rw [hf.1 h0]
                refine ⟨hp0, ?_, Or.inr h0⟩
                rcases ha with ha | ha
                · rcases List.mem_cons.mp ha with e | e
                  · exact absurd e.symm hia
                  · exact Or.inl e
                · exact Or.inr ha
              · left
                have hs := pair_state_swap _ _ _ _ _ _ _ (hf.2 h0)
                rw [hm] at hs
                cases hc : master_lt (fm ia) (fm i) <;> simpa [hc] using hs
          · have hfa := resolve_one_other ext fm U ia ib ua ub hUa hUb hnd hpa l hU i hia hib
            have hfb := resolve_one_other ext fm U ib ia ub ua hUb hUa hnd hpb l hU i hib hia
            rw [← hl1] at hfa hfb
            have hkeep : ∀ pa pb fa fb, pair_state l ia ib pa pb fa fb →
                pair_state l1 ia ib pa pb fa fb := by
              intro pa pb fa fb ⟨x, y, hx, hy, hrest'⟩
              exact ⟨x, y, by rw [hfa]; exact hx, by rw [hfb]; exact hy, hrest'⟩
            rcases hinv with hd | ⟨hp0, ha, hb⟩
            · exact Or.inl (hkeep _ _ _ _ hd)
            · right
              refine ⟨hkeep _ _ _ _ hp0, ?_, ?_⟩
              · rcases ha with ha | ha
                · rcases List.mem_cons.mp ha with e | e
                  · exact absurd e.symm hia
                  · exact Or.inl e
                · exact Or.inr ha
              · rcases hb with hb | hb
                · rcases List.mem_cons.mp hb with e | e
                  · exact absurd e.symm hib
                  · exact Or.inl e
                · exact Or.inr hb

theorem resolve_from_ue (ext : Bool) (fm : Nat → fdinfo_list_entry) (rest : List Nat)
    (l : List unix_sk_info) :
    (resolve_from ext fm rest l).2.map (fun x => x.ue) = l.map (fun x => x.ue) := by
  induction rest generalizing l with
  | nil => rfl
  | cons i rest ih =>
    unfold resolve_from
    have h1 := resolve_one_ue ext fm l i
    cases hstep : resolve_one ext fm l i with
    | mk ok l1 =>
      rw [hstep] at h1
      cases ok with
      | false => exact h1
      | true =>
        simp only
        rw [ih l1]
        exact h1

/-- C1: on a list of freshly loaded UNIX sockets with pairwise distinct ids on
which `resolve_unix_peers` succeeds, two distinct sockets that name each other
as peer and whose master descriptor entries differ in `(pid, fd)` end up with
flags exactly `USK_PAIR_MASTER` on one and exactly `USK_PAIR_SLAVE` on the
other, the master being the one with the lexicographically smaller
`(pid, fd)`; the positions `ia`, `ib` of the two in the list are arbitrary. -/
theorem resolve_unix_peers_pair_roles (ext : Bool) (fm : Nat → fdinfo_list_entry)
    (l l' : List unix_sk_info) (ia ib : Nat) (a b : unix_sk_info)
    (hloaded : ∀ x ∈ l, x.peer = none ∧ x.flags = 0)
    (hids : (l.map fun x => x.ue.id).Nodup)
    (hok : resolve_unix_peers ext fm l = (0, l'))
    (ha : l[ia]? = some a) (hb : l[ib]? = some b) (hab : ia ≠ ib)
    (hpa : a.ue.peer = b.ue.id) (hpb : b.ue.peer = a.ue.id)
    (hm : (fm ia).pid ≠ (fm ib).pid ∨ (fm ia).fd ≠ (fm ib).fd) :
    ∃ a' b', l'[ia]? = some a' ∧ l'[ib]? = some b' ∧ a'.ue = a.ue ∧ b'.ue = b.ue ∧
      ((a'.flags = USK_PAIR_MASTER ∧ b'.flags = USK_PAIR_SLAVE ∧
          ((fm ia).pid < (fm ib).pid ∨
            ((fm ia).pid = (fm ib).pid ∧ (fm ia).fd < (fm ib).fd))) ∨
       (b'.flags = USK_PAIR_MASTER ∧ a'.flags = USK_PAIR_SLAVE ∧
          ((fm ib).pid < (fm ia).pid ∨
            ((fm ib).pid = (fm ia).pid ∧ (fm ib).fd < (fm ia).fd)))) := by
  have hU : l.map (fun x => x.ue) = l.map (fun x => x.ue) := rfl
  have hUa := map_ue_get l _ hU ia a ha
  have hUb := map_ue_get l _ hU ib b hb
  have hnd : ((l.map fun x => x.ue).map fun e => e.id).Nodup := by
    rw [List.map_map]
    exact hids
  have hla := hloaded a (List.getElem?_mem ha)
  have hlb := hloaded b (List.getElem?_mem hb)
  have hrange : (List.range l.length).Nodup := List.nodup_range _
  have hia : ia ∈ List.range l.length := by
    rw [List.mem_range]
    exact (List.getElem?_eq_some.mp ha).1
  have hib : ib ∈ List.range l.length := by
    rw [List.mem_range]
    exact (List.getElem?_eq_some.mp hb).1
  have hswap := master_lt_swap (fm ia) (fm ib) hm
  have hdone := resolve_from_pair ext fm _ ia ib a.ue b.ue hUa hUb hab hnd hpa hpb hswap
    (List.range l.length) hrange l l' hU
    (Or.inr ⟨⟨a, b, ha, hb, hla.1, hlb.1, hla.2, hlb.2⟩, Or.inl hia, Or.inl hib⟩) hok
  obtain ⟨x, y, hx, hy, _, _, hxf, hyf⟩ := hdone
  have hue := resolve_from_ue ext fm (List.range l.length) l
  have hl' : (resolve_from ext fm (List.range l.length) l).2 = l' := by
    have : resolve_from ext fm (List.range l.length) l = (0, l') := hok
    rw [this]
  rw [hl'] at hue
  have hxu := map_ue_get l' _ hue ia x hx
  have hyu := map_ue_get l' _ hue ib y hy
  rw [hUa] at hxu
  rw [hUb] at hyu
  refine ⟨x, y, hx, hy, (Option.some.inj hxu).symm, (Option.some.inj hyu).symm, ?_⟩
  cases hc : master_lt (fm ia) (fm ib) with
  | true =>
    left
    rw [hc] at hxf hyf
    refine ⟨by simpa using hxf, by simpa using hyf, ?_⟩
    simpa [master_lt] using hc
  | false =>
    right
    rw [hc] at hxf hyf hswap
    refine ⟨by simpa using hyf, by simpa using hxf, ?_⟩
    simpa [master_lt] using hswap

/-- The theorem for C1 applied to two concrete sockets that share a pid: the
later one in the list holds the smaller fd and becomes the master. -/
theorem resolve_unix_peers_pair_roles_witness :
    ∃ a' b', (resolve_unix_peers false sample_master sample_pair).2[0]? = some a' ∧
      (resolve_unix_peers false sample_master sample_pair).2[1]? = some b' ∧
      a'.ue = (sample_info 10 11 0).ue ∧ b'.ue = (sample_info 11 10 0).ue ∧
      ((a'.flags = USK_PAIR_MASTER ∧ b'.flags = USK_PAIR_SLAVE ∧
          ((sample_master 0).pid < (sample_master 1).pid ∨
            ((sample_master 0).pid = (sample_master 1).pid ∧
              (sample_master 0).fd < (sample_master 1).fd))) ∨
       (b'.flags = USK_PAIR_MASTER ∧ a'.flags = USK_PAIR_SLAVE ∧
          ((sample_master 1).pid < (sample_master 0).pid ∨
            ((sample_master 1).pid = (sample_master 0).pid ∧
              (sample_master 1).fd < (sample_master 0).fd)))) :=
  resolve_unix_peers_pair_roles false sample_master sample_pair
    (resolve_unix_peers false sample_master sample_pair).2 0 1
    (sample_info 10 11 0) (sample_info 11 10 0)
    (by decide) (by decide) (by decide) (by decide) (by decide) (by decide)
    (by decide) (by decide) (by decide)

/-- C8: with `ext_unix_sk` disabled, an external socket that comes first in the
list and names its peer gets through: the call succeeds and leaves the second
socket linked to the external one.  With the two sockets in the other order
the call fails. -/
theorem resolve_unix_peers_extern_backlink :
    resolve_unix_peers false sample_master extern_first =
      (0, [{ sample_info 1 2 USK_EXTERN with peer := some 1, flags := USK_PAIR_SLAVE },
           { sample_info 2 1 0 with peer := some 0, flags := USK_PAIR_MASTER }]) ∧
    (sample_info 2 1 0).ue.peer = (sample_info 1 2 USK_EXTERN).ue.id ∧
    (sample_info 2 1 0).ue.peer ≠ 0 ∧
    (sample_info 1 2 USK_EXTERN).ue.uflags &&& USK_EXTERN ≠ 0 ∧
    (resolve_unix_peers false sample_master extern_last).1 = -1 := by
  refine ⟨by decide, by decide, by decide, by decide, by decide⟩

/-! ### The external-defer list operations touch list links only -/

theorem links_only_refl (st : dump_state) : links_only st st :=
  ⟨rfl, rfl, rfl, rfl, rfl, rfl⟩

theorem links_only_trans (a b c : dump_state) (h1 : links_only a b) (h2 : links_only b c) :
    links_only a c := by
  obtain ⟨p1, p2, p3, p4, p5, p6⟩ := h1
  obtain ⟨q1, q2, q3, q4, q5, q6⟩ := h2
  exact ⟨q1.trans p1, q2.trans p2, q3.trans p3, q4.trans p4, q5.trans p5, q6.trans p6⟩

theorem set_list_links_only (st st' : dump_state) (r : list_ref) (f : list_head → list_head)
    (h : set_list st r f = some st') : links_only st st' := by
  cases r with
  | head =>
    simp only [set_list, Option.some.injEq] at h
    subst h
    exact ⟨rfl, rfl, rfl, rfl, rfl, rfl⟩
  | node d =>
    simp only [set_list] at h
    cases hx : st.descs[d]? with
    | none => simp [hx] at h
    | some x =>
      simp only [hx, Option.some.injEq] at h
      subst h
      refine ⟨?_, rfl, rfl, rfl, rfl, rfl⟩
      apply List.ext_getElem?
      intro k
      simp only [List.getElem?_map, List.getElem?_set]
      by_cases hk : d = k
      · subst hk
        have hlt : d < st.descs.length := (List.getElem?_eq_some.mp hx).1
        simp [hlt, hx, erase_list]
      · simp [hk]

theorem list_add_tail_links_only (st st' : dump_state) (new hd : list_ref)
    (h : list_add_tail st new hd = some st') : links_only st st' := by
  unfold list_add_tail at h
  cases hg : get_list st hd with
  | none => simp [hg] at h
  | some hh =>
    simp only [hg, list_add_between] at h
    cases h1 : set_list st hd (fun h => { h with prev := new }) with
    | none => simp [h1] at h
    | some s1 =>
      simp only [h1] at h
      cases h2 : set_list s1 new (fun h => { h with next := hd }) with
      | none => simp [h2] at h
      | some s2 =>
        simp only [h2] at h
        cases h3 : set_list s2 new (fun h => { h with prev := hh.prev }) with
        | none => simp [h3] at h
        | some s3 =>
          simp only [h3] at h
          exact links_only_trans _ _ _ (set_list_links_only _ _ _ _ h1)
            (links_only_trans _ _ _ (set_list_links_only _ _ _ _ h2)
              (links_only_trans _ _ _ (set_list_links_only _ _ _ _ h3)
                (set_list_links_only _ _ _ _ h)))

theorem list_del_init_links_only (st st' : dump_state) (entry : list_ref)
    (h : list_del_init st entry = some st') : links_only st st' := by
  unfold list_del_init at h
  cases hg : get_list st entry with
  | none => simp [hg] at h
  | some e =>
    simp only [hg] at h
    cases h1 : set_list st e.next (fun h => { h with prev := e.prev }) with
    | none => simp [h1] at h
    | some s1 =>
      simp only [h1] at h
      cases h2 : set_list s1 e.prev (fun h => { h with next := e.next }) with
      | none => simp [h2] at h
      | some s2 =>
        simp only [h2] at h
        exact links_only_trans _ _ _ (set_list_links_only _ _ _ _ h1)
          (links_only_trans _ _ _ (set_list_links_only _ _ _ _ h2)
            (set_list_links_only _ _ _ _ h))

theorem links_only_get (st st' : dump_state) (h : links_only st st') (k : Nat)
    (x : unix_sk_desc) (hx : st.descs[k]? = some x) :
    ∃ x', st'.descs[k]? = some x' ∧ erase_list x' = erase_list x := by
  have h1 := congrArg (fun l => l[k]?) h.1
  simp only [List.getElem?_map, hx] at h1
  cases hx' : st'.descs[k]? with
  | none => simp [hx'] at h1
  | some x' =>
    simp [hx'] at h1
    exact ⟨x', rfl, h1⟩

/-! ### The per-fd dumper -/

theorem canonical_entries_append (a b : List img_item) :
    canonical_entries (a ++ b) = canonical_entries a ++ canonical_entries b := by
  induction a with
  | nil => rfl
  | cons x xs ih =>
    cases x with
    | entry e => simp [canonical_entries, ih]
    | byte c => simp [canonical_entries, ih]

theorem canonical_entries_bytes (bs : List Nat) :
    canonical_entries (bs.map img_item.byte) = [] := by
  induction bs with
  | nil => rfl
  | cons x xs ih => simp [canonical_entries, ih]

theorem erase_list_sd (x y : unix_sk_desc) (h : erase_list x = erase_list y) :
    x.sd = y.sd ∧ x.type = y.type ∧ x.state = y.state ∧ x.peer_ino = y.peer_ino ∧
    x.namelen = y.namelen ∧ x.name = y.name := by
  cases x
  cases y
  simp only [erase_list, unix_sk_desc.mk.injEq] at h
  simp [h]

theorem queue_step_frame (st st' : dump_state) (env : dump_env) (d : unix_sk_desc) (id : Nat)
    (h : queue_step st env d id = some st') :
    st'.descs = st.descs ∧ st'.unixsk_img = st.unixsk_img ∧ st'.fdinfo_img = st.fdinfo_img ∧
    st'.unix_sockets = st.unix_sockets := by
  unfold queue_step at h
  split at h
  · split at h
    · exact Option.noConfusion h
    · simp only [Option.some.injEq] at h
      subst h
      exact ⟨rfl, rfl, rfl, rfl⟩
  · simp only [Option.some.injEq] at h
    subst h
    exact ⟨rfl, rfl, rfl, rfl⟩

theorem mark_dumped_ok (st st' : dump_state) (sk : Nat) (x : unix_sk_desc)
    (hx : st.descs[sk]? = some x) (h : mark_dumped st sk = some st') :
    st'.unixsk_img = st.unixsk_img ∧ st'.fdinfo_img = st.fdinfo_img ∧
    (∃ y, st'.descs[sk]? = some y ∧ y.sd.already_dumped = 1 ∧
      erase_list y = erase_list (set_dumped x)) := by
  unfold mark_dumped at h
  cases hdel : list_del_init st (list_ref.node sk) with
  | none => simp [hdel] at h
  | some st4 =>
    simp only [hdel] at h
    have hlo := list_del_init_links_only _ _ _ hdel
    obtain ⟨x', hx', he⟩ := links_only_get _ _ hlo sk x hx
    simp only [hx', Option.some.injEq] at h
    subst h
    have hlt : sk < st4.descs.length := (List.getElem?_eq_some.mp hx').1
    refine ⟨hlo.2.2.2.2.1, hlo.2.2.2.1, _, List.getElem?_set_self hlt, rfl, ?_⟩
    cases x'
    cases x
    simp only [erase_list, set_dumped, unix_sk_desc.mk.injEq] at he ⊢
    simp [he]

/-- What a successful `dump_tail` leaves behind. -/
theorem dump_tail_ok (st st' : dump_state) (env : dump_env) (sk : Nat) (d x : unix_sk_desc)
    (ue : unix_sk_entry) (hx : st.descs[sk]? = some x)
    (h : dump_tail st env sk d ue = some (0, st')) :
    (∃ bytes, buf_bytes d.name ue.namelen = some bytes ∧
      st'.unixsk_img = st.unixsk_img ++ img_item.entry ue :: bytes.map img_item.byte) ∧
    st'.fdinfo_img = st.fdinfo_img ∧
    (∃ y, st'.descs[sk]? = some y ∧ y.sd.already_dumped = 1 ∧
      erase_list y = erase_list (set_dumped x)) := by
  unfold dump_tail at h
  by_cases h1 : env.write_ue = false
  · simp [h1] at h
  · rw [if_neg h1] at h
    cases hb : buf_bytes d.name ue.namelen with
    | none => simp [hb] at h
    | some bytes =>
      simp only [hb] at h
      by_cases h2 : env.write_name = false
      · simp [h2] at h
      · rw [if_neg h2] at h
        split at h
        · simp at h
        · rename_i st3 hq
          split at h
          · exact Option.noConfusion h
          · rename_i st4 hm
            simp only [Option.some.injEq, Prod.mk.injEq, true_and] at h
            subst h
            obtain ⟨q1, q2, q3, _⟩ := queue_step_frame _ _ _ _ _ hq
            have hx3 : st3.descs[sk]? = some x := by rw [q1]; exact hx
            obtain ⟨m1, m2, m3⟩ := mark_dumped_ok _ _ _ _ hx3 hm
            refine ⟨⟨bytes, rfl, ?_⟩, ?_, m3⟩
            · rw [m1, q2]
              simp
            · rw [m2, q3]

theorem peer_fixup_frame (st st' : dump_state) (ue ue' : unix_sk_entry)
    (h : peer_fixup st ue = some (some (ue', st'))) :
    links_only st st' ∧ ue' = { ue with peer := ue'.peer } := by
  unfold peer_fixup at h
  split at h
  · split at h
    · exact Option.noConfusion h
    · simp at h
    · split at h
      · exact Option.noConfusion h
      · split at h
        · split at h
          · simp at h
          · split at h
            · split at h
              · exact Option.noConfusion h
              · rename_i st2 hadd
                simp only [Option.some.injEq, Prod.mk.injEq] at h
                obtain ⟨h1, h2⟩ := h
                subst h1
                subst h2
                exact ⟨list_add_tail_links_only _ _ _ _ hadd, rfl⟩
            · simp only [Option.some.injEq, Prod.mk.injEq] at h
              obtain ⟨h1, h2⟩ := h
              subst h1
              subst h2
              exact ⟨links_only_refl _, rfl⟩
        · simp only [Option.some.injEq, Prod.mk.injEq] at h
          obtain ⟨h1, h2⟩ := h
          subst h1
          subst h2
          exact ⟨links_only_refl _, rfl⟩
  · split at h
    · split at h
      · exact Option.noConfusion h
      · simp at h
      · split at h
        · exact Option.noConfusion h
        · split at h
          · simp at h
          · simp only [Option.some.injEq, Prod.mk.injEq] at h
            obtain ⟨h1, h2⟩ := h
            subst h1
            subst h2
            exact ⟨links_only_refl _, rfl⟩
    · simp only [Option.some.injEq, Prod.mk.injEq] at h
      obtain ⟨h1, h2⟩ := h
      subst h1
      subst h2
      exact ⟨links_only_refl _, rfl⟩

/-- C5: `can_dump_unix_sk` returns 1 exactly for a stream or datagram socket in
state listen, established or, for a datagram socket only, close; it returns 0
in every other case, and `dump_one_unix` then fails without changing anything. -/
theorem can_dump_unix_sk_admission (sk : unix_sk_desc) (st : dump_state) (env : dump_env)
    (ptr : Nat) (p : fd_parms) (cr_fdset : Nat) :
    (can_dump_unix_sk sk = 1 ↔
      (sk.type = SOCK_STREAM ∨ sk.type = SOCK_DGRAM) ∧
      (sk.state = TCP_LISTEN ∨ sk.state = TCP_ESTABLISHED ∨
        (sk.state = TCP_CLOSE ∧ sk.type = SOCK_DGRAM))) ∧
    (can_dump_unix_sk sk ≠ 1 → can_dump_unix_sk sk = 0) ∧
    (st.descs[ptr]? = some sk → can_dump_unix_sk sk = 0 →
      dump_one_unix st env ptr p cr_fdset = some (-1, st)) := by
  refine ⟨?_, ?_, ?_⟩
  · unfold can_dump_unix_sk SOCK_STREAM SOCK_DGRAM TCP_LISTEN TCP_ESTABLISHED TCP_CLOSE
    constructor
    · intro h
      split at h
      · simp at h
      · rename_i ht
        have ht' : sk.type = 1 ∨ sk.type = 2 := by
          by_contra hc
          exact ht ⟨fun e => hc (Or.inl e), fun e => hc (Or.inr e)⟩
        refine ⟨ht', ?_⟩
        split at h
        · left; assumption
        · split at h
          · right; left; assumption
          · split at h
            · split at h
              · simp at h
              · rename_i hs hd
                right; right
                exact ⟨hs, not_not.mp hd⟩
            · simp at h
    · rintro ⟨ht, hs⟩
      have ht' : ¬ (sk.type ≠ 1 ∧ sk.type ≠ 2) := by
        rintro ⟨a, b⟩
        rcases ht with ht | ht
        · exact a ht
        · exact b ht
      rw [if_neg ht']
      rcases hs with hs | hs | ⟨hs, hd⟩
      · simp [hs]
      · simp [hs]
      · simp [hs, hd]
  · intro h
    unfold can_dump_unix_sk at h ⊢
    repeat' split
    all_goals first | rfl | (exfalso; apply h; simp_all)
  · intro hd h0
    unfold dump_one_unix
    simp [hd, h0]

/-- The theorem for C5 applied to a socket of a third type: it is not admitted
and the dumper fails. -/
theorem can_dump_unix_sk_admission_witness :
    dump_one_unix { init_state with descs := [{ zero_desc 0 with type := 5 }] }
      { write_fdinfo := true, write_ue := true, write_name := true, dump_sk_queue := true }
      0 { fd := 3, fd_flags := 0, flags := 0, fown := [] } 0 =
    some (-1, { init_state with descs := [{ zero_desc 0 with type := 5 }] }) :=
  (can_dump_unix_sk_admission { zero_desc 0 with type := 5 }
    { init_state with descs := [{ zero_desc 0 with type := 5 }] }
    { write_fdinfo := true, write_ue := true, write_name := true, dump_sk_queue := true }
    0 { fd := 3, fd_flags := 0, flags := 0, fown := [] } 0).2.2 (by decide) (by decide)

/-- What a successful first dump of a socket leaves behind. -/
theorem dump_one_unix_first (st st1 : dump_state) (env : dump_env) (sk : Nat) (p : fd_parms)
    (cr_fdset : Nat) (d : unix_sk_desc) (hd : st.descs[sk]? = some d)
    (hnd : d.sd.already_dumped = 0)
    (h : dump_one_unix st env sk p cr_fdset = some (0, st1)) :
    (∃ ue bytes, st1.unixsk_img = st.unixsk_img ++ img_item.entry ue :: bytes.map img_item.byte ∧
      buf_bytes d.name ue.namelen = some bytes ∧
      ue = { id := to_u32 d.sd.ino, type := d.type, state := d.state, namelen := d.namelen,
             flags := p.flags, backlog := d.wqlen, peer := ue.peer, fown := p.fown,
             uflags := 0 }) ∧
    st1.fdinfo_img = st.fdinfo_img ++
      [(cr_fdset, { fd := p.fd, type := fd_type.FDINFO_UNIXSK, id := to_u32 d.sd.ino,
                    flags := p.fd_flags })] ∧
    (∃ y, st1.descs[sk]? = some y ∧ y.sd.already_dumped = 1 ∧
      erase_list y = erase_list (set_dumped d)) := by
  unfold dump_one_unix at h
  simp only [hd] at h
  split at h
  · simp at h
  · split at h
    · simp at h
    · rw [if_neg (by simp [hnd])] at h
      split at h
      · exact Option.noConfusion h
      · simp at h
      · rename_i ue' st2 hfix
        obtain ⟨hlo, hue⟩ := peer_fixup_frame _ _ _ _ hfix
        have hd1 : ({ st with fdinfo_img := st.fdinfo_img ++
            [(cr_fdset, { fd := p.fd, type := fd_type.FDINFO_UNIXSK, id := to_u32 d.sd.ino,
                          flags := p.fd_flags })] } : dump_state).descs[sk]? = some d := hd
        obtain ⟨x', hx', he⟩ := links_only_get _ _ hlo sk d hd1
        obtain ⟨⟨bytes, hb, himg⟩, hfd, y, hy, hyd, hye⟩ := dump_tail_ok _ _ _ _ _ _ _ hx' h
        refine ⟨⟨ue', bytes, ?_, hb, ?_⟩, ?_, y, hy, hyd, ?_⟩
        · rw [himg, hlo.2.2.2.2.1]
        · rw [hue]
        · rw [hfd, hlo.2.2.2.1]
        · rw [hye]
          cases x'
          cases d
          simp only [erase_list, set_dumped, unix_sk_desc.mk.injEq] at he ⊢
          simp [he]

/-- What a successful dump of an already dumped socket leaves behind. -/
theorem dump_one_unix_again (st st2 : dump_state) (env : dump_env) (sk : Nat) (p : fd_parms)
    (cr_fdset : Nat) (d : unix_sk_desc) (hd : st.descs[sk]? = some d)
    (hdd : d.sd.already_dumped ≠ 0)
    (h : dump_one_unix st env sk p cr_fdset = some (0, st2)) :
    st2 = { st with fdinfo_img := st.fdinfo_img ++
      [(cr_fdset, { fd := p.fd, type := fd_type.FDINFO_UNIXSK, id := to_u32 d.sd.ino,
                    flags := p.fd_flags })] } := by
  unfold dump_one_unix at h
  simp only [hd] at h
  split at h
  · simp at h
  · split at h
    · simp at h
    · simp only [hdd, ne_eq, not_false_eq_true, if_true, Option.some.injEq, Prod.mk.injEq,
        true_and] at h
      exact h.symm

/-- C4: two successful calls of `dump_one_unix` for the same collected socket,
the first one on the socket not yet dumped, with any parameters: the first
call appends one per-fd record `{fd, FDINFO_UNIXSK, ino, fd_flags}` and exactly
one canonical entry (followed by name bytes only) and sets `already_dumped`;
the second call appends its own per-fd record and changes nothing else: the
UNIX socket image, the descriptors with their flags and list links, and the
head of the external-defer list stay as they were. -/
theorem dump_one_unix_idempotent (st st1 st2 : dump_state) (env1 env2 : dump_env) (sk : Nat)
    (p1 p2 : fd_parms) (fdset1 fdset2 : Nat) (d : unix_sk_desc)
    (hd : st.descs[sk]? = some d) (hnd : d.sd.already_dumped = 0)
    (h1 : dump_one_unix st env1 sk p1 fdset1 = some (0, st1))
    (h2 : dump_one_unix st1 env2 sk p2 fdset2 = some (0, st2)) :
    (∃ ue, canonical_entries st1.unixsk_img = canonical_entries st.unixsk_img ++ [ue] ∧
      canonical_entries st2.unixsk_img = canonical_entries st.unixsk_img ++ [ue] ∧
      ue.id = to_u32 d.sd.ino) ∧
    st2.fdinfo_img = st.fdinfo_img ++
      [(fdset1, { fd := p1.fd, type := fd_type.FDINFO_UNIXSK, id := to_u32 d.sd.ino,
                  flags := p1.fd_flags }),
       (fdset2, { fd := p2.fd, type := fd_type.FDINFO_UNIXSK, id := to_u32 d.sd.ino,
                  flags := p2.fd_flags })] ∧
    (∃ y, st1.descs[sk]? = some y ∧ y.sd.already_dumped = 1) ∧
    st2.unixsk_img = st1.unixsk_img ∧ st2.descs = st1.descs ∧
    st2.unix_sockets = st1.unix_sockets ∧ st2.sk_queues = st1.sk_queues ∧
    st2.fdinfo_img = st1.fdinfo_img ++
      [(fdset2, { fd := p2.fd, type := fd_type.FDINFO_UNIXSK, id := to_u32 d.sd.ino,
                  flags := p2.fd_flags })] := by
  obtain ⟨⟨ue, bytes, himg, _, hue⟩, hfd, y, hy, hyd, hye⟩ :=
    dump_one_unix_first st st1 env1 sk p1 fdset1 d hd hnd h1
  have hyne : y.sd.already_dumped ≠ 0 := by rw [hyd]; decide
  have h3 := dump_one_unix_again st1 st2 env2 sk p2 fdset2 y hy hyne h2
  have hino : y.sd.ino = d.sd.ino := by
    have := (erase_list_sd _ _ hye).1
    rw [this]
    rfl
  have hcan : canonical_entries st1.unixsk_img = canonical_entries st.unixsk_img ++ [ue] := by
    rw [himg, canonical_entries_append]
    simp [canonical_entries, canonical_entries_bytes]
  subst h3
  refine ⟨⟨ue, hcan, hcan, ?_⟩, ?_, ⟨y, hy, hyd⟩, rfl, rfl, rfl, rfl, ?_⟩
  · rw [hue]
  · simp only []
    rw [hfd, hino]
    simp
  · simp only []
    rw [hino]

/-- The theorem for C4 applied to the listening socket of `sample_inflight`,
dumped through the descriptors 3 and 4. -/
theorem dump_one_unix_idempotent_witness :
    (state_of (dump_one_unix (state_of (dump_one_unix sample_inflight sample_dump_env 0
        (sample_parms 3) 0)) sample_dump_env 0 (sample_parms 4) 0)).fdinfo_img =
      sample_inflight.fdinfo_img ++
        [(0, { fd := 3, type := fd_type.FDINFO_UNIXSK, id := to_u32 100, flags := 0 }),
         (0, { fd := 4, type := fd_type.FDINFO_UNIXSK, id := to_u32 100, flags := 0 })] :=
  (dump_one_unix_idempotent sample_inflight
    (state_of (dump_one_unix sample_inflight sample_dump_env 0 (sample_parms 3) 0))
    (state_of (dump_one_unix (state_of (dump_one_unix sample_inflight sample_dump_env 0
        (sample_parms 3) 0)) sample_dump_env 0 (sample_parms 4) 0))
    sample_dump_env sample_dump_env 0 (sample_parms 3) (sample_parms 4) 0 0
    { sd := { family := 1, ino := 100, already_dumped := 0 }, type := 1, state := 10,
      peer_ino := 0, rqlen := 0, wqlen := 0, namelen := 2, name := some [0, 97, 0],
      nr_icons := 1, icons := some [200],
      list := { next := list_ref.node 0, prev := list_ref.node 0 } }
    (by decide) (by decide) (by decide) (by decide)).2.1

/-! ### The decoder and the loader on failing paths -/

/-- C6: an ICONS attribute `[5, 6]` for which the allocation of the second
icon entry fails.  `unix_collect_one` returns -1 and the socket table is
unchanged, but the entry for icon 5 stays in the icon index, where the lookup
now finds it; its `sk_desc` is the address of the released descriptor, which
is on the heap no more. -/
theorem unix_collect_one_icon_failure :
    (unix_collect_one init_state { sample_collect_env with icon_allocs := 1 }
        { udiag_type := SOCK_STREAM, udiag_state := TCP_LISTEN, udiag_ino := 100 }
        { no_attrs with icons := some [5, 6] }).map Prod.fst = some (-1) ∧
    (state_of (unix_collect_one init_state { sample_collect_env with icon_allocs := 1 }
        { udiag_type := SOCK_STREAM, udiag_state := TCP_LISTEN, udiag_ino := 100 }
        { no_attrs with icons := some [5, 6] })).sockets = init_state.sockets ∧
    (state_of (unix_collect_one init_state { sample_collect_env with icon_allocs := 1 }
        { udiag_type := SOCK_STREAM, udiag_state := TCP_LISTEN, udiag_ino := 100 }
        { no_attrs with icons := some [5, 6] })).unix_listen_icons ≠
      init_state.unix_listen_icons ∧
    lookup_unix_listen_icons init_state 5 = some none ∧
    lookup_unix_listen_icons
      (state_of (unix_collect_one init_state { sample_collect_env with icon_allocs := 1 }
        { udiag_type := SOCK_STREAM, udiag_state := TCP_LISTEN, udiag_ino := 100 }
        { no_attrs with icons := some [5, 6] })) 5 =
      some (some { peer_ino := 5, sk_desc := 0 }) ∧
    (state_of (unix_collect_one init_state { sample_collect_env with icon_allocs := 1 }
        { udiag_type := SOCK_STREAM, udiag_state := TCP_LISTEN, udiag_ino := 100 }
        { no_attrs with icons := some [5, 6] })).descs = [] := by
  refine ⟨by decide, by decide, by decide, by decide, by decide, by decide⟩

/-- C7: `collect_unix_sockets` returns what `read_sk_queues` returns, whatever
its loop met.  With `read_sk_queues` succeeding it returns 0 on a record with
`namelen = UNIX_PATH_MAX`, on a record whose name bytes are cut short, and on a
stray byte where a record should start, and in each case it has registered
nothing. -/
theorem collect_unix_sockets_ignores_ret :
    (∀ (img : List img_item) (budget : Nat) (rq : Int) (st : restore_state),
      (collect_unix_sockets (open_result.ok img) budget rq st).1 = rq) ∧
    collect_unix_sockets (open_result.ok [img_item.entry (named_entry UNIX_PATH_MAX)]) 8 0
      empty_restore = (0, empty_restore) ∧
    (collect_loop 2 8 [img_item.entry (named_entry UNIX_PATH_MAX)] empty_restore).1 = -1 ∧
    collect_unix_sockets
      (open_result.ok [img_item.entry (named_entry 3), img_item.byte 47, img_item.byte 97]) 8 0
      empty_restore = (0, empty_restore) ∧
    collect_unix_sockets (open_result.ok [img_item.byte 47]) 8 0 empty_restore =
      (0, empty_restore) := by
  refine ⟨fun _ _ _ _ => rfl, by decide, by decide, by decide, by decide⟩

/-! ### Dump, then load -/

theorem read_img_buf_bytes (bs : List Nat) (rest : List img_item) :
    read_img_buf bs.length (bs.map img_item.byte ++ rest) = some (bs, rest) := by
  induction bs with
  | nil => simp [read_img_buf]
  | cons b bs ih => simp [read_img_buf, ih]

theorem buf_bytes_length (name : Option (List Nat)) (n : Nat) (bytes : List Nat)
    (h : buf_bytes name n = some bytes) : bytes.length = n := by
  unfold buf_bytes at h
  split at h
  · rename_i h0
    simp only [Option.some.injEq] at h
    subst h
    simp [h0]
  · split at h
    · exact Option.noConfusion h
    · split at h
      · rename_i hle
        simp only [Option.some.injEq] at h
        subst h
        simp [hle]
      · exact Option.noConfusion h

/-- The loader on one record followed by its name bytes. -/
theorem collect_unix_sockets_one (ue : unix_sk_entry) (bytes : List Nat) (budget : Nat)
    (rq : Int) (rst : restore_state) (hlen : bytes.length = ue.namelen)
    (hmax : ue.namelen < UNIX_PATH_MAX) (hbudget : 2 ≤ budget) :
    ∃ ui, (collect_unix_sockets (open_result.ok (img_item.entry ue :: bytes.map img_item.byte))
        budget rq rst).2.unix_sockets = rst.unix_sockets ++ [ui] ∧
      ui.ue = ue ∧ ui.name.getD [] = bytes ∧ ui.flags = 0 ∧ ui.peer = none := by
  have hb0 : budget ≠ 0 := by omega
  have hb1 : budget - 1 ≠ 0 := by omega
  have hend : ∀ (fuel b : Nat) (st : restore_state), (collect_loop fuel b [] st).2 = st := by
    intro fuel b st
    cases fuel with
    | zero => rfl
    | succ f =>
      unfold collect_loop
      by_cases hb : b = 0
      · simp [hb]
      · simp [hb]
  unfold collect_unix_sockets
  simp only [List.length_cons, List.length_map]
  by_cases hn : ue.namelen = 0
  · have hbytes : bytes = [] := List.length_eq_zero.mp (by rw [hlen, hn])
    subst hbytes
    refine ⟨{ ue := ue, name := none, flags := 0, peer := none }, ?_, rfl, rfl, rfl, rfl⟩
    simp only [List.map_nil]
    unfold collect_loop
    simp only [hb0, hn, if_false, ne_eq, not_true_eq_false]
    rw [hend]
    rfl
  · refine ⟨{ ue := ue, name := some bytes, flags := 0, peer := none }, ?_, rfl, rfl, rfl, rfl⟩
    have hread : read_img_buf ue.namelen (bytes.map img_item.byte) = some (bytes, []) := by
      have := read_img_buf_bytes bytes []
      rw [hlen, List.append_nil] at this
      exact this
    have hnot : ¬ (ue.namelen = 0 ∨ ue.namelen ≥ UNIX_PATH_MAX) := by
      rintro (h | h)
      · exact hn h
      · exact absurd hmax (not_lt.mpr h)
    unfold collect_loop
    rw [if_neg hb0]
    simp only []
    rw [if_pos hn, if_neg hnot, if_neg hb1]
    simp only [hread]
    rw [hend]
    unfold register_unix_sk
    split <;> rfl

/-- C3, the claim as stated fails: a datagram socket bound to an abstract name
of `UNIX_PATH_MAX` bytes is dumped successfully, the record written has
`namelen = UNIX_PATH_MAX`, and the loader, fed with exactly what was written,
registers no socket at all. -/
theorem roundtrip_fails_at_unix_path_max :
    (dump_one_unix sample_long_name sample_dump_env 0 (sample_parms 3) 0).map Prod.fst =
      some 0 ∧
    (canonical_entries
      (state_of (dump_one_unix sample_long_name sample_dump_env 0 (sample_parms 3) 0)).unixsk_img
      ).map (fun e => e.namelen) = [UNIX_PATH_MAX] ∧
    (collect_unix_sockets (open_result.ok
      (state_of (dump_one_unix sample_long_name sample_dump_env 0 (sample_parms 3) 0)).unixsk_img)
      8 0 empty_restore).2.unix_sockets = [] := by
  refine ⟨by decide, by decide, by decide⟩

/-- C3, amended: a successful dump of a not yet dumped socket whose name is
shorter than `UNIX_PATH_MAX` appends one record `ue` and its name bytes to the
image; the record carries the descriptor 's id, type, state, name length and
send-queue length and the flags of the parameters; and the loader, fed with
the record and the bytes and with two allocations to spend, registers exactly
one socket whose entry is `ue` field for field and whose name bytes are the
bytes written. -/
theorem dump_load_roundtrip (st st1 : dump_state) (env : dump_env) (sk : Nat) (p : fd_parms)
    (cr_fdset : Nat) (d : unix_sk_desc) (budget : Nat) (rq : Int) (rst : restore_state)
    (hd : st.descs[sk]? = some d) (hnd : d.sd.already_dumped = 0)
    (h : dump_one_unix st env sk p cr_fdset = some (0, st1))
    (hmax : d.namelen < UNIX_PATH_MAX) (hbudget : 2 ≤ budget) :
    ∃ ue bytes ui,
      st1.unixsk_img = st.unixsk_img ++ img_item.entry ue :: bytes.map img_item.byte ∧
      ue.id = to_u32 d.sd.ino ∧ ue.type = d.type ∧ ue.state = d.state ∧
      ue.namelen = d.namelen ∧ ue.flags = p.flags ∧ ue.backlog = d.wqlen ∧ ue.uflags = 0 ∧
      buf_bytes d.name d.namelen = some bytes ∧
      (collect_unix_sockets (open_result.ok (img_item.entry ue :: bytes.map img_item.byte))
        budget rq rst).2.unix_sockets = rst.unix_sockets ++ [ui] ∧
      ui.ue.id = ue.id ∧ ui.ue.type = ue.type ∧ ui.ue.state = ue.state ∧
      ui.ue.namelen = ue.namelen ∧ ui.name.getD [] = bytes ∧ ui.ue.peer = ue.peer ∧
      ui.ue.flags = ue.flags ∧ ui.ue.backlog = ue.backlog ∧ ui.ue.uflags = ue.uflags := by
  obtain ⟨⟨ue, bytes, himg, hb, hue⟩, _, _⟩ :=
    dump_one_unix_first st st1 env sk p cr_fdset d hd hnd h
  have hnl : ue.namelen = d.namelen := by rw [hue]
  have hlen : bytes.length = ue.namelen := buf_bytes_length _ _ _ hb
  obtain ⟨ui, hui, huie, hname, _, _⟩ :=
    collect_unix_sockets_one ue bytes budget rq rst hlen (by rw [hnl]; exact hmax) hbudget
  refine ⟨ue, bytes, ui, himg, ?_, ?_, ?_, hnl, ?_, ?_, ?_, ?_, hui, ?_, ?_, ?_, ?_, hname,
    ?_, ?_, ?_, ?_⟩
  · rw [hue]
  · rw [hue]
  · rw [hue]
  · rw [hue]
  · rw [hue]
  · rw [hue]
  · rw [← hnl]; exact hb
  all_goals rw [huie]

/-- The theorem for C3 applied to the listening socket of `sample_inflight`,
which is bound to a name of two bytes. -/
theorem dump_load_roundtrip_witness :
    ∃ ue bytes ui,
      (state_of (dump_one_unix sample_inflight sample_dump_env 0 (sample_parms 3) 0)).unixsk_img
        = sample_inflight.unixsk_img ++ img_item.entry ue :: bytes.map img_item.byte ∧
      ue.id = to_u32 100 ∧ ue.type = 1 ∧ ue.state = 10 ∧
      ue.namelen = 2 ∧ ue.flags = (sample_parms 3).flags ∧ ue.backlog = 0 ∧ ue.uflags = 0 ∧
      buf_bytes (some [0, 97, 0]) 2 = some bytes ∧
      (collect_unix_sockets (open_result.ok (img_item.entry ue :: bytes.map img_item.byte))
        8 0 empty_restore).2.unix_sockets = empty_restore.unix_sockets ++ [ui] ∧
      ui.ue.id = ue.id ∧ ui.ue.type = ue.type ∧ ui.ue.state = ue.state ∧
      ui.ue.namelen = ue.namelen ∧ ui.name.getD [] = bytes ∧ ui.ue.peer = ue.peer ∧
      ui.ue.flags = ue.flags ∧ ui.ue.backlog = ue.backlog ∧ ui.ue.uflags = ue.uflags :=
  dump_load_roundtrip sample_inflight
    (state_of (dump_one_unix sample_inflight sample_dump_env 0 (sample_parms 3) 0))
    sample_dump_env 0 (sample_parms 3) 0
    { sd := { family := 1, ino := 100, already_dumped := 0 }, type := 1, state := 10,
      peer_ino := 0, rqlen := 0, wqlen := 0, namelen := 2, name := some [0, 97, 0],
      nr_icons := 1, icons := some [200],
      list := { next := list_ref.node 0, prev := list_ref.node 0 } }
    8 0 empty_restore (by decide) (by decide) (by decide) (by decide) (by decide)

/-! ### In-flight connections -/

theorem set_list_defined (st : dump_state) (r : list_ref) (f : list_head → list_head)
    (h : valid_ref st.descs.length r = true) :
    ∃ st', set_list st r f = some st' ∧ st'.descs.length = st.descs.length := by
  cases r with
  | head => exact ⟨_, rfl, rfl⟩
  | node k =>
    simp only [valid_ref, decide_eq_true_eq] at h
    have hk : st.descs[k]? = some st.descs[k] := List.getElem?_eq_getElem h
    simp only [set_list, hk]
    exact ⟨_, rfl, by simp⟩

theorem mark_dumped_defined (st : dump_state) (sk : Nat) (x : unix_sk_desc)
    (hx : st.descs[sk]? = some x)
    (hn : valid_ref st.descs.length x.list.next = true)
    (hp : valid_ref st.descs.length x.list.prev = true) :
    ∃ st', mark_dumped st sk = some st' := by
  have hsk : sk < st.descs.length := (List.getElem?_eq_some.mp hx).1
  obtain ⟨s1, h1, l1⟩ := set_list_defined st x.list.next
    (fun h => { h with prev := x.list.prev }) hn
  obtain ⟨s2, h2, l2⟩ := set_list_defined s1 x.list.prev
    (fun h => { h with next := x.list.next }) (by rw [l1]; exact hp)
  obtain ⟨s3, h3, l3⟩ := set_list_defined s2 (list_ref.node sk)
    (fun _ => { next := list_ref.node sk, prev := list_ref.node sk })
    (by simp only [valid_ref, decide_eq_true_eq]; omega)
  have hs3 : s3.descs[sk]? = some s3.descs[sk] :=
    List.getElem?_eq_getElem (by omega)
  unfold mark_dumped list_del_init
  simp only [get_list, hx, h1, h2, h3, hs3]
  exact ⟨_, rfl⟩

theorem buf_bytes_defined (name : Option (List Nat)) (n : Nat)
    (h : n ≤ (name.getD []).length) : ∃ bytes, buf_bytes name n = some bytes := by
  unfold buf_bytes
  by_cases h0 : n = 0
  · exact ⟨[], by simp [h0]⟩
  · cases name with
    | none =>
      simp at h
      exact absurd h h0
    | some b =>
      simp only [Option.getD_some] at h
      exact ⟨b.take n, by simp [h0, h]⟩

theorem sk_bucket_lt (i : Int) : sk_bucket i < 32 := by
  unfold sk_bucket SK_HASH_SIZE
  exact Int.tmod_lt_of_pos i (by decide)

theorem bucket_at_defined {α : Type} (tbl : List (List α)) (k : Int)
    (hlen : tbl.length = SK_HASH_SIZE) (h0 : 0 ≤ k) (h1 : k < 32) :
    ∃ chain, bucket_at tbl k = some chain ∧ chain ∈ tbl := by
  have hk : k.toNat < tbl.length := by
    rw [hlen]
    unfold SK_HASH_SIZE
    omega
  refine ⟨tbl[k.toNat], ?_, List.getElem_mem hk⟩
  unfold bucket_at
  rw [if_neg (not_lt.mpr h0)]
  exact List.getElem?_eq_getElem hk

theorem peer_fixup_inflight (st : dump_state) (ue : unix_sk_entry)
    (r : Option unix_sk_listen_icon) (hp : ue.peer = 0) (hs : ue.state = TCP_ESTABLISHED)
    (hl : lookup_unix_listen_icons st (to_int ue.id) = some r) :
    peer_fixup st ue =
      match r with
      | none => some none
      | some e =>
        match st.descs[e.sk_desc]? with
        | none => none
        | some listener =>
          if listener.state ≠ TCP_LISTEN then some none
          else some (some ({ ue with peer := to_u32 listener.sd.ino }, st)) := by
  unfold peer_fixup
  simp only [hp, ne_eq, not_true_eq_false, if_false, hs, if_true, hl]
  cases r <;> rfl

/-- C2, amended: for an admitted, not yet dumped socket in state established
with `peer_ino == 0`, in a well-formed state, `dump_one_unix` returns, and
either it has written exactly one canonical entry, in state established, whose
peer is the inode of the descriptor of the icon entry that
`lookup_unix_listen_icons` returns for the socket 's own inode, that descriptor
being in state listen, or it returns -1 with the UNIX socket image unchanged.
The peer written is 0 only when the inode of that listening socket is 0. -/
theorem dump_one_unix_inflight (st : dump_state) (env : dump_env) (sk : Nat) (p : fd_parms)
    (cr_fdset : Nat) (d : unix_sk_desc) (hwf : wf_state st)
    (hd : st.descs[sk]? = some d) (hadm : can_dump_unix_sk d = 1)
    (hnd : d.sd.already_dumped = 0) (hpeer : d.peer_ino = 0)
    (hst : d.state = TCP_ESTABLISHED) :
    ∃ ret st', dump_one_unix st env sk p cr_fdset = some (ret, st') ∧
      ((∃ e listener ue,
          lookup_unix_listen_icons st (to_int (to_u32 d.sd.ino)) = some (some e) ∧
          st.descs[e.sk_desc]? = some listener ∧ listener.state = TCP_LISTEN ∧
          canonical_entries st'.unixsk_img = canonical_entries st.unixsk_img ++ [ue] ∧
          ue.id = to_u32 d.sd.ino ∧ ue.state = TCP_ESTABLISHED ∧
          ue.peer = to_u32 listener.sd.ino ∧ (ue.peer = 0 → listener.sd.ino = 0)) ∨
       (ret = -1 ∧ st'.unixsk_img = st.unixsk_img)) := by
  have hdm : d ∈ st.descs := List.getElem?_mem hd
  have hino := hwf.inos d hdm
  have hadm0 : ¬ can_dump_unix_sk d = 0 := by rw [hadm]; decide
  have hnd0 : ¬ d.sd.already_dumped ≠ 0 := by rw [hnd]; decide
  obtain ⟨chain, hchain, hmem⟩ := bucket_at_defined st.unix_listen_icons
    (sk_bucket (to_int (to_u32 d.sd.ino))) hwf.icons_len (by rw [← hino.1]; exact hino.2)
    (sk_bucket_lt _)
  obtain ⟨r, hr⟩ : ∃ r, r = chain.find?
      (fun ic => decide (ic.peer_ino = to_u32 (to_int (to_u32 d.sd.ino)))) := ⟨_, rfl⟩
  have hlook : lookup_unix_listen_icons st (to_int (to_u32 d.sd.ino)) = some r := by
    unfold lookup_unix_listen_icons
    rw [hchain, hr]
  obtain ⟨st1, hst1⟩ : ∃ s : dump_state, s = { st with fdinfo_img := st.fdinfo_img ++
      [(cr_fdset, { fd := p.fd, type := fd_type.FDINFO_UNIXSK, id := to_u32 d.sd.ino,
                    flags := p.fd_flags })] } := ⟨_, rfl⟩
  have hi1 : st1.unixsk_img = st.unixsk_img := by rw [hst1]
  have hd1 : st1.descs = st.descs := by rw [hst1]
  have hlook1 : lookup_unix_listen_icons st1 (to_int (to_u32 d.sd.ino)) = some r := by
    rw [← hlook, hst1]
    rfl
  obtain ⟨ue0, hue0⟩ : ∃ u : unix_sk_entry, u =
      { id := to_u32 d.sd.ino, type := d.type, state := d.state, namelen := d.namelen,
        flags := p.flags, backlog := d.wqlen, peer := d.peer_ino, fown := p.fown,
        uflags := 0 } := ⟨_, rfl⟩
  have hfix := peer_fixup_inflight st1 ue0 r (by rw [hue0]; exact hpeer)
    (by rw [hue0]; exact hst) (by rw [hue0]; exact hlook1)
  unfold dump_one_unix
  simp only [hd]
  rw [if_neg hadm0]
  by_cases hw : env.write_fdinfo = false
  · rw [if_pos hw]
    exact ⟨_, _, rfl, Or.inr ⟨rfl, rfl⟩⟩
  rw [if_neg hw, if_neg hnd0, ← hst1, ← hue0, hfix]
  cases r with
  | none => exact ⟨_, _, rfl, Or.inr ⟨rfl, hi1⟩⟩
  | some e =>
    have he : e ∈ chain := List.mem_of_find?_eq_some hr.symm
    have hptr := hwf.icon_ptr chain hmem e he
    have hl : st.descs[e.sk_desc]? = some st.descs[e.sk_desc] := List.getElem?_eq_getElem hptr
    have hl1 : st1.descs[e.sk_desc]? = some st.descs[e.sk_desc] := by rw [hd1]; exact hl
    simp only [hl1]
    by_cases hls : st.descs[e.sk_desc].state ≠ TCP_LISTEN
    · rw [if_pos hls]
      exact ⟨_, _, rfl, Or.inr ⟨rfl, hi1⟩⟩
    rw [if_neg hls]
    simp only []
    have hlm : st.descs[e.sk_desc] ∈ st.descs := List.getElem_mem hptr
    have hzero : to_u32 st.descs[e.sk_desc].sd.ino = 0 → st.descs[e.sk_desc].sd.ino = 0 := by
      intro h0
      have := (hwf.inos _ hlm).1
      rw [h0] at this
      rw [this]
      rfl
    obtain ⟨ue1, hue1⟩ : ∃ u : unix_sk_entry, u =
        { ue0 with peer := to_u32 st.descs[e.sk_desc].sd.ino } := ⟨_, rfl⟩
    rw [← hue1]
    have hfirst : ∀ (ret : Int) (st' : dump_state) (tl : List Nat),
        st'.unixsk_img = st.unixsk_img ++ img_item.entry ue1 :: tl.map img_item.byte →
        ((∃ e listener ue,
          lookup_unix_listen_icons st (to_int (to_u32 d.sd.ino)) = some (some e) ∧
          st.descs[e.sk_desc]? = some listener ∧ listener.state = TCP_LISTEN ∧
          canonical_entries st'.unixsk_img = canonical_entries st.unixsk_img ++ [ue] ∧
          ue.id = to_u32 d.sd.ino ∧ ue.state = TCP_ESTABLISHED ∧
          ue.peer = to_u32 listener.sd.ino ∧ (ue.peer = 0 → listener.sd.ino = 0)) ∨
         (ret = -1 ∧ st'.unixsk_img = st.unixsk_img)) := by
      intro ret st' tl himg
      left
      refine ⟨e, st.descs[e.sk_desc], ue1, hlook, hl, not_not.mp hls, ?_, ?_, ?_, ?_, ?_⟩
      · rw [himg, canonical_entries_append]
        simp [canonical_entries, canonical_entries_bytes]
      · rw [hue1, hue0]
      · rw [hue1, hue0]
        exact hst
      · rw [hue1]
      · rw [hue1]
        exact hzero
    have hnl : ue1.namelen = d.namelen := by rw [hue1, hue0]
    unfold dump_tail
    by_cases hwu : env.write_ue = false
    · rw [if_pos hwu]
      exact ⟨_, _, rfl, Or.inr ⟨rfl, hi1⟩⟩
    rw [if_neg hwu]
    obtain ⟨bytes, hbytes⟩ := buf_bytes_defined d.name d.namelen (hwf.names d hdm)
    simp only [hnl, hbytes]
    by_cases hwn : env.write_name = false
    · rw [if_pos hwn]
      exact ⟨_, _, rfl, hfirst _ _ [] (by simp [hi1])⟩
    rw [if_neg hwn]
    split
    · exact ⟨_, _, rfl, hfirst _ _ bytes (by simp [hi1])⟩
    · rename_i st3 hq
      obtain ⟨q1, q2, _, _⟩ := queue_step_frame _ _ _ _ _ hq
      have hx3 : st3.descs[sk]? = some d := by rw [q1, hd1]; exact hd
      have hl3 : st3.descs.length = st.descs.length := by rw [q1, hd1]
      obtain ⟨st4, hm⟩ := mark_dumped_defined st3 sk d hx3
        (by rw [hl3]; exact (hwf.links d hdm).1) (by rw [hl3]; exact (hwf.links d hdm).2)
      simp only [hm]
      obtain ⟨m1, _, _⟩ := mark_dumped_ok _ _ _ _ hx3 hm
      exact ⟨_, _, rfl, hfirst _ _ bytes (by rw [m1, q2]; simp [hi1])⟩

/-- C2, the claim as stated fails: a listening socket whose inode is reported
as 0 holds the established socket 200 on its accept queue.  The socket 200 is
admitted, not yet dumped and has `peer_ino == 0`; `dump_one_unix` succeeds on
it and the one canonical entry it writes is in state established with
`peer == 0`. -/
theorem inflight_entry_with_peer_zero :
    (sample_inode_zero.descs[1]?).map
        (fun d => (can_dump_unix_sk d, d.sd.already_dumped, d.peer_ino, d.state)) =
      some (1, 0, 0, TCP_ESTABLISHED) ∧
    (dump_one_unix sample_inode_zero sample_dump_env 1 (sample_parms 3) 0).map Prod.fst =
      some 0 ∧
    (canonical_entries
      (state_of (dump_one_unix sample_inode_zero sample_dump_env 1 (sample_parms 3) 0)).unixsk_img
      ).map (fun e => (e.id, e.state, e.peer)) = [(200, TCP_ESTABLISHED, 0)] := by
  refine ⟨by decide, by decide, by decide⟩

/-- The theorem for C2 applied to the established socket of `sample_inflight`. -/
theorem dump_one_unix_inflight_witness :
    ∃ ret st', dump_one_unix sample_inflight sample_dump_env 1 (sample_parms 3) 0 =
        some (ret, st') ∧
      ((∃ e listener ue,
          lookup_unix_listen_icons sample_inflight (to_int (to_u32 200)) = some (some e) ∧
          sample_inflight.descs[e.sk_desc]? = some listener ∧ listener.state = TCP_LISTEN ∧
          canonical_entries st'.unixsk_img =
            canonical_entries sample_inflight.unixsk_img ++ [ue] ∧
          ue.id = to_u32 200 ∧ ue.state = TCP_ESTABLISHED ∧
          ue.peer = to_u32 listener.sd.ino ∧ (ue.peer = 0 → listener.sd.ino = 0)) ∨
       (ret = -1 ∧ st'.unixsk_img = sample_inflight.unixsk_img)) :=
  dump_one_unix_inflight sample_inflight sample_dump_env 1 (sample_parms 3) 0
    { sd := { family := 1, ino := 200, already_dumped := 0 }, type := 1, state := 1,
      peer_ino := 0, rqlen := 0, wqlen := 0, namelen := 0, name := none,
      nr_icons := 0, icons := none,
      list := { next := list_ref.node 1, prev := list_ref.node 1 } }
    ⟨by decide, by decide, by decide, by decide, by decide, by decide, by decide, by decide⟩
    (by decide) (by decide) (by decide) (by decide) (by decide)

/-! ### The socket table -/

theorem sk_bucket_nonneg (ino : Int) (h : 0 ≤ ino) : 0 ≤ sk_bucket ino := by
  unfold sk_bucket
  exact Int.tmod_nonneg _ h

theorem sk_collect_one_new (st : dump_state) (dy : unix_sk_desc) (ino fam : Int)
    (h32 : st.sockets.length = SK_HASH_SIZE) (h0 : 0 ≤ sk_bucket ino) :
    ∃ chain, st.sockets[(sk_bucket ino).toNat]? = some chain ∧
      sk_collect_one { st with descs := st.descs ++ [dy] } ino fam st.descs.length =
        some (0, link_desc st { dy with sd := { dy.sd with ino := ino, family := fam } }
          (sk_bucket ino).toNat chain) := by
  obtain ⟨chain, hchain, _⟩ := bucket_at_defined st.sockets (sk_bucket ino) h32 h0
    (sk_bucket_lt ino)
  have hget : st.sockets[(sk_bucket ino).toNat]? = some chain := by
    unfold bucket_at at hchain
    rw [if_neg (not_lt.mpr h0)] at hchain
    exact hchain
  have hlt : (sk_bucket ino).toNat < st.sockets.length := (List.getElem?_eq_some.mp hget).1
  refine ⟨chain, hget, ?_⟩
  unfold sk_collect_one link_desc
  simp only [List.getElem?_concat_length, hchain, bucket_set, if_neg (not_lt.mpr h0), hlt,
    if_true]
  simp

theorem sk_collect_one_defined (st : dump_state) (dy : unix_sk_desc) (ino fam : Int)
    (r : Int × dump_state)
    (h : sk_collect_one { st with descs := st.descs ++ [dy] } ino fam st.descs.length = some r) :
    0 ≤ sk_bucket ino := by
  unfold sk_collect_one at h
  simp only [List.getElem?_concat_length] at h
  by_contra hneg
  have : bucket_at st.sockets (sk_bucket ino) = none := by
    unfold bucket_at
    rw [if_pos (lt_of_not_le hneg)]
  simp [this] at h

theorem has_ino_append (descs : List unix_sk_desc) (x : unix_sk_desc) (i : Int) (p : Nat)
    (hp : p < descs.length) : has_ino (descs ++ [x]) i p = has_ino descs i p := by
  unfold has_ino
  rw [List.getElem?_append_left hp]

theorem walk_sockets_append (descs : List unix_sk_desc) (x : unix_sk_desc) (i : Int)
    (chain : List Nat) (hp : ∀ p ∈ chain, p < descs.length) :
    walk_sockets (descs ++ [x]) i chain = walk_sockets descs i chain := by
  induction chain with
  | nil => rfl
  | cons p rest ih =>
    have hp0 : p < descs.length := hp p (List.mem_cons_self _ _)
    unfold walk_sockets
    rw [List.getElem?_append_left hp0, ih (fun q hq => hp q (List.mem_cons_of_mem _ hq))]

theorem link_desc_table_ok (st : dump_state) (x : unix_sk_desc) (b : Nat) (chain : List Nat)
    (hok : table_ok st) (hb : st.sockets[b]? = some chain) :
    table_ok (link_desc st x b chain) := by
  obtain ⟨h32, hptr⟩ := hok
  refine ⟨by simp [link_desc, h32], ?_⟩
  intro c hc p hp
  simp only [link_desc, List.length_append, List.length_singleton] at hc ⊢
  rcases List.mem_or_eq_of_mem_set hc with hc | hc
  · exact Nat.lt_succ_of_lt (hptr c hc p hp)
  · subst hc
    rcases List.mem_cons.mp hp with e | e
    · omega
    · exact Nat.lt_succ_of_lt (hptr chain (List.getElem?_mem hb) p e)

theorem sum_set (l : List Nat) (b old new : Nat) (h : l[b]? = some old) :
    (l.set b new).sum + old = l.sum + new := by
  induction l generalizing b with
  | nil => simp at h
  | cons x xs ih =>
    cases b with
    | zero =>
      simp at h
      subst h
      simp only [List.set_cons_zero, List.sum_cons]
      omega
    | succ b' =>
      simp at h
      have := ih b' h
      simp only [List.set_cons_succ, List.sum_cons]
      omega

theorem link_desc_count (st : dump_state) (x : unix_sk_desc) (b : Nat) (chain : List Nat)
    (hok : table_ok st) (hb : st.sockets[b]? = some chain) (i : Int) :
    count_ino (link_desc st x b chain) i =
      count_ino st i + (if x.sd.ino = i then 1 else 0) := by
  obtain ⟨_, hptr⟩ := hok
  have hcongr : ∀ c ∈ st.sockets,
      (c.filter (has_ino (st.descs ++ [x]) i)).length = (c.filter (has_ino st.descs i)).length := by
    intro c hc
    rw [List.filter_congr (fun p hp => has_ino_append st.descs x i p (hptr c hc p hp))]
  have hmap : st.sockets.map (fun c => (c.filter (has_ino (st.descs ++ [x]) i)).length) =
      st.sockets.map (fun c => (c.filter (has_ino st.descs i)).length) :=
    List.map_congr_left hcongr
  have hnew : has_ino (st.descs ++ [x]) i st.descs.length = decide (x.sd.ino = i) := by
    unfold has_ino
    rw [List.getElem?_concat_length]
  have hold : (st.sockets.map (fun c => (c.filter (has_ino st.descs i)).length))[b]? =
      some (chain.filter (has_ino st.descs i)).length := by
    rw [List.getElem?_map, hb]
    rfl
  have hsum := sum_set _ b _
    ((st.descs.length :: chain).filter (has_ino (st.descs ++ [x]) i)).length hold
  unfold count_ino link_desc
  simp only [List.map_set, hmap]
  have hc := hcongr chain (List.getElem?_mem hb)
  by_cases hx : x.sd.ino = i
  · simp only [List.filter_cons, hnew, hx, decide_True, if_true, List.length_cons, hc] at hsum ⊢
    omega
  · simp only [List.filter_cons, hnew, hx, decide_False, if_false, hc] at hsum ⊢
    simp only [Bool.false_eq_true, if_false] at hsum ⊢
    omega

theorem link_desc_lookup_new (st : dump_state) (x : unix_sk_desc) (chain : List Nat)
    (h0 : 0 ≤ sk_bucket x.sd.ino)
    (hb : st.sockets[(sk_bucket x.sd.ino).toNat]? = some chain) :
    lookup_socket (link_desc st x (sk_bucket x.sd.ino).toNat chain) x.sd.ino =
      some (some st.descs.length) := by
  have hlt : (sk_bucket x.sd.ino).toNat < st.sockets.length := (List.getElem?_eq_some.mp hb).1
  unfold lookup_socket bucket_at link_desc
  simp only [if_neg (not_lt.mpr h0), List.getElem?_set_self hlt]
  unfold walk_sockets
  simp [List.getElem?_concat_length]

theorem link_desc_lookup_other (st : dump_state) (x : unix_sk_desc) (b : Nat)
    (chain : List Nat) (hok : table_ok st) (hb : st.sockets[b]? = some chain) (i : Int)
    (hi : x.sd.ino ≠ i) :
    lookup_socket (link_desc st x b chain) i = lookup_socket st i := by
  obtain ⟨_, hptr⟩ := hok
  unfold lookup_socket bucket_at link_desc
  by_cases hneg : sk_bucket i < 0
  · simp only [if_pos hneg]
  · simp only [if_neg hneg]
    by_cases hk : b = (sk_bucket i).toNat
    · subst hk
      have hlt : (sk_bucket i).toNat < st.sockets.length := (List.getElem?_eq_some.mp hb).1
      simp only [List.getElem?_set_self hlt, hb]
      have hw : walk_sockets (st.descs ++ [x]) i (st.descs.length :: chain) =
          walk_sockets (st.descs ++ [x]) i chain := by
        conv_lhs => unfold walk_sockets
        simp only [List.getElem?_concat_length, hi, if_false]
      rw [hw]
      exact walk_sockets_append _ _ _ _ (hptr chain (List.getElem?_mem hb))
    · simp only [List.getElem?_set_ne hk]
      cases hc : st.sockets[(sk_bucket i).toNat]? with
      | none => rfl
      | some c =>
        simp only []
        exact walk_sockets_append _ _ _ _ (hptr c (List.getElem?_mem hc))

/-- One call of `sk_collect_one` for a fresh descriptor and a non-negative
inode: the call returns 0, the descriptor is on the heap with the two fields
set, and the table changes at this inode only. -/
theorem sk_collect_fresh_step (st : dump_state) (ino fam : Int) (hok : table_ok st)
    (h0 : 0 ≤ ino) :
    ∃ st', sk_collect_fresh st ino fam = some (0, st') ∧ table_ok st' ∧
      st'.descs.length = st.descs.length + 1 ∧
      (∀ p, p < st.descs.length → st'.descs[p]? = st.descs[p]?) ∧
      (∃ x, st'.descs[st.descs.length]? = some x ∧ x.sd.ino = ino ∧ x.sd.family = fam) ∧
      (∀ i, count_ino st' i = count_ino st i + (if ino = i then 1 else 0)) ∧
      lookup_socket st' ino = some (some st.descs.length) ∧
      (∀ i, ino ≠ i → lookup_socket st' i = lookup_socket st i) := by
  obtain ⟨chain, hb, hres⟩ := sk_collect_one_new st (zero_desc st.descs.length) ino fam hok.1
    (sk_bucket_nonneg ino h0)
  refine ⟨_, hres, link_desc_table_ok _ _ _ _ hok hb, ?_, ?_, ?_, ?_, ?_, ?_⟩
  · simp [link_desc]
  · intro p hp
    simp only [link_desc]
    exact List.getElem?_append_left hp
  · exact ⟨_, by simp only [link_desc]; exact List.getElem?_concat_length _ _, rfl, rfl⟩
  · intro i
    exact link_desc_count _ _ _ _ hok hb i
  · exact link_desc_lookup_new st
      { zero_desc st.descs.length with
        sd := { (zero_desc st.descs.length).sd with ino := ino, family := fam } }
      chain (sk_bucket_nonneg ino h0) hb
  · intro i hi
    exact link_desc_lookup_other _ _ _ _ hok hb i hi

theorem occurrences_zero (calls : List (Int × Int)) (i : Int) (h : ∀ c ∈ calls, c.1 ≠ i) :
    (calls.filter fun c => decide (c.1 = i)).length = 0 := by
  induction calls with
  | nil => rfl
  | cons a rest ih =>
    have ha : a.1 ≠ i := h a (List.mem_cons_self _ _)
    simp only [List.filter_cons, ha, decide_False, Bool.false_eq_true, if_false]
    exact ih (fun c hc => h c (List.mem_cons_of_mem _ hc))

theorem occurrences_one (calls : List (Int × Int)) (c : Int × Int)
    (hnd : (calls.map Prod.fst).Nodup) (hc : c ∈ calls) :
    (calls.filter fun c' => decide (c'.1 = c.1)).length = 1 := by
  induction calls with
  | nil => simp at hc
  | cons a rest ih =>
    rw [List.map_cons, List.nodup_cons] at hnd
    rcases List.mem_cons.mp hc with e | e
    · subst e
      have hz := occurrences_zero rest c.1 (fun c' hc' e' =>
        hnd.1 (e' ▸ List.mem_map_of_mem Prod.fst hc'))
      simp only [List.filter_cons, decide_True, if_true, List.length_cons, hz]
    · have ha : a.1 ≠ c.1 := fun e' => hnd.1 (e' ▸ List.mem_map_of_mem Prod.fst e)
      simp only [List.filter_cons, ha, decide_False, Bool.false_eq_true, if_false]
      exact ih hnd.2 e

/-- A sequence of `sk_collect_one` calls with non-negative inodes, from any
state with a sound table. -/
theorem sk_collect_seq_spec (calls : List (Int × Int)) (st : dump_state) (hok : table_ok st)
    (hpos : ∀ c ∈ calls, 0 ≤ c.1) :
    ∃ st', sk_collect_seq calls st = some st' ∧ table_ok st' ∧
      st'.descs.length = st.descs.length + calls.length ∧
      (∀ p, p < st.descs.length → st'.descs[p]? = st.descs[p]?) ∧
      (∀ k c, calls[k]? = some c →
        ∃ x, st'.descs[st.descs.length + k]? = some x ∧ x.sd.ino = c.1 ∧ x.sd.family = c.2) ∧
      (∀ i, count_ino st' i =
        count_ino st i + (calls.filter fun c => decide (c.1 = i)).length) ∧
      (∀ i, (∀ c ∈ calls, c.1 ≠ i) → lookup_socket st' i = lookup_socket st i) ∧
      ((calls.map Prod.fst).Nodup → ∀ k c, calls[k]? = some c →
        lookup_socket st' c.1 = some (some (st.descs.length + k))) := by
  induction calls generalizing st with
  | nil =>
    refine ⟨st, rfl, hok, rfl, fun _ _ => rfl, ?_, ?_, fun _ _ => rfl, ?_⟩
    · intro k c h
      simp at h
    · intro i
      simp
    · intro _ k c h
      simp at h
  | cons a rest ih =>
    obtain ⟨ino, fam⟩ := a
    have h0 : 0 ≤ ino := hpos (ino, fam) (List.mem_cons_self _ _)
    obtain ⟨st1, hstep, hok1, hlen1, hold1, ⟨x1, hx1, hxi, hxf⟩, hcnt1, hnew1, hoth1⟩ :=
      sk_collect_fresh_step st ino fam hok h0
    obtain ⟨st', hseq, hok', hlen', hold', hnew', hcnt', hoth', hnd'⟩ :=
      ih st1 hok1 (fun c hc => hpos c (List.mem_cons_of_mem _ hc))
    refine ⟨st', ?_, hok', ?_, ?_, ?_, ?_, ?_, ?_⟩
    · simp only [sk_collect_seq, hstep, hseq]
    · rw [hlen', hlen1, List.length_cons]
      omega
    · intro p hp
      rw [hold' p (by omega), hold1 p hp]
    · intro k c hk
      cases k with
      | zero =>
        simp at hk
        subst hk
        refine ⟨x1, ?_, hxi, hxf⟩
        rw [Nat.add_zero, hold' _ (by omega), hx1]
      | succ k' =>
        simp at hk
        obtain ⟨x, hx, h1, h2⟩ := hnew' k' c hk
        refine ⟨x, ?_, h1, h2⟩
        rw [← hx, hlen1]
        congr 1
        omega
    · intro i
      rw [hcnt' i, hcnt1 i]
      by_cases hi : ino = i
      · simp only [hi, if_true, List.filter_cons, decide_True, List.length_cons]
        omega
      · simp only [hi, if_false, List.filter_cons, decide_False, Bool.false_eq_true]
        omega
    · intro i hi
      rw [hoth' i (fun c hc => hi c (List.mem_cons_of_mem _ hc))]
      exact hoth1 i (hi (ino, fam) (List.mem_cons_self _ _))
    · intro hnd k c hk
      rw [List.map_cons, List.nodup_cons] at hnd
      cases k with
      | zero =>
        simp at hk
        subst hk
        have hfree : ∀ c ∈ rest, c.1 ≠ ino := by
          intro c hc e
          have hm : c.1 ∈ rest.map Prod.fst := List.mem_map_of_mem Prod.fst hc
          rw [e] at hm
          exact hnd.1 hm
        rw [Nat.add_zero, hoth' ino hfree]
        exact hnew1
      | succ k' =>
        simp at hk
        rw [hnd' hnd.2 k' c hk, hlen1]
        congr 2
        omega

theorem init_state_table_ok : table_ok init_state := by
  refine ⟨rfl, ?_⟩
  intro chain hc p hp
  have : chain = [] := List.eq_of_mem_replicate hc
  subst this
  simp at hp

/-- C9, amended: a sequence of `sk_collect_one` calls, each for a fresh
descriptor, on the empty table, with non-negative and pairwise distinct
inodes, runs to its end; for the `k`-th call the table then holds exactly one
entry with its inode, `lookup_socket` returns the descriptor of that call, and
this descriptor carries the inode and family of the call; and `lookup_socket`
of a non-negative inode that is not in the sequence returns `NULL`. -/
theorem sk_collect_lookup (calls : List (Int × Int))
    (hpos : ∀ c ∈ calls, 0 ≤ c.1) (hnd : (calls.map Prod.fst).Nodup) :
    ∃ st, sk_collect_seq calls init_state = some st ∧
      (∀ k c, calls[k]? = some c →
        count_ino st c.1 = 1 ∧ lookup_socket st c.1 = some (some k) ∧
        ∃ x, st.descs[k]? = some x ∧ x.sd.ino = c.1 ∧ x.sd.family = c.2) ∧
      (∀ j, 0 ≤ j → j ∉ calls.map Prod.fst →
        lookup_socket st j = some none ∧ count_ino st j = 0) := by
  obtain ⟨st, hseq, _, _, _, hnew, hcnt, hoth, hlook⟩ :=
    sk_collect_seq_spec calls init_state init_state_table_ok hpos
  have hc0 : ∀ i, count_ino init_state i = 0 := by
    intro i
    unfold count_ino init_state
    simp
  refine ⟨st, hseq, ?_, ?_⟩
  · intro k c hk
    refine ⟨?_, ?_, ?_⟩
    · rw [hcnt, hc0, occurrences_one calls c hnd (List.getElem?_mem hk)]
    · have := hlook hnd k c hk
      simpa [init_state] using this
    · have := hnew k c hk
      simpa [init_state] using this
  · intro j hj hnot
    have hne : ∀ c ∈ calls, c.1 ≠ j := fun c hc e => hnot (e ▸ List.mem_map_of_mem Prod.fst hc)
    refine ⟨?_, ?_⟩
    · rw [hoth j hne]
      obtain ⟨chain, hchain, hmem⟩ := bucket_at_defined init_state.sockets (sk_bucket j) rfl
        (sk_bucket_nonneg j hj) (sk_bucket_lt j)
      have : chain = [] := List.eq_of_mem_replicate hmem
      subst this
      unfold lookup_socket
      rw [hchain]
      rfl
    · rw [hcnt, hc0, occurrences_zero calls j hne]

/-- The theorem for C9 applied to three calls, two of them for the same bucket. -/
theorem sk_collect_lookup_witness :
    ∃ st, sk_collect_seq [(5, 1), (37, 2), (6, 1)] init_state = some st ∧
      (∀ k c, [((5 : Int), (1 : Int)), (37, 2), (6, 1)][k]? = some c →
        count_ino st c.1 = 1 ∧ lookup_socket st c.1 = some (some k) ∧
        ∃ x, st.descs[k]? = some x ∧ x.sd.ino = c.1 ∧ x.sd.family = c.2) ∧
      (∀ j, 0 ≤ j → j ∉ [((5 : Int), (1 : Int)), (37, 2), (6, 1)].map Prod.fst →
        lookup_socket st j = some none ∧ count_ino st j = 0) :=
  sk_collect_lookup [(5, 1), (37, 2), (6, 1)] (by decide) (by decide)

/-- C9, the claim as stated fails: after one call for inode 1 the inode -1 (the
`int` that holds 0xffffffff) has never been collected, and `lookup_socket(-1)`
does not return `NULL`: it reads `sockets[-1]`, outside the array. -/
theorem lookup_socket_negative_inode :
    sk_bucket (-1) = -1 ∧
    (sk_collect_seq [(1, AF_UNIX)] init_state).map (fun st => lookup_socket st (-1)) =
      some none ∧
    (sk_collect_seq [(1, AF_UNIX)] init_state).map (fun st => lookup_socket st 2) =
      some (some none) := by
  refine ⟨by decide, by decide, by decide⟩

/-! ### The icon index -/

theorem to_u32_to_int (q : Nat) (h : q < 4294967296) : to_u32 (to_int q) = q := by
  unfold to_u32 to_int
  rw [Nat.mod_eq_of_lt h]
  split <;> omega

theorem lookup_icons_eq (st : dump_state) (i : Int) :
    lookup_unix_listen_icons st i = icon_lookup st.unix_listen_icons i := rfl

theorem bucket_set_some {α : Type} (tbl tbl' : List (List α)) (k : Int) (c : List α)
    (h : bucket_set tbl k c = some tbl') :
    0 ≤ k ∧ k.toNat < tbl.length ∧ tbl' = tbl.set k.toNat c := by
  unfold bucket_set at h
  split at h
  · exact Option.noConfusion h
  · rename_i hk
    split at h
    · rename_i hlt
      simp only [Option.some.injEq] at h
      exact ⟨not_lt.mp hk, hlt, h.symm⟩
    · exact Option.noConfusion h

theorem icon_insert_other (tbl : List (List unix_sk_listen_icon)) (k : Nat)
    (e : unix_sk_listen_icon) (chain : List unix_sk_listen_icon) (i : Int)
    (hk : tbl[k]? = some chain) (hne : e.peer_ino ≠ to_u32 i) :
    icon_lookup (tbl.set k (e :: chain)) i = icon_lookup tbl i := by
  unfold icon_lookup bucket_at
  by_cases hneg : sk_bucket i < 0
  · simp only [if_pos hneg]
  · simp only [if_neg hneg]
    by_cases hb : k = (sk_bucket i).toNat
    · subst hb
      have hlt : (sk_bucket i).toNat < tbl.length := (List.getElem?_eq_some.mp hk).1
      simp only [List.getElem?_set_self hlt, hk, List.find?_cons, hne, decide_False]
    · simp only [List.getElem?_set_ne hb]

theorem icon_insert_same (tbl : List (List unix_sk_listen_icon)) (n : Int)
    (e : unix_sk_listen_icon) (chain : List unix_sk_listen_icon)
    (h0 : 0 ≤ sk_bucket n) (hk : tbl[(sk_bucket n).toNat]? = some chain)
    (he : e.peer_ino = to_u32 n) :
    icon_lookup (tbl.set (sk_bucket n).toNat (e :: chain)) n = some (some e) := by
  have hlt : (sk_bucket n).toNat < tbl.length := (List.getElem?_eq_some.mp hk).1
  unfold icon_lookup bucket_at
  simp only [if_neg (not_lt.mpr h0), List.getElem?_set_self hlt, List.find?_cons, he,
    decide_True]

/-- The icon loop, when it runs to its end: the index keeps its length, the
lookup of an inode that is not among the icons is unchanged, and the lookup
of each icon returns the entry made for it. -/
theorem collect_icons_spec (d : Nat) (payload : List Nat) (allocs : Nat)
    (tbl tbl' : List (List unix_sk_listen_icon))
    (hu32 : ∀ q ∈ payload, q < 4294967296)
    (h : collect_icons d payload allocs tbl = some (true, tbl')) :
    tbl'.length = tbl.length ∧
    (∀ i : Int, to_u32 i ∉ payload → icon_lookup tbl' i = icon_lookup tbl i) ∧
    (∀ q ∈ payload, icon_lookup tbl' (to_int q) = some (some { peer_ino := q, sk_desc := d })) := by
  induction payload generalizing allocs tbl with
  | nil =>
    simp only [collect_icons, Option.some.injEq, Prod.mk.injEq, true_and] at h
    subst h
    exact ⟨rfl, fun _ _ => rfl, fun q hq => by simp at hq⟩
  | cons q0 rest ih =>
    cases allocs with
    | zero => simp [collect_icons] at h
    | succ allocs =>
      have hq0 : q0 < 4294967296 := hu32 q0 (List.mem_cons_self _ _)
      have hconv : to_u32 (to_int q0) = q0 := to_u32_to_int q0 hq0
      unfold collect_icons at h
      simp only [] at h
      split at h
      · exact Option.noConfusion h
      · rename_i chain hchain
        split at h
        · exact Option.noConfusion h
        · rename_i tbl1 hset
          obtain ⟨h0, hlt, htbl1⟩ := bucket_set_some _ _ _ _ hset
          have hget : tbl[(sk_bucket (to_int q0)).toNat]? = some chain := by
            unfold bucket_at at hchain
            rw [if_neg (not_lt.mpr h0)] at hchain
            exact hchain
          obtain ⟨hlen, hoth, hnew⟩ :=
            ih allocs tbl1 (fun q hq => hu32 q (List.mem_cons_of_mem _ hq)) h
          rw [hconv] at htbl1
          refine ⟨?_, ?_, ?_⟩
          · rw [hlen, htbl1, List.length_set]
          · intro i hi
            have hi0 : q0 ≠ to_u32 i := fun e => hi (e ▸ List.mem_cons_self _ _)
            rw [hoth i (fun hm => hi (List.mem_cons_of_mem _ hm)), htbl1]
            exact icon_insert_other tbl _ _ chain i hget hi0
          · intro q hq
            by_cases hr : q ∈ rest
            · exact hnew q hr
            · have hqe : q = q0 := by
                rcases List.mem_cons.mp hq with e | e
                · exact e
                · exact absurd e hr
              subst hqe
              rw [hoth (to_int q) (by rw [hconv]; exact hr), htbl1]
              exact icon_insert_same tbl (to_int q) _ chain h0 hget hconv.symm

theorem set_concat {α : Type} (l : List α) (a b : α) :
    (l ++ [a]).set l.length b = l ++ [b] := by
  simp

theorem collect_finish_shape (st st' : dump_state) (m : unix_diag_msg) (tb : unix_diag_attrs)
    (dx : unix_sk_desc) (r : Int)
    (h : collect_finish st m tb st.descs.length dx = some (r, st')) :
    r = 0 ∧ st'.unix_listen_icons = st.unix_listen_icons ∧
    ∃ dn, st'.descs = st.descs ++ [dn] ∧ dn.icons = dx.icons := by
  unfold collect_finish sk_collect_one at h
  simp only [List.getElem?_concat_length] at h
  split at h
  · exact Option.noConfusion h
  · split at h
    · exact Option.noConfusion h
    · simp only [Option.some.injEq, Prod.mk.injEq] at h
      obtain ⟨h1, h2⟩ := h
      subst h2
      refine ⟨h1.symm, rfl, ?_⟩
      simp only [set_concat]
      refine ⟨_, rfl, ?_⟩
      simp only []
      split <;> rfl

theorem collect_attrs_ok (st st' : dump_state) (env : collect_env) (m : unix_diag_msg)
    (tb : unix_diag_attrs) (d1 : unix_sk_desc) (hd1 : d1.icons = none)
    (hu32 : ∀ q ∈ tb.icons.getD [], q < 4294967296)
    (h : collect_attrs st env m tb st.descs.length d1 = some (0, st')) :
    st'.unix_listen_icons.length = st.unix_listen_icons.length ∧
    (∀ i : Int, to_u32 i ∉ tb.icons.getD [] →
      lookup_unix_listen_icons st' i = lookup_unix_listen_icons st i) ∧
    (st'.descs = st.descs ∨
      ∃ dn, st'.descs = st.descs ++ [dn] ∧
        ∀ q ∈ dn.icons.getD [], q ∈ tb.icons.getD [] ∧
          lookup_unix_listen_icons st' (to_int q) =
            some (some { peer_ino := q, sk_desc := st.descs.length })) := by
  unfold collect_attrs at h
  split at h
  · simp at h
  · simp only [Option.some.injEq, Prod.mk.injEq, true_and] at h
    subst h
    exact ⟨rfl, fun _ _ => rfl, Or.inl rfl⟩
  · split at h
    · rename_i hnone
      obtain ⟨_, hic, dn, hdn, hdi⟩ := collect_finish_shape _ _ _ _ _ _ h
      refine ⟨by rw [hic], ?_, Or.inr ⟨dn, hdn, ?_⟩⟩
      · intro i _
        rw [lookup_icons_eq, lookup_icons_eq, hic]
      · intro q hq
        rw [hdi] at hq
        simp [hd1] at hq
    · rename_i payload hsome
      split at h
      · simp at h
      · split at h
        · exact Option.noConfusion h
        · simp at h
        · rename_i tbl hloop
          rw [hsome] at hu32
          simp only [Option.getD_some] at hu32
          obtain ⟨hlen, hoth, hnew⟩ := collect_icons_spec _ _ _ _ _ hu32 hloop
          obtain ⟨_, hic, dn, hdn, hdi⟩ := collect_finish_shape
            { st with unix_listen_icons := tbl } _ _ _ _ _ h
          simp only [] at hic hdn
          refine ⟨by rw [hic, hlen], ?_, Or.inr ⟨dn, hdn, ?_⟩⟩
          · intro i hi
            rw [hsome] at hi
            simp only [Option.getD_some] at hi
            rw [lookup_icons_eq, lookup_icons_eq, hic]
            exact hoth i hi
          · intro q hq
            rw [hdi] at hq
            simp only [Option.getD_some] at hq
            refine ⟨by rw [hsome]; exact hq, ?_⟩
            rw [lookup_icons_eq, hic]
            exact hnew q hq

/-- One call of `unix_collect_one` that returns 0: the lookup of an inode that
is not among the icons of the message is unchanged, and either no descriptor
was added, or one was added whose icons are those of the message and are now
all found in the index, with this descriptor. -/
theorem unix_collect_one_ok (st st' : dump_state) (env : collect_env) (m : unix_diag_msg)
    (tb : unix_diag_attrs) (hu32 : ∀ q ∈ tb.icons.getD [], q < 4294967296)
    (h : unix_collect_one st env m tb = some (0, st')) :
    st'.unix_listen_icons.length = st.unix_listen_icons.length ∧
    (∀ i : Int, to_u32 i ∉ tb.icons.getD [] →
      lookup_unix_listen_icons st' i = lookup_unix_listen_icons st i) ∧
    (st'.descs = st.descs ∨
      ∃ dn, st'.descs = st.descs ++ [dn] ∧
        ∀ q ∈ dn.icons.getD [], q ∈ tb.icons.getD [] ∧
          lookup_unix_listen_icons st' (to_int q) =
            some (some { peer_ino := q, sk_desc := st.descs.length })) := by
  unfold unix_collect_one at h
  split at h
  · simp at h
  · refine collect_attrs_ok st st' env m tb _ ?_ hu32 h
    split <;> rfl

/-- A sequence of calls of `unix_collect_one` that all return 0, no icon inode
occurring in the messages of two calls: the lookup of an inode that is in no
message is unchanged, and every icon of every descriptor added by the
sequence is found in the index, with that descriptor. -/
theorem unix_collect_seq_spec (calls : List (collect_env × unix_diag_msg × unix_diag_attrs))
    (st st' : dump_state)
    (hu32 : ∀ c ∈ calls, ∀ q ∈ icons_of c, q < 4294967296)
    (hdis : calls.Pairwise fun a b => ∀ q ∈ icons_of a, q ∉ icons_of b)
    (h : unix_collect_seq calls st = some st') :
    (∃ news, st'.descs = st.descs ++ news) ∧
    (∀ i : Int, (∀ c ∈ calls, to_u32 i ∉ icons_of c) →
      lookup_unix_listen_icons st' i = lookup_unix_listen_icons st i) ∧
    (∀ p d, st.descs.length ≤ p → st'.descs[p]? = some d → ∀ q ∈ d.icons.getD [],
      lookup_unix_listen_icons st' (to_int q) = some (some { peer_ino := q, sk_desc := p })) := by
  induction calls generalizing st with
  | nil =>
    simp only [unix_collect_seq, Option.some.injEq] at h
    subst h
    refine ⟨⟨[], by simp⟩, fun _ _ => rfl, ?_⟩
    intro p d hp hd
    have := (List.getElem?_eq_some.mp hd).1
    omega
  | cons c rest ih =>
    obtain ⟨env, m, tb⟩ := c
    rw [List.pairwise_cons] at hdis
    unfold unix_collect_seq at h
    split at h
    · exact Option.noConfusion h
    · rename_i ret st1 hcall
      split at h
      · rename_i hret
        subst hret
        have hu0 : ∀ q ∈ tb.icons.getD [], q < 4294967296 :=
          hu32 (env, m, tb) (List.mem_cons_self _ _)
        obtain ⟨_, hoth1, hdesc1⟩ := unix_collect_one_ok st st1 env m tb hu0 hcall
        obtain ⟨⟨news, hnews⟩, hoth, hnew⟩ :=
          ih st1 (fun c hc => hu32 c (List.mem_cons_of_mem _ hc)) hdis.2 h
        have hpre : ∃ n1, st1.descs = st.descs ++ n1 := by
          rcases hdesc1 with e | ⟨dn, e, _⟩
          · exact ⟨[], by simp [e]⟩
          · exact ⟨[dn], e⟩
        obtain ⟨n1, hn1⟩ := hpre
        refine ⟨⟨n1 ++ news, by rw [hnews, hn1, List.append_assoc]⟩, ?_, ?_⟩
        · intro i hi
          rw [hoth i (fun c hc => hi c (List.mem_cons_of_mem _ hc))]
          exact hoth1 i (hi (env, m, tb) (List.mem_cons_self _ _))
        · intro p d hp hd q hq
          by_cases hp1 : st1.descs.length ≤ p
          · exact hnew p d hp1 hd q hq
          · rcases hdesc1 with e | ⟨dn, e, hdn⟩
            · rw [e] at hp1
              exact absurd hp hp1
            · have hlen1 : st1.descs.length = st.descs.length + 1 := by simp [e]
              have hpe : p = st.descs.length := by omega
              subst hpe
              have hd' : st'.descs[st.descs.length]? = some dn := by
                rw [hnews, List.getElem?_append_left (by omega), e]
                exact List.getElem?_concat_length _ _
              rw [hd'] at hd
              have hdd : dn = d := Option.some.inj hd
              subst hdd
              obtain ⟨hqtb, hlk⟩ := hdn q hq
              have hq32 : q < 4294967296 := hu0 q hqtb
              rw [hoth (to_int q), hlk]
              intro c hc
              rw [to_u32_to_int q hq32]
              exact hdis.1 c hc q hqtb
      · exact Option.noConfusion h

/-- C10: after a sequence of calls of `unix_collect_one` on the empty tables
that all return 0 and in which no icon inode occurs in the `ICONS` attribute of
two messages, for every descriptor on the heap and every icon `q` stored in
it, `lookup_unix_listen_icons(q)` returns an icon entry whose `peer_ino` is
`q` and whose `sk_desc` is that descriptor.  The icons are `u32` values. -/
theorem unix_collect_icons_lookup
    (calls : List (collect_env × unix_diag_msg × unix_diag_attrs)) (st : dump_state)
    (hu32 : ∀ c ∈ calls, ∀ q ∈ icons_of c, q < 4294967296)
    (hdis : calls.Pairwise fun a b => ∀ q ∈ icons_of a, q ∉ icons_of b)
    (h : unix_collect_seq calls init_state = some st) :
    ∀ p d ics, st.descs[p]? = some d → d.icons = some ics → ∀ q ∈ ics,
      ∃ e, lookup_unix_listen_icons st (to_int q) = some (some e) ∧
        e.peer_ino = q ∧ e.sk_desc = p := by
  obtain ⟨_, _, hnew⟩ := unix_collect_seq_spec calls init_state st hu32 hdis h
  intro p d ics hd hics q hq
  refine ⟨_, hnew p d (Nat.zero_le _) hd q (by rw [hics]; exact hq), rfl, rfl⟩

/-- The theorem for C10 applied to `sample_calls`, at the second icon of the
first socket. -/
theorem unix_collect_icons_lookup_witness :
    ∃ e, lookup_unix_listen_icons ((unix_collect_seq sample_calls init_state).getD init_state)
        (to_int 232) = some (some e) ∧ e.peer_ino = 232 ∧ e.sk_desc = 0 :=
  unix_collect_icons_lookup sample_calls
    ((unix_collect_seq sample_calls init_state).getD init_state)
    (by decide) (by decide) (by decide) 0
    { sd := { family := 1, ino := 100, already_dumped := 0 }, type := 1, state := 10,
      peer_ino := 0, rqlen := 0, wqlen := 0, namelen := 0, name := none,
      nr_icons := 2, icons := some [200, 232],
      list := { next := list_ref.node 0, prev := list_ref.node 0 } }
    [200, 232] (by decide) (by decide) 232 (by decide)

/-! ### What the loader hands to the resolver -/

theorem collect_loop_loaded (fuel budget : Nat) (img : List img_item) (st : restore_state)
    (h : ∀ x ∈ st.unix_sockets, x.peer = none ∧ x.flags = 0) :
    ∀ x ∈ (collect_loop fuel budget img st).2.unix_sockets, x.peer = none ∧ x.flags = 0 := by
  induction fuel generalizing budget img st with
  | zero => exact h
  | succ fuel ih =>
    unfold collect_loop
    split
    · exact h
    · split
      · exact h
      · exact h
      · rename_i e rest
        split
        · split
          · exact h
          · split
            · exact h
            · split
              · exact h
              · rename_i bytes rest' _
                apply ih
                intro x hx
                simp only [register_unix_sk, List.mem_append, List.mem_singleton] at hx
                rcases hx with hx | hx
                · apply h
                  split at hx <;> exact hx
                · subst hx
                  exact ⟨rfl, rfl⟩
        · apply ih
          intro x hx
          simp only [register_unix_sk, List.mem_append, List.mem_singleton] at hx
          rcases hx with hx | hx
          · exact h x hx
          · subst hx
            exact ⟨rfl, rfl⟩

/-- Every socket that `collect_unix_sockets` registers has no peer link and no
role flag: the list it leaves is a list of freshly loaded sockets. -/
theorem collect_unix_sockets_loaded (opn : open_result) (budget : Nat) (rq : Int) :
    ∀ x ∈ (collect_unix_sockets opn budget rq empty_restore).2.unix_sockets,
      x.peer = none ∧ x.flags = 0 := by
  have h0 : ∀ x ∈ empty_restore.unix_sockets, x.peer = none ∧ x.flags = 0 := by
    intro x hx
    simp [empty_restore] at hx
  unfold collect_unix_sockets
  split
  · exact h0
  · exact h0
  · exact collect_loop_loaded _ _ _ _ h0

/-! ### Well-formedness is kept by the list operations and by the dumper -/

theorem init_state_wf : wf_state init_state := by
  refine ⟨rfl, rfl, ?_, ?_, ?_, ⟨rfl, rfl⟩, ?_, ?_⟩
  · intro chain hc p hp
    have : chain = [] := List.eq_of_mem_replicate hc
    subst this
    simp at hp
  · intro chain hc e he
    have : chain = [] := List.eq_of_mem_replicate hc
    subst this
    simp at he
  · intro d hd
    simp [init_state] at hd
  · intro d hd
    simp [init_state] at hd
  · intro d hd
    simp [init_state] at hd

/-- A state that differs from a well-formed one in its images only is
well-formed. -/
theorem wf_state_images (st st' : dump_state) (hwf : wf_state st)
    (h1 : st'.descs = st.descs) (h2 : st'.sockets = st.sockets)
    (h3 : st'.unix_listen_icons = st.unix_listen_icons)
    (h4 : st'.unix_sockets = st.unix_sockets) : wf_state st' := by
  obtain ⟨a, b, c, d, e, f, g, h⟩ := hwf
  refine ⟨?_, ?_, ?_, ?_, ?_, ?_, ?_, ?_⟩
  · rw [h2]; exact a
  · rw [h3]; exact b
  · rw [h1, h2]; exact c
  · rw [h1, h3]; exact d
  · rw [h1]; exact e
  · rw [h1, h4]; exact f
  · rw [h1]; exact g
  · rw [h1]; exact h

theorem set_list_wf (st st' : dump_state) (r : list_ref) (f : list_head → list_head)
    (hwf : wf_state st)
    (hf : ∀ h : list_head, valid_ref st.descs.length h.next = true ∧
        valid_ref st.descs.length h.prev = true →
      valid_ref st.descs.length (f h).next = true ∧
        valid_ref st.descs.length (f h).prev = true)
    (h : set_list st r f = some st') : wf_state st' := by
  obtain ⟨a, b, c, d, e, g, hn, hi⟩ := hwf
  cases r with
  | head =>
    simp only [set_list, Option.some.injEq] at h
    subst h
    exact ⟨a, b, c, d, e, hf _ g, hn, hi⟩
  | node k =>
    simp only [set_list] at h
    cases hx : st.descs[k]? with
    | none => simp [hx] at h
    | some x =>
      simp only [hx, Option.some.injEq] at h
      subst h
      have hxm : x ∈ st.descs := List.getElem?_mem hx
      refine ⟨a, b, ?_, ?_, ?_, ?_, ?_, ?_⟩
      · simpa using c
      · simpa using d
      · intro y hy
        simp only [List.length_set]
        rcases List.mem_or_eq_of_mem_set hy with hy | hy
        · exact e y hy
        · subst hy
          exact hf _ (e x hxm)
      · simpa using g
      · intro y hy
        rcases List.mem_or_eq_of_mem_set hy with hy | hy
        · exact hn y hy
        · subst hy
          exact hn x hxm
      · intro y hy
        rcases List.mem_or_eq_of_mem_set hy with hy | hy
        · exact hi y hy
        · subst hy
          exact hi x hxm

theorem set_list_length (st st' : dump_state) (r : list_ref) (f : list_head → list_head)
    (h : set_list st r f = some st') : st'.descs.length = st.descs.length := by
  have := (set_list_links_only st st' r f h).1
  have h2 := congrArg List.length this
  simpa using h2

theorem get_list_valid (st : dump_state) (r : list_ref) (e : list_head) (hwf : wf_state st)
    (h : get_list st r = some e) :
    valid_ref st.descs.length e.next = true ∧ valid_ref st.descs.length e.prev = true ∧
    valid_ref st.descs.length r = true := by
  cases r with
  | head =>
    simp only [get_list, Option.some.injEq] at h
    subst h
    exact ⟨hwf.head_links.1, hwf.head_links.2, rfl⟩
  | node k =>
    simp only [get_list] at h
    cases hx : st.descs[k]? with
    | none => simp [hx] at h
    | some x =>
      simp only [hx, Option.some.injEq] at h
      subst h
      have hl := hwf.links x (List.getElem?_mem hx)
      refine ⟨hl.1, hl.2, ?_⟩
      simp only [valid_ref, decide_eq_true_eq]
      exact (List.getElem?_eq_some.mp hx).1

theorem list_add_tail_wf (st st' : dump_state) (new : list_ref) (hwf : wf_state st)
    (hnew : valid_ref st.descs.length new = true)
    (h : list_add_tail st new list_ref.head = some st') : wf_state st' := by
  unfold list_add_tail at h
  cases hg : get_list st list_ref.head with
  | none => simp [hg] at h
  | some hh =>
    obtain ⟨_, hprev, _⟩ := get_list_valid st _ _ hwf hg
    simp only [hg, list_add_between] at h
    cases h1 : set_list st list_ref.head (fun h => { h with prev := new }) with
    | none => simp [h1] at h
    | some s1 =>
      simp only [h1] at h
      have l1 := set_list_length _ _ _ _ h1
      have w1 := set_list_wf st s1 list_ref.head (fun h => { h with prev := new }) hwf
        (fun h hv => ⟨hv.1, hnew⟩) h1
      cases h2 : set_list s1 new (fun h => { h with next := list_ref.head }) with
      | none => simp [h2] at h
      | some s2 =>
        simp only [h2] at h
        have l2 := set_list_length _ _ _ _ h2
        have w2 := set_list_wf s1 s2 new (fun h => { h with next := list_ref.head }) w1
          (fun h hv => ⟨rfl, hv.2⟩) h2
        cases h3 : set_list s2 new (fun h => { h with prev := hh.prev }) with
        | none => simp [h3] at h
        | some s3 =>
          simp only [h3] at h
          have l3 := set_list_length _ _ _ _ h3
          have w3 := set_list_wf s2 s3 new (fun h => { h with prev := hh.prev }) w2
            (fun h hv => ⟨hv.1, by rw [l2, l1]; exact hprev⟩) h3
          exact set_list_wf s3 st' hh.prev (fun h => { h with next := new }) w3
            (fun h hv => ⟨by rw [l3, l2, l1]; exact hnew, hv.2⟩) h

theorem list_del_init_wf (st st' : dump_state) (entry : list_ref) (hwf : wf_state st)
    (h : list_del_init st entry = some st') : wf_state st' := by
  unfold list_del_init at h
  cases hg : get_list st entry with
  | none => simp [hg] at h
  | some e =>
    obtain ⟨hnext, hprev, hent⟩ := get_list_valid st _ _ hwf hg
    simp only [hg] at h
    cases h1 : set_list st e.next (fun h => { h with prev := e.prev }) with
    | none => simp [h1] at h
    | some s1 =>
      simp only [h1] at h
      have l1 := set_list_length _ _ _ _ h1
      have w1 := set_list_wf st s1 e.next (fun h => { h with prev := e.prev }) hwf
        (fun h hv => ⟨hv.1, hprev⟩) h1
      cases h2 : set_list s1 e.prev (fun h => { h with next := e.next }) with
      | none => simp [h2] at h
      | some s2 =>
        simp only [h2] at h
        have l2 := set_list_length _ _ _ _ h2
        have w2 := set_list_wf s1 s2 e.prev (fun h => { h with next := e.next }) w1
          (fun h hv => ⟨by rw [l1]; exact hnext, hv.2⟩) h2
        exact set_list_wf s2 st' entry (fun _ => { next := entry, prev := entry }) w2
          (fun _ _ => ⟨by rw [l2, l1]; exact hent, by rw [l2, l1]; exact hent⟩) h

theorem mark_dumped_wf (st st' : dump_state) (sk : Nat) (hwf : wf_state st)
    (h : mark_dumped st sk = some st') : wf_state st' := by
  unfold mark_dumped at h
  cases hdel : list_del_init st (list_ref.node sk) with
  | none => simp [hdel] at h
  | some s1 =>
    simp only [hdel] at h
    have w1 := list_del_init_wf _ _ _ hwf hdel
    cases hx : s1.descs[sk]? with
    | none => simp [hx] at h
    | some x =>
      simp only [hx, Option.some.injEq] at h
      subst h
      obtain ⟨a, b, c, d, e, g, hn, hi⟩ := w1
      have hxm : x ∈ s1.descs := List.getElem?_mem hx
      refine ⟨a, b, ?_, ?_, ?_, ?_, ?_, ?_⟩
      · simpa using c
      · simpa using d
      · intro y hy
        simp only [List.length_set]
        rcases List.mem_or_eq_of_mem_set hy with hy | hy
        · exact e y hy
        · subst hy
          exact e x hxm
      · simpa using g
      · intro y hy
        rcases List.mem_or_eq_of_mem_set hy with hy | hy
        · exact hn y hy
        · subst hy
          exact hn x hxm
      · intro y hy
        rcases List.mem_or_eq_of_mem_set hy with hy | hy
        · exact hi y hy
        · subst hy
          exact hi x hxm

theorem peer_fixup_wf (st st' : dump_state) (ue ue' : unix_sk_entry) (hwf : wf_state st)
    (h : peer_fixup st ue = some (some (ue', st'))) : wf_state st' := by
  unfold peer_fixup at h
  split at h
  · split at h
    · exact Option.noConfusion h
    · simp at h
    · split at h
      · exact Option.noConfusion h
      · rename_i pp _ _ peer hpeer
        have hpp : valid_ref st.descs.length (list_ref.node pp) = true := by
          simp only [valid_ref, decide_eq_true_eq]
          exact (List.getElem?_eq_some.mp hpeer).1
        split at h
        · split at h
          · simp at h
          · split at h
            · split at h
              · exact Option.noConfusion h
              · rename_i st2 hadd
                simp only [Option.some.injEq, Prod.mk.injEq] at h
                rw [← h.2]
                exact list_add_tail_wf _ _ _ hwf hpp hadd
            · simp only [Option.some.injEq, Prod.mk.injEq] at h
              rw [← h.2]
              exact hwf
        · simp only [Option.some.injEq, Prod.mk.injEq] at h
          rw [← h.2]
          exact hwf
  · split at h
    · split at h
      · exact Option.noConfusion h
      · simp at h
      · split at h
        · exact Option.noConfusion h
        · split at h
          · simp at h
          · simp only [Option.some.injEq, Prod.mk.injEq] at h
            rw [← h.2]
            exact hwf
    · simp only [Option.some.injEq, Prod.mk.injEq] at h
      rw [← h.2]
      exact hwf

theorem dump_tail_wf (st st' : dump_state) (env : dump_env) (sk : Nat) (d : unix_sk_desc)
    (ue : unix_sk_entry) (ret : Int) (hwf : wf_state st)
    (h : dump_tail st env sk d ue = some (ret, st')) : wf_state st' := by
  unfold dump_tail at h
  split at h
  · simp only [Option.some.injEq, Prod.mk.injEq] at h
    rw [← h.2]
    exact hwf
  · split at h
    · exact Option.noConfusion h
    · split at h
      · simp only [Option.some.injEq, Prod.mk.injEq] at h
        rw [← h.2]
        exact wf_state_images _ _ hwf rfl rfl rfl rfl
      · dsimp only at h
        split at h
        · simp only [Option.some.injEq, Prod.mk.injEq] at h
          rw [← h.2]
          exact wf_state_images _ _ hwf rfl rfl rfl rfl
        · rename_i st3 hq
          split at h
          · exact Option.noConfusion h
          · rename_i st4 hm
            simp only [Option.some.injEq, Prod.mk.injEq] at h
            rw [← h.2]
            have w3 : wf_state st3 := by
              unfold queue_step at hq
              split at hq
              · split at hq
                · exact Option.noConfusion hq
                · simp only [Option.some.injEq] at hq
                  rw [← hq]
                  exact wf_state_images _ _ hwf rfl rfl rfl rfl
              · simp only [Option.some.injEq] at hq
                rw [← hq]
                exact wf_state_images _ _ hwf rfl rfl rfl rfl
            exact mark_dumped_wf _ _ _ w3 hm

/-- Every return of `dump_one_unix` from a well-formed state leaves a
well-formed state. -/
theorem dump_one_unix_wf (st st' : dump_state) (env : dump_env) (sk : Nat) (p : fd_parms)
    (cr_fdset : Nat) (ret : Int) (hwf : wf_state st)
    (h : dump_one_unix st env sk p cr_fdset = some (ret, st')) : wf_state st' := by
  unfold dump_one_unix at h
  split at h
  · exact Option.noConfusion h
  · split at h
    · simp only [Option.some.injEq, Prod.mk.injEq] at h
      rw [← h.2]
      exact hwf
    · split at h
      · simp only [Option.some.injEq, Prod.mk.injEq] at h
        rw [← h.2]
        exact hwf
      · split at h
        · simp only [Option.some.injEq, Prod.mk.injEq] at h
          rw [← h.2]
          exact wf_state_images _ _ hwf rfl rfl rfl rfl
        · dsimp only at h
          split at h
          · exact Option.noConfusion h
          · simp only [Option.some.injEq, Prod.mk.injEq] at h
            rw [← h.2]
            exact wf_state_images _ _ hwf rfl rfl rfl rfl
          · rename_i ue' st2 hfix
            have w2 : wf_state st2 := by
              refine peer_fixup_wf _ st2 _ ue' ?_ hfix
              exact wf_state_images st _ hwf rfl rfl rfl rfl
            exact dump_tail_wf _ _ _ _ _ _ _ w2 h

/-! ### Well-formedness is kept by the decoder -/

theorem to_int_to_u32_to_int (q : Nat) : to_int (to_u32 (to_int q)) = to_int q := by
  unfold to_u32 to_int
  have : q % 4294967296 < 4294967296 := Nat.mod_lt _ (by decide)
  split <;> split <;> omega

theorem valid_ref_mono (n : Nat) (r : list_ref) (h : valid_ref n r = true) :
    valid_ref (n + 1) r = true := by
  cases r with
  | head => rfl
  | node k =>
    simp only [valid_ref, decide_eq_true_eq] at h ⊢
    omega

theorem collect_icons_mem (d : Nat) (payload : List Nat) (allocs : Nat)
    (tbl tbl' : List (List unix_sk_listen_icon)) (b : Bool)
    (h : collect_icons d payload allocs tbl = some (b, tbl')) :
    tbl'.length = tbl.length ∧
    ∀ c' ∈ tbl', ∀ e ∈ c', e.sk_desc = d ∨ ∃ c ∈ tbl, e ∈ c := by
  induction payload generalizing allocs tbl with
  | nil =>
    simp only [collect_icons, Option.some.injEq, Prod.mk.injEq] at h
    rw [← h.2]
    exact ⟨rfl, fun c' hc' e he => Or.inr ⟨c', hc', he⟩⟩
  | cons q0 rest ih =>
    cases allocs with
    | zero =>
      simp only [collect_icons, Option.some.injEq, Prod.mk.injEq] at h
      rw [← h.2]
      exact ⟨rfl, fun c' hc' e he => Or.inr ⟨c', hc', he⟩⟩
    | succ allocs =>
      unfold collect_icons at h
      dsimp only at h
      split at h
      · exact Option.noConfusion h
      · rename_i chain hchain
        split at h
        · exact Option.noConfusion h
        · rename_i tbl1 hset
          obtain ⟨h0, hlt, htbl1⟩ := bucket_set_some _ _ _ _ hset
          have hget : tbl[(sk_bucket (to_int q0)).toNat]? = some chain := by
            unfold bucket_at at hchain
            rw [if_neg (not_lt.mpr h0)] at hchain
            exact hchain
          obtain ⟨hlen, hmem⟩ := ih allocs tbl1 h
          refine ⟨by rw [hlen, htbl1, List.length_set], ?_⟩
          intro c' hc' e he
          rcases hmem c' hc' e he with hd | ⟨c, hc, hec⟩
          · exact Or.inl hd
          · rw [htbl1] at hc
            rcases List.mem_or_eq_of_mem_set hc with hc | hc
            · exact Or.inr ⟨c, hc, hec⟩
            · subst hc
              rcases List.mem_cons.mp hec with e1 | e1
              · left
                rw [e1]
              · exact Or.inr ⟨chain, List.getElem?_mem hget, e1⟩

theorem decode_name_len (env : collect_env) (tb : unix_diag_attrs) (n : Nat)
    (name : Option (List Nat)) (h : decode_name env tb = name_result.named n name) :
    n ≤ (name.getD []).length := by
  unfold decode_name at h
  split at h
  · simp only [name_result.named.injEq] at h
    rw [← h.1, ← h.2]
    simp
  · split at h
    · exact name_result.noConfusion h
    · dsimp only at h
      split at h
      · split at h
        · exact name_result.noConfusion h
        · split at h
          · exact name_result.noConfusion h
          · split at h
            · exact name_result.noConfusion h
            · split at h
              · simp only [name_result.named.injEq] at h
                rw [← h.1, ← h.2]
                simp
              · simp only [name_result.named.injEq] at h
                rw [← h.1, ← h.2]
                simp
      · simp only [name_result.named.injEq] at h
        rw [← h.1, ← h.2]
        simp

theorem collect_finish_link (st st' : dump_state) (m : unix_diag_msg) (tb : unix_diag_attrs)
    (dx : unix_sk_desc) (r : Int)
    (h : collect_finish st m tb st.descs.length dx = some (r, st')) :
    ∃ dn chain, st' = link_desc st dn (sk_bucket (to_int m.udiag_ino)).toNat chain ∧
      st.sockets[(sk_bucket (to_int m.udiag_ino)).toNat]? = some chain ∧
      0 ≤ sk_bucket (to_int m.udiag_ino) ∧ dn.sd.ino = to_int m.udiag_ino ∧
      dn.list = dx.list ∧ dn.namelen = dx.namelen ∧ dn.name = dx.name := by
  unfold collect_finish sk_collect_one at h
  simp only [List.getElem?_concat_length] at h
  split at h
  · exact Option.noConfusion h
  · rename_i chain hchain
    split at h
    · exact Option.noConfusion h
    · rename_i tbl hset
      obtain ⟨h0, _, htbl⟩ := bucket_set_some _ _ _ _ hset
      have hget : st.sockets[(sk_bucket (to_int m.udiag_ino)).toNat]? = some chain := by
        unfold bucket_at at hchain
        rw [if_neg (not_lt.mpr h0)] at hchain
        exact hchain
      simp only [Option.some.injEq, Prod.mk.injEq] at h
      obtain ⟨_, h2⟩ := h
      subst h2
      subst htbl
      simp only [set_concat]
      refine ⟨_, chain, rfl, hget, h0, rfl, ?_, ?_, ?_⟩
      all_goals
        dsimp only
        split <;> rfl

/-- The state after the icon loop and `sk_collect_one` is well-formed. -/
theorem link_desc_wf (st : dump_state) (tbl : List (List unix_sk_listen_icon))
    (dn : unix_sk_desc) (b : Nat) (chain : List Nat) (hwf : wf_state st)
    (hlen : tbl.length = st.unix_listen_icons.length)
    (hmem : ∀ c' ∈ tbl, ∀ e ∈ c', e.sk_desc = st.descs.length ∨
      ∃ c ∈ st.unix_listen_icons, e ∈ c)
    (hb : st.sockets[b]? = some chain)
    (hlist : dn.list = { next := list_ref.node st.descs.length,
                         prev := list_ref.node st.descs.length })
    (hname : dn.namelen ≤ (dn.name.getD []).length)
    (hino : dn.sd.ino = to_int (to_u32 dn.sd.ino) ∧ 0 ≤ sk_bucket dn.sd.ino) :
    wf_state (link_desc { st with unix_listen_icons := tbl } dn b chain) := by
  obtain ⟨a, bb, c, d, e, g, hn, hi⟩ := hwf
  have htab : table_ok { st with unix_listen_icons := tbl } := ⟨a, c⟩
  obtain ⟨t1, t2⟩ := link_desc_table_ok { st with unix_listen_icons := tbl } dn b chain htab hb
  refine ⟨t1, ?_, t2, ?_, ?_, ?_, ?_, ?_⟩
  · simp only [link_desc]
    rw [hlen]
    exact bb
  · intro c' hc' e' he'
    simp only [link_desc, List.length_append, List.length_singleton] at hc' ⊢
    rcases hmem c' hc' e' he' with h1 | ⟨c0, hc0, hec0⟩
    · omega
    · exact Nat.lt_succ_of_lt (d c0 hc0 e' hec0)
  · intro y hy
    simp only [link_desc, List.mem_append, List.mem_singleton, List.length_append,
      List.length_singleton] at hy ⊢
    rcases hy with hy | hy
    · exact ⟨valid_ref_mono _ _ (e y hy).1, valid_ref_mono _ _ (e y hy).2⟩
    · subst hy
      rw [hlist]
      simp [valid_ref]
  · simp only [link_desc, List.length_append, List.length_singleton]
    exact ⟨valid_ref_mono _ _ g.1, valid_ref_mono _ _ g.2⟩
  · intro y hy
    simp only [link_desc, List.mem_append, List.mem_singleton] at hy
    rcases hy with hy | hy
    · exact hn y hy
    · subst hy
      exact hname
  · intro y hy
    simp only [link_desc, List.mem_append, List.mem_singleton] at hy
    rcases hy with hy | hy
    · exact hi y hy
    · subst hy
      exact hino

theorem collect_attrs_wf (st st' : dump_state) (env : collect_env) (m : unix_diag_msg)
    (tb : unix_diag_attrs) (d1 : unix_sk_desc) (hwf : wf_state st)
    (hlist : d1.list = { next := list_ref.node st.descs.length,
                         prev := list_ref.node st.descs.length })
    (h : collect_attrs st env m tb st.descs.length d1 = some (0, st')) : wf_state st' := by
  have hino : ∀ dn : unix_sk_desc, dn.sd.ino = to_int m.udiag_ino →
      0 ≤ sk_bucket (to_int m.udiag_ino) →
      dn.sd.ino = to_int (to_u32 dn.sd.ino) ∧ 0 ≤ sk_bucket dn.sd.ino := by
    intro dn h1 h2
    rw [h1, to_int_to_u32_to_int]
    exact ⟨rfl, h2⟩
  unfold collect_attrs at h
  split at h
  · simp at h
  · simp only [Option.some.injEq, Prod.mk.injEq, true_and] at h
    subst h
    exact hwf
  · rename_i n name hname
    have hnl := decode_name_len env tb n name hname
    dsimp only at h
    split at h
    · obtain ⟨dn, chain, hst, hb, h0, hi, hl, hnn, hnm⟩ := collect_finish_link _ _ _ _ _ _ h
      subst hst
      have := link_desc_wf st st.unix_listen_icons dn _ chain hwf rfl
        (fun c' hc' e he => Or.inr ⟨c', hc', he⟩) hb (by rw [hl]; exact hlist)
        (by rw [hnn, hnm]; exact hnl) (hino dn hi h0)
      exact this
    · rename_i payload _
      split at h
      · simp at h
      · split at h
        · exact Option.noConfusion h
        · simp at h
        · rename_i tbl hloop
          obtain ⟨hlen, hmem⟩ := collect_icons_mem _ _ _ _ _ _ hloop
          obtain ⟨dn, chain, hst, hb, h0, hi, hl, hnn, hnm⟩ := collect_finish_link
            { st with unix_listen_icons := tbl } _ _ _ _ _ h
          subst hst
          exact link_desc_wf st tbl dn _ chain hwf hlen hmem hb (by rw [hl]; exact hlist)
            (by rw [hnn, hnm]; exact hnl) (hino dn hi h0)

/-- A call of `unix_collect_one` that returns 0 leaves a well-formed state
well-formed. -/
theorem unix_collect_one_wf (st st' : dump_state) (env : collect_env) (m : unix_diag_msg)
    (tb : unix_diag_attrs) (hwf : wf_state st)
    (h : unix_collect_one st env m tb = some (0, st')) : wf_state st' := by
  unfold unix_collect_one at h
  split at h
  · simp at h
  · refine collect_attrs_wf st st' env m tb _ hwf ?_ h
    dsimp only
    split <;> rfl

/-- Every state reached from the initial one by calls of `unix_collect_one`
that return 0 is well-formed. -/
theorem unix_collect_seq_wf (calls : List (collect_env × unix_diag_msg × unix_diag_attrs))
    (st st' : dump_state) (hwf : wf_state st) (h : unix_collect_seq calls st = some st') :
    wf_state st' := by
  induction calls generalizing st with
  | nil =>
    simp only [unix_collect_seq, Option.some.injEq] at h
    rw [← h]
    exact hwf
  | cons c rest ih =>
    obtain ⟨env, m, tb⟩ := c
    unfold unix_collect_seq at h
    split at h
    · exact Option.noConfusion h
    · rename_i ret st1 hcall
      split at h
      · rename_i hret
        subst hret
        exact ih st1 (unix_collect_one_wf _ _ _ _ _ hwf hcall) h
      · exact Option.noConfusion h

/-! ### What a failing call of the decoder leaves behind -/

/-- A call of `unix_collect_one` that does not return 0 leaves the heap and the
socket table as they were; only the icon index can differ. -/
theorem unix_collect_one_failure_table (st st' : dump_state) (env : collect_env)
    (m : unix_diag_msg) (tb : unix_diag_attrs) (ret : Int) (hret : ret ≠ 0)
    (h : unix_collect_one st env m tb = some (ret, st')) :
    st'.descs = st.descs ∧ st'.sockets = st.sockets ∧ st'.unix_sockets = st.unix_sockets := by
  unfold unix_collect_one at h
  split at h
  · simp only [Option.some.injEq, Prod.mk.injEq] at h
    rw [← h.2]
    exact ⟨rfl, rfl, rfl⟩
  · unfold collect_attrs at h
    dsimp only at h
    split at h
    · simp only [Option.some.injEq, Prod.mk.injEq] at h
      rw [← h.2]
      exact ⟨rfl, rfl, rfl⟩
    · simp only [Option.some.injEq, Prod.mk.injEq] at h
      exact absurd h.1.symm hret
    · split at h
      · exact absurd (collect_finish_shape _ _ _ _ _ _ h).1 hret
      · split at h
        · simp only [Option.some.injEq, Prod.mk.injEq] at h
          rw [← h.2]
          exact ⟨rfl, rfl, rfl⟩
        · split at h
          · exact Option.noConfusion h
          · simp only [Option.some.injEq, Prod.mk.injEq] at h
            rw [← h.2]
            exact ⟨rfl, rfl, rfl⟩
          · exact absurd (collect_finish_shape
              { st with unix_listen_icons := _ } _ _ _ _ _ h).1 hret

/-! ### The bucket index of a 32-bit inode -/

/-- For an inode below 2^31 the bucket index is the inode modulo 32. -/
theorem sk_bucket_small (n : Nat) (h : n < 2147483648) :
    sk_bucket (to_int n) = ((n % 32 : Nat) : Int) := by
  have h1 : to_int n = ((n : Nat) : Int) := by
    unfold to_int
    have : n % 4294967296 = n := Nat.mod_eq_of_lt (by omega)
    rw [this, if_pos h]
  rw [h1]
  unfold sk_bucket SK_HASH_SIZE
  exact (Int.ofNat_tmod n 32).symm

/-- For an inode from 2^31 on the bucket index is minus the remainder of its
distance to 2^32: it is negative unless the inode is a multiple of 32. -/
theorem sk_bucket_large (n : Nat) (h0 : 2147483648 ≤ n) (h1 : n < 4294967296) :
    sk_bucket (to_int n) = -(((4294967296 - n) % 32 : Nat) : Int) ∧
    (n % 32 ≠ 0 → sk_bucket (to_int n) < 0) := by
  have hm : to_int n = Int.negSucc (4294967296 - n - 1) := by
    unfold to_int
    have : n % 4294967296 = n := Nat.mod_eq_of_lt h1
    rw [this, if_neg (by omega), Int.negSucc_eq]
    omega
  have hb : sk_bucket (to_int n) = -(((4294967296 - n) % 32 : Nat) : Int) := by
    rw [hm]
    unfold sk_bucket SK_HASH_SIZE
    have hs : (4294967296 - n - 1).succ = 4294967296 - n := by omega
    show -Int.ofNat ((4294967296 - n - 1).succ % 32) = _
    rw [hs]
    rfl
  refine ⟨hb, ?_⟩
  intro hn
  rw [hb]
  have : (4294967296 - n) % 32 ≠ 0 := by omega
  omega

/-- C12: the inode 0xffffffff, which the kernel can report, is the `int` -1 in
the code; the bucket index computed for it is -1, not 0xffffffff mod 32 = 31,
and the four functions use it to index outside their 32-slot arrays:
`lookup_socket`, `lookup_unix_listen_icons`, `sk_collect_one` and
`unix_collect_one` (for the inode of the socket and for an icon) have no
defined result. -/
theorem bucket_index_of_large_inode :
    to_int 4294967295 = -1 ∧ sk_bucket (to_int 4294967295) = -1 ∧
    4294967295 % SK_HASH_SIZE = 31 ∧
    bucket_at init_state.sockets (sk_bucket (to_int 4294967295)) = none ∧
    lookup_socket init_state (to_int 4294967295) = none ∧
    lookup_unix_listen_icons init_state (to_int 4294967295) = none ∧
    sk_collect_fresh init_state (to_int 4294967295) AF_UNIX = none ∧
    unix_collect_one init_state sample_collect_env
      { udiag_type := SOCK_STREAM, udiag_state := TCP_LISTEN, udiag_ino := 4294967295 }
      no_attrs = none ∧
    unix_collect_one init_state sample_collect_env
      { udiag_type := SOCK_STREAM, udiag_state := TCP_LISTEN, udiag_ino := 100 }
      { no_attrs with icons := some [4294967295] } = none := by
  refine ⟨by decide, by decide, by decide, by decide, by decide, by decide, by decide,
    by decide, by decide⟩

/-! ### The external finalizer -/

theorem buf_bytes_take (name : Option (List Nat)) (n : Nat)
    (h : n ≤ (name.getD []).length) :
    buf_bytes name n = some ((name.getD []).take n) := by
  unfold buf_bytes
  by_cases h0 : n = 0
  · simp [h0]
  · cases name with
    | none =>
      simp at h
      exact absurd h h0
    | some b =>
      simp only [Option.getD_some] at h
      simp [h0, h]

/-- With `ext_unix_sk` disabled the first iteration decides. -/
theorem fix_loop_ext_off (fuel writes : Nat) (cur : list_ref) (st : dump_state)
    (l : List Nat) (hp : defer_path st.descs cur l = true) (hfuel : l.length < fuel)
    (hnd : ∀ d ∈ l, ∀ x, st.descs[d]? = some x → x.sd.already_dumped = 0) :
    fix_loop false fuel writes cur st =
      fix_outcome.returned (if l = [] then 0 else -1) st := by
  cases fuel with
  | zero => omega
  | succ fuel =>
    cases l with
    | nil =>
      simp only [defer_path, decide_eq_true_eq] at hp
      subst hp
      simp [fix_loop]
    | cons d rest =>
      simp only [defer_path, Bool.and_eq_true, decide_eq_true_eq] at hp
      obtain ⟨hc, hrest⟩ := hp
      subst hc
      cases hx : st.descs[d]? with
      | none => simp [hx] at hrest
      | some x =>
        have h0 := hnd d (List.mem_cons_self _ _) x hx
        simp [fix_loop, hx, h0]

/-- With `ext_unix_sk` enabled the loop runs over the whole list, or up to its
first socket that is not a datagram socket. -/
theorem fix_loop_ext_on (l : List Nat) :
    ∀ (fuel writes : Nat) (cur : list_ref) (st : dump_state),
      defer_path st.descs cur l = true → l.length < fuel → 2 * l.length ≤ writes →
      (∀ d ∈ l, ∀ x, st.descs[d]? = some x →
        x.sd.already_dumped = 0 ∧ x.namelen ≤ (x.name.getD []).length) →
      ∃ ret st', fix_loop true fuel writes cur st = fix_outcome.returned ret st' ∧
        st'.descs = st.descs ∧ st'.sk_queues = st.sk_queues ∧
        (ret = 0 ∨ ret = -1) ∧
        (ret = -1 ↔ ∃ d ∈ l, ∃ x, st.descs[d]? = some x ∧ x.type ≠ SOCK_DGRAM) ∧
        (ret = 0 → st'.unixsk_img = st.unixsk_img ++ expected_extern_items st.descs l) := by
  induction l with
  | nil =>
    intro fuel writes cur st hp hfuel _ _
    cases fuel with
    | zero => omega
    | succ fuel =>
      simp only [defer_path, decide_eq_true_eq] at hp
      subst hp
      refine ⟨0, st, by simp [fix_loop], rfl, rfl, Or.inl rfl, ?_, ?_⟩
      · simp
      · intro _
        simp [expected_extern_items]
  | cons d rest ih =>
    intro fuel writes cur st hp hfuel hwrites hok
    cases fuel with
    | zero => omega
    | succ fuel =>
      simp only [defer_path, Bool.and_eq_true, decide_eq_true_eq] at hp
      obtain ⟨hc, hrest⟩ := hp
      subst hc
      cases hx : st.descs[d]? with
      | none => simp [hx] at hrest
      | some x =>
        simp only [hx] at hrest
        obtain ⟨h0, hname⟩ := hok d (List.mem_cons_self _ _) x hx
        have hd0 : ¬ x.sd.already_dumped ≠ 0 := by rw [h0]; decide
        simp only [List.length_cons] at hfuel hwrites
        unfold fix_loop
        simp only [hx]
        rw [if_neg hd0, if_neg (by decide)]
        by_cases ht : x.type ≠ SOCK_DGRAM
        · rw [if_pos ht]
          refine ⟨-1, st, rfl, rfl, rfl, Or.inr rfl, ?_, ?_⟩
          · constructor
            · intro _
              exact ⟨d, List.mem_cons_self _ _, x, hx, ht⟩
            · intro _
              rfl
          · intro h
            exact absurd h (by decide)
        · rw [if_neg ht, if_neg (by omega)]
          rw [buf_bytes_take x.name x.namelen hname]
          dsimp only
          rw [if_neg (by omega)]
          obtain ⟨ret, st', hres, hdescs, hq, hret, hiff, himg⟩ := ih fuel (writes - 2)
            x.list.next
            { st with unixsk_img := st.unixsk_img ++ [img_item.entry (extern_entry x)] ++
                ((x.name.getD []).take x.namelen).map img_item.byte }
            hrest (by omega) (by omega)
            (fun d' hd' x' hx' => hok d' (List.mem_cons_of_mem _ hd') x' hx')
          refine ⟨ret, st', hres, hdescs, hq, hret, ?_, ?_⟩
          · rw [hiff]
            constructor
            · rintro ⟨d', hd', x', hx', ht'⟩
              exact ⟨d', List.mem_cons_of_mem _ hd', x', hx', ht'⟩
            · rintro ⟨d', hd', x', hx', ht'⟩
              rcases List.mem_cons.mp hd' with e | e
              · subst e
                rw [hx] at hx'
                have : x = x' := Option.some.inj hx'
                subst this
                exact absurd ht' ht
              · exact ⟨d', e, x', hx', ht'⟩
          · intro h
            rw [himg h]
            simp only [expected_extern_items, hx, extern_entry]
            simp

/-- A deferred socket whose `next` link is its own node is visited again and
again: with image writes that succeed the loop of the finalizer has not returned
after any number of iterations. -/
theorem fix_loop_self_linked (d : Nat) (x : unix_sk_desc) (hn : x.list.next = list_ref.node d)
    (h0 : x.sd.already_dumped = 0) (ht : x.type = SOCK_DGRAM)
    (hname : x.namelen ≤ (x.name.getD []).length) :
    ∀ (fuel : Nat) (st : dump_state), st.descs[d]? = some x →
      ∃ st', fix_loop true fuel (2 * fuel) (list_ref.node d) st = fix_outcome.unfinished st' := by
  intro fuel
  induction fuel with
  | zero =>
    intro st _
    exact ⟨st, rfl⟩
  | succ fuel ih =>
    intro st hx
    have hd0 : ¬ x.sd.already_dumped ≠ 0 := by rw [h0]; decide
    have ht0 : ¬ x.type ≠ SOCK_DGRAM := by rw [ht]; decide
    unfold fix_loop
    simp only [hx]
    rw [if_neg hd0, if_neg (by decide), if_neg ht0, if_neg (by omega),
      buf_bytes_take x.name x.namelen hname]
    dsimp only
    rw [if_neg (by omega), hn]
    have hw : 2 * (fuel + 1) - 2 = 2 * fuel := by omega
    rw [hw]
    exact ih _ hx

/-- C13: from the post-collection state `sample_clients` (empty external-defer
list, every `already_dumped` flag clear) three successful `dump_one_unix` calls,
for the two clients 200 and 201 of the named socket 100 and then for the socket
100 itself, reach a state in which the descriptor of the socket 100 is the
first entry of the external-defer list and has `already_dumped` set: the
second `list_add_tail` of the same node leaves it linked to itself, so that
`list_del_init` does not take it off the list.  There the assertion of
`fix_external_unix_sockets` fires. -/
theorem dumped_socket_stays_deferred :
    sample_clients.unix_sockets = { next := list_ref.head, prev := list_ref.head } ∧
    sample_clients.descs.map (fun x => x.sd.already_dumped) = [0, 0, 0, 0, 0] ∧
    (dump_one_unix sample_clients sample_dump_env 1 (sample_parms 3) 0).map Prod.fst = some 0 ∧
    (dump_one_unix (state_of (dump_one_unix sample_clients sample_dump_env 1 (sample_parms 3) 0))
      sample_dump_env 2 (sample_parms 4) 0).map Prod.fst = some 0 ∧
    (dump_one_unix sample_deferred_twice sample_dump_env 0 (sample_parms 5) 0).map Prod.fst =
      some 0 ∧
    (sample_deferred_twice.descs[0]?).map (fun x => x.list) =
      some { next := list_ref.node 0, prev := list_ref.node 0 } ∧
    sample_dumped_on_list.unix_sockets.next = list_ref.node 0 ∧
    (sample_dumped_on_list.descs[0]?).map (fun x => (x.sd.ino, x.sd.already_dumped)) =
      some (100, 1) ∧
    fix_external_unix_sockets true 8 16 sample_dumped_on_list =
      fix_outcome.bug sample_dumped_on_list := by
  refine ⟨by decide, by decide, by decide, by decide, by decide, by decide, by decide,
    by decide, by decide⟩

/-- C11, as stated: in `sample_dumped_in_list`, a state reached by four
successful dumps, the external-defer list is the intact list of the
descriptors 0 and 3, `ext_unix_sk` is disabled and every image write would
succeed, but the finalizer does not return failure: the first deferred socket
is already dumped and the assertion comes before the policy tests.  In
`sample_deferred_twice` the deferred socket is linked to itself and, with
`ext_unix_sk` enabled, the finalizer has not returned after 30 iterations, each
of which appended a record. -/
theorem finalizer_stops_at_assertion :
    defer_path sample_dumped_in_list.descs sample_dumped_in_list.unix_sockets.next [0, 3] = true ∧
    fix_external_unix_sockets false 8 16 sample_dumped_in_list =
      fix_outcome.bug sample_dumped_in_list ∧
    (∀ ret st, fix_external_unix_sockets false 8 16 sample_dumped_in_list ≠
      fix_outcome.returned ret st) ∧
    (∀ ret st, fix_external_unix_sockets true 30 60 sample_deferred_twice ≠
      fix_outcome.returned ret st) := by
  have h1 : fix_external_unix_sockets false 8 16 sample_dumped_in_list =
      fix_outcome.bug sample_dumped_in_list := by decide
  have hx : sample_deferred_twice.descs[0]? = some
      { sd := { family := 1, ino := 100, already_dumped := 0 }, type := 2, state := 7,
        peer_ino := 0, rqlen := 0, wqlen := 0, namelen := 2, name := some [0, 97, 0],
        nr_icons := 0, icons := none,
        list := { next := list_ref.node 0, prev := list_ref.node 0 } } := by decide
  have h2 : sample_deferred_twice.unix_sockets.next = list_ref.node 0 := by decide
  refine ⟨by decide, h1, ?_, ?_⟩
  · intro ret st h
    rw [h1] at h
    exact fix_outcome.noConfusion h
  · intro ret st h
    obtain ⟨st', hs⟩ := fix_loop_self_linked 0 _ rfl rfl rfl (by decide) 30
      sample_deferred_twice hx
    unfold fix_external_unix_sockets at h
    rw [h2, hs] at h
    exact fix_outcome.noConfusion h

/-- C11, amended: when the external-defer list is intact (following the `next`
links from the head visits the descriptors `l` and comes back to the head), no
deferred socket is already dumped, every name buffer holds its `namelen` bytes
and the image writes succeed, `fix_external_unix_sockets` returns 0 or -1; it
returns -1 if and only if the list is non-empty and either `ext_unix_sk` is
disabled or some deferred socket is not `SOCK_DGRAM`; when it returns 0 it has
appended, for each deferred socket in list order, one record with id = the
inode, type = `SOCK_DGRAM`, state = `TCP_LISTEN`, peer = 0, uflags =
`USK_EXTERN`, namelen = the name length, followed by exactly `namelen` name
bytes.  It dumps no queue and leaves the descriptors as they are. -/
theorem fix_external_unix_sockets_policy (st : dump_state) (ext : Bool) (fuel writes : Nat)
    (l : List Nat)
    (hlist : defer_path st.descs st.unix_sockets.next l = true)
    (hnd : ∀ d ∈ l, (st.descs[d]?).map (fun x => x.sd.already_dumped) = some 0)
    (hnames : ∀ x ∈ st.descs, x.namelen ≤ (x.name.getD []).length)
    (hfuel : l.length < fuel) (hwrites : 2 * l.length ≤ writes) :
    ∃ ret st', fix_external_unix_sockets ext fuel writes st = fix_outcome.returned ret st' ∧
      (ret = 0 ∨ ret = -1) ∧
      (ret = -1 ↔ l ≠ [] ∧
        (ext = false ∨ ∃ d ∈ l, ∃ x, st.descs[d]? = some x ∧ x.type ≠ SOCK_DGRAM)) ∧
      (ret = 0 → st'.unixsk_img = st.unixsk_img ++ expected_extern_items st.descs l) ∧
      (∀ d ∈ l, ∀ x, st.descs[d]? = some x →
        ((x.name.getD []).take x.namelen).length = x.namelen) ∧
      st'.sk_queues = st.sk_queues ∧ st'.descs = st.descs := by
  have hnd' : ∀ d ∈ l, ∀ x, st.descs[d]? = some x → x.sd.already_dumped = 0 := by
    intro d hd x hx
    have h := hnd d hd
    rw [hx] at h
    exact Option.some.inj h
  have hlen : ∀ d ∈ l, ∀ x, st.descs[d]? = some x →
      ((x.name.getD []).take x.namelen).length = x.namelen := by
    intro d _ x hx
    have := hnames x (List.getElem?_mem hx)
    rw [List.length_take]
    omega
  unfold fix_external_unix_sockets
  cases ext with
  | false =>
    rw [fix_loop_ext_off fuel writes st.unix_sockets.next st l hlist hfuel hnd']
    by_cases hl : l = []
    · subst hl
      refine ⟨0, st, rfl, Or.inl rfl, ?_, ?_, hlen, rfl, rfl⟩
      · simp
      · intro _
        simp [expected_extern_items]
    · rw [if_neg hl]
      refine ⟨-1, st, rfl, Or.inr rfl, ?_, ?_, hlen, rfl, rfl⟩
      · simp [hl]
      · intro h
        exact absurd h (by decide)
  | true =>
    obtain ⟨ret, st', hres, hdescs, hq, hret, hiff, himg⟩ :=
      fix_loop_ext_on l fuel writes st.unix_sockets.next st hlist hfuel hwrites
        (fun d hd x hx => ⟨hnd' d hd x hx, hnames x (List.getElem?_mem hx)⟩)
    refine ⟨ret, st', hres, hret, ?_, himg, hlen, hq, hdescs⟩
    rw [hiff]
    constructor
    · rintro ⟨d, hd, x, hx, ht⟩
      exact ⟨List.ne_nil_of_mem hd, Or.inr ⟨d, hd, x, hx, ht⟩⟩
    · rintro ⟨_, h | h⟩
      · exact absurd h (by decide)
      · exact h

/-- The theorem for C11 applied to `sample_two_deferred`, whose external-defer
list holds the named sockets 100 and 300 (descriptors 0 and 3), with
`ext_unix_sk` enabled. -/
theorem fix_external_unix_sockets_policy_witness :
    defer_path sample_two_deferred.descs sample_two_deferred.unix_sockets.next [0, 3] = true ∧
    ∃ ret st', fix_external_unix_sockets true 8 16 sample_two_deferred =
        fix_outcome.returned ret st' ∧
      (ret = 0 ∨ ret = -1) ∧
      (ret = -1 ↔ [0, 3] ≠ [] ∧
        (true = false ∨ ∃ d ∈ [0, 3], ∃ x, sample_two_deferred.descs[d]? = some x ∧
          x.type ≠ SOCK_DGRAM)) ∧
      (ret = 0 → st'.unixsk_img = sample_two_deferred.unixsk_img ++
        expected_extern_items sample_two_deferred.descs [0, 3]) ∧
      (∀ d ∈ [0, 3], ∀ x, sample_two_deferred.descs[d]? = some x →
        ((x.name.getD []).take x.namelen).length = x.namelen) ∧
      st'.sk_queues = sample_two_deferred.sk_queues ∧ st'.descs = sample_two_deferred.descs :=
  ⟨by decide, fix_external_unix_sockets_policy sample_two_deferred true 8 16 [0, 3]
    (by decide) (by decide) (by decide) (by decide) (by decide)⟩

/-- The run of the finalizer on `sample_two_deferred`: it returns 0 and the
image gains the external records of the sockets 100 and 300, each followed by
its two name bytes. -/
theorem fix_external_two_deferred :
    fix_external_unix_sockets true 8 16 sample_two_deferred =
      fix_outcome.returned 0 { sample_two_deferred with
        unixsk_img := sample_two_deferred.unixsk_img ++
          [img_item.entry { id := 100, type := SOCK_DGRAM, state := TCP_LISTEN, namelen := 2,
                            flags := 0, backlog := 0, peer := 0, fown := zero_fown,
                            uflags := USK_EXTERN },
           img_item.byte 0, img_item.byte 97,
           img_item.entry { id := 300, type := SOCK_DGRAM, state := TCP_LISTEN, namelen := 2,
                            flags := 0, backlog := 0, peer := 0, fown := zero_fown,
                            uflags := USK_EXTERN },
           img_item.byte 0, img_item.byte 97] } := by
  decide

end Criu
